import Mathlib

/-!
# Protocol stack: checksum, IPv4 datapath, TCP connection primitives, ARP, UDP and ICMP

A shallow embedding of `utils.c`, `ip.c`, `tcp.c`, `ethernet.c`, `arp.c`, `udp.c` and
`icmp.c`.  Memory is a list of byte values, a pointer into a buffer is an offset into its
storage, machine integers are naturals reduced modulo their width where the C code can
wrap.  The host is little-endian, as the code's use of `swap16` / `swap32` for network byte
order presupposes.

The frame-buffer layer (`buf.h`, `buf.c`), the map (`map.c`), the header layouts (`ip.h`,
`ethernet.h`, `arp.h`, `udp.h`, `icmp.h`) and the interface constants (`net.h`, `config.h`)
are not among the sources; they are modelled from the specification and marked as such.
-/

namespace NetStack

/-! ## utils.h / utils.c -/

/-- Byte swap of a 16-bit value, `swap16` of utils.h:
`((x & 0xFF) << 8) | ((x >> 8) & 0xFF)` on a `uint16_t` argument. -/
def swap16 (x : Nat) : Nat :=
  ((x % 65536) % 256) * 256 + ((x % 65536) / 256) % 256

/-- Byte swap of a 32-bit value, `swap32` of utils.h, on a `uint32_t` argument. -/
def swap32 (x : Nat) : Nat :=
  ((x % 4294967296) % 256) * 16777216 + (((x % 4294967296) / 256) % 256) * 65536
    + (((x % 4294967296) / 65536) % 256) * 256 + ((x % 4294967296) / 16777216) % 256

/-- The function `min32` of utils.h; both arguments are converted to `uint32_t`. -/
def min32 (a b : Nat) : Nat :=
  if a % 4294967296 < b % 4294967296 then a % 4294967296 else b % 4294967296

/-- Difference of two `uint32_t` values, computed modulo 2^32 as C does. -/
def sub32 (a b : Nat) : Nat :=
  (a % 4294967296 + (4294967296 - b % 4294967296)) % 4294967296

/-- The two bytes a `uint16_t` occupies in memory on the host. -/
def store16 (x : Nat) : List Nat := [x % 256, (x / 256) % 256]

/-- The four bytes a `uint32_t` occupies in memory on the host. -/
def store32 (x : Nat) : List Nat :=
  [x % 256, (x / 256) % 256, (x / 65536) % 256, (x / 16777216) % 256]

/-- Step 1 of `checksum16` (utils.c): the loop `for (i = 0; i < len; i += 2)` over the
`len` bytes at `data`, with the `uint32_t` accumulator `sum`.  A full pair is read as the
host-order word `data[i / 2]`; a trailing single byte (`i == len - 1`) is added as is. -/
def sum16 : List Nat → Nat → Nat
  | [], sum => sum
  | [b], sum => (sum + b) % 4294967296
  | b0 :: b1 :: rest, sum => sum16 rest ((sum + (b0 + 256 * b1)) % 4294967296)

/-- Step 2 of `checksum16`: `while ((sum >> 16) != 0) sum = (sum & 0xFFFF) + (sum >> 16);`
The first argument bounds the number of rounds. -/
def fold16 : Nat → Nat → Nat
  | 0, sum => sum
  | fuel + 1, sum =>
    if sum / 65536 ≠ 0 then fold16 fuel (sum % 65536 + sum / 65536) else sum

/-- The function `checksum16(data, len)` of utils.c, applied to the `len` bytes at `data`.
Each round of the folding loop makes `sum` smaller, so `sum` rounds always suffice; the
result is `(~sum) & 0xFFFF`. -/
def checksum16 (bytes : List Nat) : Nat :=
  let sum := sum16 bytes 0
  let sum := fold16 sum sum
  (4294967295 - sum) % 65536

/-- The sum of the 16-bit words of a byte run, without reduction. -/
def wsum : List Nat → Nat
  | [] => 0
  | [b] => b
  | b0 :: b1 :: rest => b0 + 256 * b1 + wsum rest

/-- Closed form of the folding loop on a 32-bit sum: at most two rounds run. -/
def folded (s : Nat) : Nat :=
  if s < 65536 then s
  else if s % 65536 + s / 65536 < 65536 then s % 65536 + s / 65536
  else (s % 65536 + s / 65536) % 65536 + (s % 65536 + s / 65536) / 65536

/-! ## Memory -/

/-- The `n` bytes of `mem` starting at offset `off`. -/
def memRead (mem : List Nat) (off n : Nat) : List Nat := (mem.drop off).take n

/-- Storing `bytes` at offset `off` (`memcpy` into `mem`).  A store that would run past the
end of the storage is undefined in C; the model leaves the storage as it is. -/
def memWrite (mem : List Nat) (off : Nat) (bytes : List Nat) : List Nat :=
  if off + bytes.length ≤ mem.length then
    mem.take off ++ bytes ++ mem.drop (off + bytes.length)
  else mem

/-- One byte of `mem`. -/
def rd8 (mem : List Nat) (off : Nat) : Nat := mem.getD off 0

/-- A host-order `uint16_t` load from `mem`. -/
def rd16 (mem : List Nat) (off : Nat) : Nat := rd8 mem off + 256 * rd8 mem (off + 1)

/-! ## Interface configuration and frame buffers -/

/-- An IPv4 address, `uint8_t ip[NET_IP_LEN]` with `NET_IP_LEN = 4`. -/
structure ip_t where
  b0 : Nat
  b1 : Nat
  b2 : Nat
  b3 : Nat
deriving DecidableEq

/-- The four bytes of an address in memory order. -/
def ip_t.bytes (a : ip_t) : List Nat := [a.b0, a.b1, a.b2, a.b3]

/-- The address stored in the four bytes at `off`. -/
def rdIp (mem : List Nat) (off : Nat) : ip_t :=
  ⟨rd8 mem off, rd8 mem (off + 1), rd8 mem (off + 2), rd8 mem (off + 3)⟩

/-- Modelled from the spec: the compile-time configuration (§6; `config.h` and `buf.h` are
not among the sources).  `BUF_MAX_LEN` is the capacity `CAP` of a frame buffer and
`net_if_ip` the local IPv4 address.  `origin size` is the offset from `payload` at which
`buf_init(size)` places `data`: §3 words it as the start of the buffer, §4.1 requires
headroom in front of it for the header prepends of egress, so the position is left to the
configuration (`origin = fun _ => 0` is the reading without headroom). -/
structure NetCfg where
  BUF_MAX_LEN : Nat
  origin : Nat → Nat
  net_if_ip : ip_t

/-- Modelled from the spec: the frame buffer `buf_t` of §3 (`buf.h` is not among the
sources): the storage `payload`, the offset `data` of the data pointer from `payload`,
and the length `len` of the data. -/
structure buf_t where
  len : Nat
  data : Nat
  payload : List Nat
deriving DecidableEq

/-- The contents of a buffer: the `len` bytes at `data`. -/
def buf_t.bytes (b : buf_t) : List Nat := memRead b.payload b.data b.len

/-- Modelled from the spec: `buf_init` of the frame-buffer layer (§3 `init(size)`; `buf.c`
is not among the sources): `len = size` and `data` at the configured start position.  The
storage is not touched. -/
def buf_init (cfg : NetCfg) (b : buf_t) (size : Nat) : buf_t :=
  { b with len := size, data := cfg.origin size }

/-- Modelled from the spec: `buf_add_header` (§3 `add_header(n)`; `buf.c` is not among the
sources): shifts `data` left by `n` and extends `len`; fails with -1, changing nothing,
if `data - n < payload`. -/
def buf_add_header (b : buf_t) (n : Nat) : buf_t × Int :=
  if b.data < n then (b, -1) else ({ b with data := b.data - n, len := b.len + n }, 0)

/-- Modelled from the spec: `buf_remove_header` (§3 `remove_header(n)`; `buf.c` is not
among the sources): shifts `data` right by `n` and decrements `len`.  §4.1 gives every
operation a failure indicator but names no failure case for this one; the model fails with
-1, changing nothing, if the buffer holds fewer than `n` bytes. -/
def buf_remove_header (b : buf_t) (n : Nat) : buf_t × Int :=
  if b.len < n then (b, -1) else ({ b with data := b.data + n, len := b.len - n }, 0)

/-- Modelled from the spec: `buf_add_padding` (§3 `add_padding(n)`; `buf.c` is not among
the sources): extends `len` by `n`; fails with -1, changing nothing, if the data would
exceed the capacity. -/
def buf_add_padding (cfg : NetCfg) (b : buf_t) (n : Nat) : buf_t × Int :=
  if cfg.BUF_MAX_LEN < b.data + b.len + n then (b, -1) else ({ b with len := b.len + n }, 0)

/-- Modelled from the spec: `buf_remove_padding` (§3 `remove_padding(n)`; `buf.c` is not
among the sources): decrements `len` by `n`.  §4.1 names no failure case for this
operation; the model fails with -1, changing nothing, if the buffer holds fewer than `n`
bytes. -/
def buf_remove_padding (b : buf_t) (n : Nat) : buf_t × Int :=
  if b.len < n then (b, -1) else ({ b with len := b.len - n }, 0)

/-- Modelled from the spec: `buf_copy(dst, src, len)` (§3; `buf.c` is not among the
sources): `dst` becomes an independent copy of `src`. -/
def buf_copy (src : buf_t) : buf_t := src

/-! ## ip.c -/

/-- Modelled from the spec: `sizeof(ip_hdr_t)`, the IPv4 header without options (§6;
`ip.h` is not among the sources). -/
def IP_HDR_LEN : Nat := 20

/-- Modelled from the spec: `IP_VERSION_4` (`ip.h` is not among the sources). -/
def IP_VERSION_4 : Nat := 4

/-- Modelled from the spec: `IP_MORE_FRAGMENT`, the MF bit of the combined
flags/fragment-offset field (RFC 791; `ip.h` is not among the sources). -/
def IP_MORE_FRAGMENT : Nat := 8192

/-- Modelled from the spec: protocol numbers of `net_protocol_t` (`net.h` is not among the
sources). -/
def NET_PROTOCOL_ICMP : Nat := 1

/-- Modelled from the spec: protocol number 6 of §4.5 (`net.h` is not among the sources). -/
def NET_PROTOCOL_TCP : Nat := 6

/-- Modelled from the spec: protocol number of UDP (`net.h` is not among the sources). -/
def NET_PROTOCOL_UDP : Nat := 17

/-- Modelled from the spec: the ICMP code "protocol unreachable" (RFC 792; `icmp.h` is not
among the sources). -/
def ICMP_CODE_PROTOCOL_UNREACH : Nat := 2

/-- Modelled from the spec: the memory image of an `ip_hdr_t` (RFC 791 layout, §6; `ip.h`
is not among the sources) as `ip_fragment_out` fills it: version 4 in the high and
`hdr_len = sizeof(ip_hdr_t) / 4` in the low nibble of byte 0, `tos`, `total_len16`, `id16`,
`flags_fragment16`, `ttl = 64`, `protocol`, `hdr_checksum16`, `src_ip`, `dst_ip`.  The
16-bit arguments are the values stored into the fields (already byte-swapped). -/
def ip_hdr_image (total_len16 id16 flags_fragment16 protocol hdr_checksum16 : Nat)
    (src_ip dst_ip : ip_t) : List Nat :=
  [IP_VERSION_4 * 16 + IP_HDR_LEN / 4, 0] ++ store16 total_len16 ++ store16 id16
    ++ store16 flags_fragment16 ++ [64, protocol % 256] ++ store16 hdr_checksum16
    ++ src_ip.bytes ++ dst_ip.bytes

/-- The function `ip_fragment_out(buf, ip, protocol, id, offset, mf)` of ip.c.  The result
is the buffer handed to `arp_out(buf, ip)`, the fragment the IP layer emits.  The status of
`buf_add_header` is ignored, as in the source. -/
def ip_fragment_out (cfg : NetCfg) (buf : buf_t) (ip : ip_t) (protocol id offset mf : Nat) :
    buf_t :=
  let buf := (buf_add_header buf IP_HDR_LEN).1
  let flags := swap16 ((if mf ≠ 0 then IP_MORE_FRAGMENT else 0) ||| (offset % 65536))
  let mem := memWrite buf.payload buf.data
    (ip_hdr_image (swap16 buf.len) (swap16 id) flags protocol 0 cfg.net_if_ip ip)
  let new_checksum := checksum16 (memRead mem buf.data IP_HDR_LEN)
  { buf with payload := memWrite mem (buf.data + 10) (store16 new_checksum) }

/-- The fragmenting loop of `ip_out`:
`for (i = 0; (i + 1) * max_load_length < buf->len; i++)`, started at `i`, for a run during
which `*buf` keeps its contents (see `ip_out`).  Every round initialises the automatic
buffer `ip_buf` (initial contents `junk`), copies one full slice and emits it with MF set.
Returns the emitted fragments and the final `i`.  The first argument bounds the number of
rounds.  The loop that re-reads `txbuf` after every `arp_out` is `ip_out_tx_loop`. -/
def ip_out_loop (cfg : NetCfg) (junk buf : buf_t) (ip : ip_t) (protocol id : Nat) :
    Nat → Nat → List buf_t × Nat
  | 0, i => ([], i)
  | fuel + 1, i =>
    if (i + 1) * (1500 - IP_HDR_LEN) < buf.len then
      let ip_buf := buf_init cfg junk (1500 - IP_HDR_LEN)
      let slice := memRead buf.payload (buf.data + i * (1500 - IP_HDR_LEN)) (1500 - IP_HDR_LEN)
      let ip_buf := { ip_buf with payload := memWrite ip_buf.payload ip_buf.data slice }
      let frag := ip_fragment_out cfg ip_buf ip protocol id (i * ((1500 - IP_HDR_LEN) / 8)) 1
      let rest := ip_out_loop cfg junk buf ip protocol id fuel (i + 1)
      (frag :: rest.1, rest.2)
    else ([], i)

/-- The function `ip_out(buf, ip, protocol)` of ip.c, with the value `id` of its static
counter and the indeterminate initial contents `junk` of its automatic buffers `ip_buf`,
for a call during which `*buf` keeps its contents: the `arp_out` calls made through
`ip_fragment_out` send no ARP request (the address is resolved or a request is pending), or
the payload fits one fragment, so that `*buf` is read only before the one `arp_out` call.
Returns the fragments handed to `arp_out`, in emission order, and the counter after the
call.  The loop index never exceeds `buf->len`, so `buf->len` rounds suffice.
Every caller passes `&txbuf`, which `arp_req` re-initialises when `arp_out` has to ask for
the address; the call with that effect is `ip_out_tx`, and it agrees with this function in
the cases above (`ip_out_tx_quiet`, `ip_out_tx_short`). -/
def ip_out (cfg : NetCfg) (junk buf : buf_t) (ip : ip_t) (protocol id : Nat) :
    List buf_t × Nat :=
  let r := ip_out_loop cfg junk buf ip protocol id buf.len 0
  let i := r.2
  let ip_buf := buf_init cfg junk (buf.len - i * (1500 - IP_HDR_LEN))
  let slice := memRead buf.payload (buf.data + i * (1500 - IP_HDR_LEN))
    (buf.len - i * (1500 - IP_HDR_LEN))
  let ip_buf := { ip_buf with payload := memWrite ip_buf.payload ip_buf.data slice }
  let last := ip_fragment_out cfg ip_buf ip protocol id (i * ((1500 - IP_HDR_LEN) / 8)) 0
  (r.1 ++ [last], id + 1)

/-- What one `ip_in` call does to the outside: the call of `net_in` (buffer, protocol,
source address), the call of `icmp_unreachable` (copy of the frame, destination, code),
and the caller's buffer afterwards. -/
structure ip_in_result where
  delivered : Option (buf_t × Nat × ip_t)
  unreachable : Option (buf_t × ip_t × Nat)
  buf : buf_t
deriving DecidableEq

/-- The function `ip_in(buf, src_mac)` of ip.c.  `net_in` stands for the demultiplexer of
`net.c` (not among the sources) and yields its return value. -/
def ip_in (cfg : NetCfg) (net_in : buf_t → Nat → ip_t → Int) (buf : buf_t) : ip_in_result :=
  if buf.len < IP_HDR_LEN then ⟨none, none, buf⟩
  else
    let copy := buf_copy buf
    let hdr := buf.data
    if rd8 buf.payload hdr / 16 ≠ IP_VERSION_4 then ⟨none, none, buf⟩
    else if buf.len < swap16 (rd16 buf.payload (hdr + 2)) then ⟨none, none, buf⟩
    else
      let hdr_checksum16_backup := rd16 buf.payload (hdr + 10)
      let zeroed := { buf with payload := memWrite buf.payload (hdr + 10) (store16 0) }
      let hdr_checksum16 := checksum16 (memRead zeroed.payload hdr IP_HDR_LEN)
      if hdr_checksum16 ≠ hdr_checksum16_backup then ⟨none, none, zeroed⟩
      else
        let restored := memWrite zeroed.payload (hdr + 10) (store16 hdr_checksum16_backup)
        let buf := { zeroed with payload := restored }
        if rdIp buf.payload (hdr + 16) ≠ cfg.net_if_ip then ⟨none, none, buf⟩
        else
          let total := swap16 (rd16 buf.payload (hdr + 2))
          let buf := if total < buf.len then (buf_remove_padding buf (buf.len - total)).1 else buf
          let protocol := rd8 buf.payload (hdr + 9)
          let src_ip := rdIp buf.payload (hdr + 12)
          let buf := (buf_remove_header buf ((rd8 buf.payload hdr % 16) * 4)).1
          let flag := net_in buf protocol src_ip
          ⟨some (buf, protocol, src_ip),
            if flag = -1 then some (copy, src_ip, ICMP_CODE_PROTOCOL_UNREACH) else none, buf⟩

/-! ## Maps without expiry -/

/-- Modelled from the spec: `map_get` of the timed map (§3, §4.2; `map.c` is not among the
sources), for a map created without TTL as `tcp_table` and `connect_table` are: the value
stored under `k`, or absent. -/
def map_get {κ ν : Type} [DecidableEq κ] : List (κ × ν) → κ → Option ν
  | [], _ => none
  | (k', v) :: rest, k => if k' = k then some v else map_get rest k

/-- Modelled from the spec: `map_delete` (§3 `delete(k)` removes; `map.c` is not among the
sources). -/
def map_delete {κ ν : Type} [DecidableEq κ] (m : List (κ × ν)) (k : κ) : List (κ × ν) :=
  m.filter (fun e => decide (e.1 ≠ k))

/-- Modelled from the spec: `map_set` (§3 `set(k,v)` inserts or overwrites; `map.c` is not
among the sources). -/
def map_set {κ ν : Type} [DecidableEq κ] (m : List (κ × ν)) (k : κ) (v : ν) : List (κ × ν) :=
  if (map_get m k).isSome then m.map (fun e => if e.1 = k then (k, v) else e)
  else m ++ [(k, v)]

/-! ## tcp.h -/

/-- The bit field `tcp_flags_t` of tcp.h. -/
structure tcp_flags_t where
  fin : Bool
  syn : Bool
  rst : Bool
  psh : Bool
  ack : Bool
  urg : Bool
  ece : Bool
  cwr : Bool
deriving DecidableEq

/-- The byte a `tcp_flags_t` occupies: the first declared bit field is the lowest bit. -/
def tcp_flags_t.byte (f : tcp_flags_t) : Nat :=
  (if f.fin then 1 else 0) + (if f.syn then 2 else 0) + (if f.rst then 4 else 0)
    + (if f.psh then 8 else 0) + (if f.ack then 16 else 0) + (if f.urg then 32 else 0)
    + (if f.ece then 64 else 0) + (if f.cwr then 128 else 0)

/-- The constant `tcp_flags_null` of tcp.h. -/
def tcp_flags_null : tcp_flags_t := ⟨false, false, false, false, false, false, false, false⟩

/-- The constant `tcp_flags_ack` of tcp.h. -/
def tcp_flags_ack : tcp_flags_t := { tcp_flags_null with ack := true }

/-- The constant `tcp_flags_ack_syn` of tcp.h. -/
def tcp_flags_ack_syn : tcp_flags_t := { tcp_flags_null with ack := true, syn := true }

/-- The constant `tcp_flags_ack_fin` of tcp.h. -/
def tcp_flags_ack_fin : tcp_flags_t := { tcp_flags_null with ack := true, fin := true }

/-- The constant `tcp_flags_ack_rst` of tcp.h. -/
def tcp_flags_ack_rst : tcp_flags_t := { tcp_flags_null with ack := true, rst := true }

/-- The memory image of a `tcp_hdr_t` (tcp.h, packed): ports, sequence and acknowledgement
numbers, the byte holding `reserved` (low nibble) and `data_offset` (high nibble), the flags
byte, window, checksum and urgent pointer.  The multi-byte arguments are the values stored
into the fields (already byte-swapped). -/
def tcp_hdr_image (src_port16 dst_port16 seq_number32 ack_number32 reserved data_offset : Nat)
    (flags : tcp_flags_t) (window_size16 checksum urgent_pointer16 : Nat) : List Nat :=
  store16 src_port16 ++ store16 dst_port16 ++ store32 seq_number32 ++ store32 ack_number32
    ++ [reserved % 16 + 16 * (data_offset % 16), flags.byte] ++ store16 window_size16
    ++ store16 checksum ++ store16 urgent_pointer16

/-- The enumeration `tcp_state_t` of tcp.h. -/
inductive tcp_state_t where
  | TCP_LISTEN
  | TCP_SYN_SEND
  | TCP_SYN_RCVD
  | TCP_ESTABLISHED
  | TCP_CLOSE_WAIT
  | TCP_LAST_ACK
  | TCP_FIN_WAIT_1
  | TCP_FIN_WAIT_2
  | TCP_CLOSING
  | TCP_TIME_WAIT
deriving DecidableEq

open tcp_state_t

/-- The structure `tcp_key_t` of tcp.h. -/
structure tcp_key_t where
  ip : ip_t
  src_port : Nat
  dst_port : Nat
deriving DecidableEq

/-- The structure `tcp_connect_t` of tcp.h.  The buffer pointers `rx_buf` and `tx_buf` are
`none` when they point to no allocated buffer. -/
structure tcp_connect_t where
  state : tcp_state_t
  local_port : Nat
  remote_port : Nat
  ip : ip_t
  unack_seq : Nat
  next_seq : Nat
  ack : Nat
  remote_mss : Nat
  remote_win : Nat
  handler : Nat
  rx_buf : Option buf_t
  tx_buf : Option buf_t
deriving DecidableEq

/-- The constant `CONNECT_LISTEN` of tcp.h. -/
def CONNECT_LISTEN : tcp_connect_t :=
  ⟨TCP_LISTEN, 0, 0, ⟨0, 0, 0, 0⟩, 0, 0, 0, 0, 0, 0, none, none⟩

/-! ## tcp.c -/

/-- What `tcp_send` hands to `ip_out`: the segment, the destination and the protocol. -/
structure ip_call where
  buf : buf_t
  ip : ip_t
  protocol : Nat
deriving DecidableEq

/-- The module state of tcp.c, `tcp_table` (port to handler) and `connect_table`, together
with the process-wide transmit buffer `txbuf`. -/
structure tcp_env where
  tcp_table : List (Nat × Nat)
  connect_table : List (tcp_key_t × tcp_connect_t)
  txbuf : buf_t
deriving DecidableEq

/-- The function `new_tcp_key` of tcp.c. -/
def new_tcp_key (ip : ip_t) (src_port dst_port : Nat) : tcp_key_t := ⟨ip, src_port, dst_port⟩

/-- The function `tcp_open(port, handler)` of tcp.c. -/
def tcp_open (env : tcp_env) (port handler : Nat) : tcp_env :=
  { env with tcp_table := map_set env.tcp_table port handler }

/-- The function `release_tcp_connect` of tcp.c.  After `free` the buffers are gone. -/
def release_tcp_connect (connect : tcp_connect_t) : tcp_connect_t :=
  if connect.state = TCP_LISTEN then connect
  else { connect with rx_buf := none, tx_buf := none, state := TCP_LISTEN }

/-- The function `tcp_checksum(buf, src_ip, dst_ip)` of tcp.c: the twelve bytes in front of
`data` are saved, overwritten with the pseudo-header, summed together with the segment, and
restored.  Returns the buffer afterwards and the checksum. -/
def tcp_checksum (buf : buf_t) (src_ip dst_ip : ip_t) : buf_t × Nat :=
  let len := buf.len % 65536
  let peso_hdr := buf.data - 12
  let pre := memRead buf.payload peso_hdr 12
  let mem := memWrite buf.payload peso_hdr
    (src_ip.bytes ++ dst_ip.bytes ++ [0, NET_PROTOCOL_TCP] ++ store16 (swap16 len))
  let checksum := checksum16 (memRead mem peso_hdr (len + 12))
  ({ buf with payload := memWrite mem peso_hdr pre }, checksum)

/-- The function `tcp_write_to_buf(connect, buf)` of tcp.c.  `sent` and `size` are
`uint16_t`; the difference `tx_buf->len - sent` is computed in `size_t` (64 bits) and
narrowed by `min32`.  The result is `none` when `tx_buf` points to no buffer. -/
def tcp_write_to_buf (cfg : NetCfg) (connect : tcp_connect_t) (buf : buf_t) :
    Option (tcp_connect_t × buf_t × Nat) :=
  match connect.tx_buf with
  | none => none
  | some tx_buf =>
    let sent := sub32 connect.next_seq connect.unack_seq % 65536
    let size := min32 ((tx_buf.len % 18446744073709551616 + (18446744073709551616 - sent))
      % 18446744073709551616) connect.remote_win % 65536
    let buf := buf_init cfg buf size
    let mem := memWrite buf.payload buf.data (memRead tx_buf.payload (tx_buf.data + sent) size)
    some ({ connect with next_seq := (connect.next_seq + size) % 4294967296 },
      { buf with payload := mem }, size)

/-- The function `tcp_send(buf, connect, flags)` of tcp.c.  Returns the buffer and the
connection afterwards and the call of `ip_out`.  The status of `buf_add_header` is ignored,
as in the source. -/
def tcp_send (cfg : NetCfg) (buf : buf_t) (connect : tcp_connect_t) (flags : tcp_flags_t) :
    buf_t × tcp_connect_t × ip_call :=
  let prev_len := buf.len
  let buf := (buf_add_header buf 20).1
  let seq := (connect.next_seq % 4294967296
    + (18446744073709551616 - prev_len % 18446744073709551616)) % 18446744073709551616
  let hdr := tcp_hdr_image (swap16 connect.local_port) (swap16 connect.remote_port)
    (swap32 seq) (swap32 connect.ack) 0 (20 / 4) flags (swap16 connect.remote_win) 0 0
  let buf := { buf with payload := memWrite buf.payload buf.data hdr }
  let r := tcp_checksum buf connect.ip cfg.net_if_ip
  let buf := { r.1 with payload := memWrite r.1.payload (r.1.data + 16) (store16 r.2) }
  let call : ip_call := ⟨buf, connect.ip, NET_PROTOCOL_TCP⟩
  let connect := if flags.syn || flags.fin
    then { connect with next_seq := (connect.next_seq + 1) % 4294967296 } else connect
  (buf, connect, call)

/-- The function `tcp_connect_close(connect)` of tcp.c, where `connect` points to the slot
of `connect_table` stored under `k`.  Returns the state afterwards and the calls of
`ip_out`; `none` when `k` has no slot or a needed buffer is not allocated. -/
def tcp_connect_close (cfg : NetCfg) (env : tcp_env) (k : tcp_key_t) :
    Option (tcp_env × List ip_call) :=
  match map_get env.connect_table k with
  | none => none
  | some connect =>
    if connect.state = TCP_ESTABLISHED then
      match tcp_write_to_buf cfg connect env.txbuf with
      | none => none
      | some (connect, txbuf, _) =>
        let s := tcp_send cfg txbuf connect tcp_flags_ack_fin
        let connect := { s.2.1 with state := TCP_FIN_WAIT_1 }
        some ({ env with connect_table := map_set env.connect_table k connect, txbuf := s.1 },
          [s.2.2])
    else
      let key := new_tcp_key connect.ip connect.remote_port connect.local_port
      let connect := release_tcp_connect connect
      let table := map_set env.connect_table k connect
      some ({ env with connect_table := map_delete table key }, [])

/-- The function `tcp_connect_read(connect, data, len)` of tcp.c.  Returns the connection
afterwards, the bytes stored at `data` and the return value; `none` when `rx_buf` points to
no buffer. -/
def tcp_connect_read (connect : tcp_connect_t) (len : Nat) :
    Option (tcp_connect_t × List Nat × Nat) :=
  match connect.rx_buf with
  | none => none
  | some rx_buf =>
    let size := min32 rx_buf.len len
    let out := memRead rx_buf.payload rx_buf.data size
    let r := buf_remove_header rx_buf size
    let rx_buf := if r.2 ≠ 0
      then { r.1 with payload := memWrite r.1.payload 0 (memRead r.1.payload r.1.data r.1.len),
                      data := 0 }
      else r.1
    some ({ connect with rx_buf := some rx_buf }, out, size)

/-- The function `tcp_connect_write(connect, data, len)` of tcp.c, with the process-wide
`txbuf`.  Returns the connection and `txbuf` afterwards, the calls of `ip_out` and the
return value; `none` when `tx_buf` points to no buffer. -/
def tcp_connect_write (cfg : NetCfg) (connect : tcp_connect_t) (txbuf : buf_t)
    (data : List Nat) (len : Nat) : Option (tcp_connect_t × buf_t × List ip_call × Nat) :=
  match connect.tx_buf with
  | none => none
  | some tx_buf =>
    let dst := tx_buf.data + tx_buf.len
    let size := min32 (sub32 cfg.BUF_MAX_LEN dst) len
    if connect.remote_win ≤ (sub32 connect.next_seq connect.unack_seq + len)
        % 18446744073709551616 then
      some (connect, txbuf, [], 0)
    else
      let r := buf_add_padding cfg tx_buf size
      if r.2 ≠ 0 then
        let moved := memWrite r.1.payload 0 (memRead r.1.payload r.1.data r.1.len)
        let connect := { connect with tx_buf := some { r.1 with payload := moved, data := 0 } }
        match tcp_write_to_buf cfg connect txbuf with
        | none => none
        | some (connect, txbuf, n) =>
          if n ≠ 0 then
            let s := tcp_send cfg txbuf connect tcp_flags_ack
            some (s.2.1, s.1, [s.2.2], 0)
          else some (connect, txbuf, [], 0)
      else
        let stored := memWrite r.1.payload dst (data.take size)
        some ({ connect with tx_buf := some { r.1 with payload := stored } }, txbuf, [], size)

/-- The function `tcp_in(buf, src_ip)` of tcp.c.  Its body holds the numbered description of
the receive steps as comments and no statement: the call returns at once, the tables and
`txbuf` stay as they are and `ip_out` is never called. -/
def tcp_in (env : tcp_env) (_buf : buf_t) (_src_ip : ip_t) : tcp_env × List ip_call :=
  (env, [])

/-! ## tcp.c: closing a port -/

/-- A hardware address, `uint8_t mac[NET_MAC_LEN]` with `NET_MAC_LEN = 6`. -/
structure mac_t where
  m0 : Nat
  m1 : Nat
  m2 : Nat
  m3 : Nat
  m4 : Nat
  m5 : Nat
deriving DecidableEq

/-- The six bytes of a hardware address in memory order. -/
def mac_t.bytes (a : mac_t) : List Nat := [a.m0, a.m1, a.m2, a.m3, a.m4, a.m5]

/-- The hardware address stored in the six bytes at `off`. -/
def rdMac (mem : List Nat) (off : Nat) : mac_t :=
  ⟨rd8 mem off, rd8 mem (off + 1), rd8 mem (off + 2), rd8 mem (off + 3), rd8 mem (off + 4),
    rd8 mem (off + 5)⟩

/-- A 16-bit field in network byte order at position `k` of a byte run. -/
def be16 (l : List Nat) (k : Nat) : Nat := 256 * l.getD k 0 + l.getD (k + 1) 0

/-- Modelled from the spec: the link-layer part of the compile-time configuration (§6;
`config.h` is not among the sources): the local MAC and the two ARP lifetimes in seconds. -/
structure EthCfg where
  net_if_mac : mac_t
  ARP_TIMEOUT_SEC : Nat
  ARP_MIN_INTERVAL : Nat

/-- Modelled from the spec: the broadcast MAC `FF:FF:FF:FF:FF:FF` of §6 (`net.h` is not
among the sources). -/
def ether_broadcast_mac : mac_t := ⟨255, 255, 255, 255, 255, 255⟩

/-- Modelled from the spec: EtherType of IPv4 (`net.h` is not among the sources). -/
def NET_PROTOCOL_IP : Nat := 2048

/-- Modelled from the spec: EtherType of ARP (`net.h` is not among the sources). -/
def NET_PROTOCOL_ARP : Nat := 2054

/-- Modelled from the spec: ARP hardware type Ethernet (RFC 826; `arp.h` is not among the
sources). -/
def ARP_HW_ETHER : Nat := 1

/-- Modelled from the spec: ARP opcode request (RFC 826; `arp.h` is not among the
sources). -/
def ARP_REQUEST : Nat := 1

/-- Modelled from the spec: ARP opcode reply (RFC 826; `arp.h` is not among the sources). -/
def ARP_REPLY : Nat := 2

/-- Modelled from the spec: the memory image of an `ether_hdr_t` (Ethernet II, §6;
`ethernet.h` is not among the sources): destination, source, `protocol16`.  The 16-bit
argument is the value stored into the field (already byte-swapped). -/
def ether_hdr_image (dst src : mac_t) (protocol16 : Nat) : List Nat :=
  dst.bytes ++ src.bytes ++ store16 protocol16

/-- Modelled from the spec: the memory image of an `arp_pkt_t` (RFC 826 for Ethernet and
IPv4, §6; `arp.h` is not among the sources) with the constant fields of `arp_init_pkt`
(arp.c): `hw_type16`, `pro_type16`, `hw_len = NET_MAC_LEN`, `pro_len = NET_IP_LEN`, then
`opcode16`, sender MAC and IP, target MAC and IP.  `opcode16` is the value stored into the
field (already byte-swapped). -/
def arp_pkt_image (opcode16 : Nat) (sender_mac : mac_t) (sender_ip : ip_t)
    (target_mac : mac_t) (target_ip : ip_t) : List Nat :=
  store16 (swap16 ARP_HW_ETHER) ++ store16 (swap16 NET_PROTOCOL_IP) ++ [6, 4]
    ++ store16 opcode16 ++ sender_mac.bytes ++ sender_ip.bytes ++ target_mac.bytes
    ++ target_ip.bytes

/-- Modelled from the spec: `map_get` of the timed map for a map with TTL (§3, §4.2;
`map.c` is not among the sources).  An entry is a key, a value and the time of its last
`set`; `get` is absent when the key is unknown or when the TTL has elapsed since the last
`set`.  A TTL of 0 means no expiry. -/
def map_get_timed {κ ν : Type} [DecidableEq κ] (timeout now : Nat) :
    List (κ × ν × Nat) → κ → Option ν
  | [], _ => none
  | (k', v, ts) :: rest, k =>
    if k' = k then (if timeout = 0 ∨ now < ts + timeout then some v else none)
    else map_get_timed timeout now rest k

/-- Modelled from the spec: `map_set` of the timed map (§3 `set(k,v)` inserts or overwrites
and refreshes the timestamp; `map.c` is not among the sources).  A copy callback, where
configured, has been applied to `v` by the caller. -/
def map_set_timed {κ ν : Type} [DecidableEq κ] (m : List (κ × ν × Nat)) (now : Nat) (k : κ)
    (v : ν) : List (κ × ν × Nat) :=
  m.filter (fun e => decide (e.1 ≠ k)) ++ [(k, v, now)]

/-- The state of arp.c, `arp_table` and `arp_buf`, together with the process-wide transmit
buffer `txbuf`. -/
structure arp_env where
  arp_table : List (ip_t × mac_t × Nat)
  arp_buf : List (ip_t × buf_t × Nat)
  txbuf : buf_t
deriving DecidableEq

/-- The function `ethernet_out(buf, mac, protocol)` of ethernet.c.  The result is the
buffer handed to `driver_send`, the frame put on the wire.  The statuses of
`buf_add_padding` and `buf_add_header` are ignored, as in the source. -/
def ethernet_out (cfg : NetCfg) (eth : EthCfg) (buf : buf_t) (mac : mac_t) (protocol : Nat) :
    buf_t :=
  let buf := if buf.len < 46 then (buf_add_padding cfg buf (46 - buf.len)).1 else buf
  let buf := (buf_add_header buf 14).1
  let hdr := ether_hdr_image mac eth.net_if_mac (swap16 protocol)
  { buf with payload := memWrite buf.payload buf.data hdr }

/-- The function `arp_req(target_ip)` of arp.c on `txbuf`.  The result is `txbuf` after the
call, which is the frame handed to `driver_send`. -/
def arp_req (cfg : NetCfg) (eth : EthCfg) (txbuf : buf_t) (target_ip : ip_t) : buf_t :=
  let txbuf := buf_init cfg txbuf 28
  let pkt := arp_pkt_image (swap16 ARP_REQUEST) eth.net_if_mac cfg.net_if_ip
    ⟨0, 0, 0, 0, 0, 0⟩ target_ip
  let txbuf := { txbuf with payload := memWrite txbuf.payload txbuf.data pkt }
  ethernet_out cfg eth txbuf ether_broadcast_mac NET_PROTOCOL_ARP

/-- The function `arp_resp(target_ip, target_mac)` of arp.c on `txbuf`.  The result is
`txbuf` after the call, which is the frame handed to `driver_send`. -/
def arp_resp (cfg : NetCfg) (eth : EthCfg) (txbuf : buf_t) (target_ip : ip_t)
    (target_mac : mac_t) : buf_t :=
  let txbuf := buf_init cfg txbuf 28
  let pkt := arp_pkt_image (swap16 ARP_REPLY) eth.net_if_mac cfg.net_if_ip target_mac
    target_ip
  let txbuf := { txbuf with payload := memWrite txbuf.payload txbuf.data pkt }
  ethernet_out cfg eth txbuf target_mac NET_PROTOCOL_ARP

/-- The field `sender_mac` of the ARP record at `data`. -/
def arp_sender_mac (buf : buf_t) : mac_t := rdMac buf.payload (buf.data + 8)

/-- The field `sender_ip` of the ARP record at `data`. -/
def arp_sender_ip (buf : buf_t) : ip_t := rdIp buf.payload (buf.data + 14)

/-- The field `target_ip` of the ARP record at `data`. -/
def arp_target_ip (buf : buf_t) : ip_t := rdIp buf.payload (buf.data + 24)

/-- The function `arp_in(buf, src_mac)` of arp.c at clock value `now` (the argument
`src_mac` is not used by the source).  `buf` is the receive buffer, distinct from `txbuf`.
Returns the state afterwards and the frames handed to `driver_send`. -/
def arp_in (cfg : NetCfg) (eth : EthCfg) (env : arp_env) (buf : buf_t) (now : Nat) :
    arp_env × List buf_t :=
  if buf.len < 28 then (env, [])
  else if rd16 buf.payload buf.data ≠ swap16 ARP_HW_ETHER then (env, [])
  else if rd16 buf.payload (buf.data + 2) ≠ swap16 NET_PROTOCOL_IP then (env, [])
  else if rd8 buf.payload (buf.data + 4) ≠ 6 then (env, [])
  else if rd8 buf.payload (buf.data + 5) ≠ 4 then (env, [])
  else if rd16 buf.payload (buf.data + 6) ≠ swap16 ARP_REQUEST
      ∧ rd16 buf.payload (buf.data + 6) ≠ swap16 ARP_REPLY then (env, [])
  else
    let arp_table := map_set_timed env.arp_table now (arp_sender_ip buf) (arp_sender_mac buf)
    match map_get_timed eth.ARP_MIN_INTERVAL now env.arp_buf (arp_sender_ip buf) with
    | some buf2 =>
      let frame := ethernet_out cfg eth buf2 (arp_sender_mac buf) NET_PROTOCOL_IP
      ({ env with arp_table := arp_table,
                  arp_buf := map_delete env.arp_buf (arp_sender_ip buf) }, [frame])
    | none =>
      if rd16 buf.payload (buf.data + 6) = swap16 ARP_REQUEST
          ∧ arp_target_ip buf = cfg.net_if_ip then
        let frame := arp_resp cfg eth env.txbuf (arp_sender_ip buf) (arp_sender_mac buf)
        ({ env with arp_table := arp_table, txbuf := frame }, [frame])
      else ({ env with arp_table := arp_table }, [])

/-- The function `arp_out(buf, ip)` of arp.c at clock value `now`.  `buf` is the caller's
buffer, distinct from `txbuf`.  Returns the state afterwards and the frames handed to
`driver_send`. -/
def arp_out (cfg : NetCfg) (eth : EthCfg) (env : arp_env) (buf : buf_t) (ip : ip_t)
    (now : Nat) : arp_env × List buf_t :=
  match map_get_timed eth.ARP_TIMEOUT_SEC now env.arp_table ip with
  | some mac => (env, [ethernet_out cfg eth buf mac NET_PROTOCOL_IP])
  | none =>
    match map_get_timed eth.ARP_MIN_INTERVAL now env.arp_buf ip with
    | some _ => (env, [])
    | none =>
      let arp_buf := map_set_timed env.arp_buf now ip (buf_copy buf)
      let frame := arp_req cfg eth env.txbuf ip
      ({ env with arp_buf := arp_buf, txbuf := frame }, [frame])

/-- Consecutive calls `arp_out(f, ip)` for one destination, each with its buffer and its
clock value: the state after the last call and all frames handed to `driver_send`. -/
def arp_out_seq (cfg : NetCfg) (eth : EthCfg) (ip : ip_t) :
    arp_env → List (buf_t × Nat) → arp_env × List buf_t
  | env, [] => (env, [])
  | env, (f, t) :: rest =>
    let r := arp_out cfg eth env f ip t
    let r2 := arp_out_seq cfg eth ip r.1 rest
    (r2.1, r.2 ++ r2.2)

/-- The checks of Step 1 and Step 2 of `arp_in`, stated on the frame contents in network
byte order: at least 28 bytes, hardware type Ethernet, protocol type IPv4, hardware length
6, protocol length 4, opcode request or reply. -/
def arp_valid (buf : buf_t) : Prop :=
  28 ≤ buf.len ∧ be16 buf.bytes 0 = ARP_HW_ETHER ∧ be16 buf.bytes 2 = NET_PROTOCOL_IP
    ∧ buf.bytes.getD 4 0 = 6 ∧ buf.bytes.getD 5 0 = 4
    ∧ (be16 buf.bytes 6 = ARP_REQUEST ∨ be16 buf.bytes 6 = ARP_REPLY)

instance (buf : buf_t) : Decidable (arp_valid buf) := by
  unfold arp_valid
  infer_instance

/-! ## ip.c: consecutive sends -/

/-- The arguments of one `ip_out(buf, ip, protocol)` call, together with the indeterminate
initial contents `junk` of the automatic buffers `ip_buf` of that call. -/
structure ip_out_args where
  junk : buf_t
  buf : buf_t
  ip : ip_t
  protocol : Nat

/-- Consecutive calls of `ip_out` with the static counter `id` carried from each call to the
next: the fragments handed to `arp_out` by each call, in call order. -/
def ip_out_run (cfg : NetCfg) : Nat → List ip_out_args → List (List buf_t)
  | _, [] => []
  | id, c :: rest =>
    (ip_out cfg c.junk c.buf c.ip c.protocol id).1
      :: ip_out_run cfg (ip_out cfg c.junk c.buf c.ip c.protocol id).2 rest

/-- All `ip_out` calls of one execution: the counter is `static int id = 0`. -/
def ip_out_calls (cfg : NetCfg) (calls : List ip_out_args) : List (List buf_t) :=
  ip_out_run cfg 0 calls

/-- A 32-bit field in network byte order at position `k` of a byte run. -/
def be32 (l : List Nat) (k : Nat) : Nat :=
  16777216 * l.getD k 0 + 65536 * l.getD (k + 1) 0 + 256 * l.getD (k + 2) 0 + l.getD (k + 3) 0

/-! ## icmp.c and udp.c -/

/-- Modelled from the spec: the ICMP type "destination unreachable" (RFC 792; `icmp.h` is
not among the sources). -/
def ICMP_TYPE_UNREACH : Nat := 3

/-- Modelled from the spec: the ICMP code "port unreachable" (RFC 792; `icmp.h` is not
among the sources). -/
def ICMP_CODE_PORT_UNREACH : Nat := 3

/-- The function `icmp_unreachable(recv_buf, src_ip, code)` of icmp.c on `txbuf`.  The
header `icmp_hdr_t` (`icmp.h` is not among the sources) is modelled from RFC 792: `type`,
`code`, `checksum16`, `id16`, `seq16`.  Returns the call of `ip_out`. -/
def icmp_unreachable (cfg : NetCfg) (txbuf recv_buf : buf_t) (src_ip : ip_t) (code : Nat) :
    ip_call :=
  let total_size := 8 + IP_HDR_LEN + 8
  let txbuf := buf_init cfg txbuf total_size
  let mem := memWrite txbuf.payload txbuf.data [ICMP_TYPE_UNREACH, code % 256]
  let mem := memWrite mem (txbuf.data + 4) (store16 0 ++ store16 0)
  let mem := memWrite mem (txbuf.data + 8) (memRead recv_buf.payload recv_buf.data IP_HDR_LEN)
  let mem := memWrite mem (txbuf.data + 8 + IP_HDR_LEN)
    (memRead recv_buf.payload (recv_buf.data + IP_HDR_LEN) 8)
  let mem := memWrite mem (txbuf.data + 2) (store16 0)
  let checksum := checksum16 (memRead mem txbuf.data total_size)
  let mem := memWrite mem (txbuf.data + 2) (store16 checksum)
  ⟨{ txbuf with payload := mem }, src_ip, NET_PROTOCOL_ICMP⟩

/-- The function `udp_checksum(buf, src_ip, dst_ip)` of udp.c.  The headers `udp_hdr_t`
(`src_port16`, `dst_port16`, `total_len16`, `checksum16`) and `udp_peso_hdr_t` (`src_ip`,
`dst_ip`, `placeholder`, `protocol`, `total_len16`) are modelled from RFC 768 (`udp.h` is
not among the sources).  Returns the buffer afterwards and the checksum.  The statuses of
`buf_add_header` and `buf_remove_header` are ignored, as in the source. -/
def udp_checksum (buf : buf_t) (src_ip dst_ip : ip_t) : buf_t × Nat :=
  let len_backup := swap16 buf.len
  let hdr := buf.data
  let buf := (buf_add_header buf 12).1
  let phdr_backup := memRead buf.payload buf.data 12
  let mem := memWrite buf.payload buf.data
    (src_ip.bytes ++ dst_ip.bytes ++ [0, NET_PROTOCOL_UDP] ++ store16 len_backup)
  let mem := memWrite mem (hdr + 6) (store16 0)
  let checksum := checksum16 (memRead mem buf.data buf.len)
  let mem := memWrite mem (hdr + 6) (store16 checksum)
  let mem := memWrite mem buf.data phdr_backup
  let buf := (buf_remove_header { buf with payload := mem } 12).1
  (buf, rd16 buf.payload (hdr + 6))

/-- What one `udp_in` call does to the outside: the call of the registered handler (handler,
data, source address, source port), the call of `ip_out` made by `icmp_unreachable`, and
the caller's buffer afterwards. -/
structure udp_in_result where
  handled : Option (Nat × List Nat × ip_t × Nat)
  unreachable : Option ip_call
  buf : buf_t
deriving DecidableEq

/-- The function `udp_in(buf, src_ip)` of udp.c, with `udp_table` (port to handler) and the
process-wide transmit buffer `txbuf`. -/
def udp_in (cfg : NetCfg) (udp_table : List (Nat × Nat)) (txbuf buf : buf_t) (src_ip : ip_t) :
    udp_in_result :=
  if buf.len < 8 then ⟨none, none, buf⟩
  else
    let hdr := buf.data
    let checksum_backup := rd16 buf.payload (hdr + 6)
    let buf := { buf with payload := memWrite buf.payload (hdr + 6) (store16 0) }
    let r := udp_checksum buf src_ip cfg.net_if_ip
    if r.2 ≠ checksum_backup then ⟨none, none, r.1⟩
    else
      let buf := { r.1 with payload := memWrite r.1.payload (hdr + 6) (store16 r.2) }
      let dst_port := swap16 (rd16 buf.payload (hdr + 2))
      match map_get udp_table dst_port with
      | none =>
        let buf := (buf_add_header buf IP_HDR_LEN).1
        ⟨none, some (icmp_unreachable cfg txbuf buf cfg.net_if_ip ICMP_CODE_PORT_UNREACH), buf⟩
      | some handler =>
        let buf := (buf_remove_header buf 8).1
        ⟨some (handler, buf.bytes, src_ip, swap16 (rd16 buf.payload hdr)), none, buf⟩

/-! ## utils.c: `ip_prefix_match` -/

/-- The inner loop `for (size_t j = 0; j < 8; j++)` of `ip_prefix_match` (utils.c) with the
given number of rounds left, on the `uint8_t` values `flag` and `count`: the value of
`count` when the loop is left, and whether it is left by `return count`. -/
def ip_prefix_match_inner : Nat → Nat → Nat → Nat × Bool
  | 0, _, count => (count, false)
  | j + 1, flag, count =>
    if flag &&& 128 ≠ 0 then (count, true)
    else ip_prefix_match_inner j ((flag * 2) % 256) ((count + 1) % 256)

/-- The outer loop `for (size_t i = 0; i < 4; i++)` of `ip_prefix_match` over the bytes of
the two addresses that are still to be compared, with `flag = ipa[i] ^ ipb[i]`. -/
def ip_prefix_match_loop : List Nat → List Nat → Nat → Nat
  | x :: xs, y :: ys, count =>
    let r := ip_prefix_match_inner 8 ((x ^^^ y) % 256) count
    if r.2 then r.1 else ip_prefix_match_loop xs ys r.1
  | _, _, count => count

/-- The function `ip_prefix_match(ipa, ipb)` of utils.c. -/
def ip_prefix_match (ipa ipb : ip_t) : Nat := ip_prefix_match_loop ipa.bytes ipb.bytes 0

/-- Bit `n` of a byte run, most significant bit first, starting at byte 0. -/
def bitAt (l : List Nat) (n : Nat) : Bool := (l.getD (n / 8) 0).testBit (7 - n % 8)

/-- Bit `n` (0 to 31) of an address, most significant bit first, starting at byte 0. -/
def ip_t.bit (a : ip_t) (n : Nat) : Bool := bitAt a.bytes n

/-! ## ip.c: `ip_out` on the transmit buffer -/

/-- The fragmenting loop of `ip_out(buf, ip, protocol)` for `buf = &txbuf`, which is the
argument of every caller in the sources (`icmp_resp`, `icmp_unreachable`, `udp_send`,
`tcp_send`), started at `i`.  As in `ip_out_loop` every round copies one slice into the
automatic buffer `ip_buf` and emits it with MF set; here the fragment goes on through
`arp_out`, which re-initialises `txbuf` for its request when the address is unresolved
(`arp_req`), and the loop test and the copy of the next round read `txbuf` as it is then.
Returns the fragments handed to `arp_out`, the final `i` and the state.  The first argument
bounds the number of rounds. -/
def ip_out_tx_loop (cfg : NetCfg) (eth : EthCfg) (junk : buf_t) (ip : ip_t)
    (protocol id now : Nat) : Nat → Nat → arp_env → List buf_t × Nat × arp_env
  | 0, i, env => ([], i, env)
  | fuel + 1, i, env =>
    if (i + 1) * (1500 - IP_HDR_LEN) < env.txbuf.len then
      let ip_buf := buf_init cfg junk (1500 - IP_HDR_LEN)
      let slice := memRead env.txbuf.payload (env.txbuf.data + i * (1500 - IP_HDR_LEN))
        (1500 - IP_HDR_LEN)
      let ip_buf := { ip_buf with payload := memWrite ip_buf.payload ip_buf.data slice }
      let frag := ip_fragment_out cfg ip_buf ip protocol id (i * ((1500 - IP_HDR_LEN) / 8)) 1
      let env := (arp_out cfg eth env frag ip now).1
      let rest := ip_out_tx_loop cfg eth junk ip protocol id now fuel (i + 1) env
      (frag :: rest.1, rest.2)
    else ([], i, env)

/-- What one call `ip_out(&txbuf, ip, protocol)` does: the fragments the loop hands to
`arp_out`, the fragment Step 3 hands over (`none` when Step 3 is undefined), the size Step 3
asks `buf_init` for, and the state and the counter at the end. -/
structure ip_out_tx_result where
  frags : List buf_t
  last : Option buf_t
  size : Nat
  env : arp_env
  id : Nat
deriving DecidableEq

/-- The function `ip_out(buf, ip, protocol)` of ip.c for `buf = &txbuf`, at clock value
`now`, with the value `id` of the static counter and the initial contents `junk` of the
automatic buffers.  The size of Step 3, `buf->len - i * max_load_length`, is computed in
`size_t` and wraps when `txbuf` has become shorter than the slices already sent.  A frame
buffer holds at most `BUF_MAX_LEN` bytes: for a larger size `buf_init` and the `memcpy` of
Step 3 are undefined, and the model stops there with the state reached.  The loop ends by
its test within `txbuf.len` rounds (`ip_out_tx_loop_exit`). -/
def ip_out_tx (cfg : NetCfg) (eth : EthCfg) (junk : buf_t) (env : arp_env) (ip : ip_t)
    (protocol id now : Nat) : ip_out_tx_result :=
  let r := ip_out_tx_loop cfg eth junk ip protocol id now env.txbuf.len 0 env
  let i := r.2.1
  let env := r.2.2
  let size := (env.txbuf.len % 18446744073709551616
    + (18446744073709551616 - i * (1500 - IP_HDR_LEN) % 18446744073709551616))
    % 18446744073709551616
  if cfg.BUF_MAX_LEN < size then ⟨r.1, none, size, env, id⟩
  else
    let ip_buf := buf_init cfg junk size
    let slice := memRead env.txbuf.payload (env.txbuf.data + i * (1500 - IP_HDR_LEN)) size
    let ip_buf := { ip_buf with payload := memWrite ip_buf.payload ip_buf.data slice }
    let last := ip_fragment_out cfg ip_buf ip protocol id (i * ((1500 - IP_HDR_LEN) / 8)) 0
    ⟨r.1, some last, size, (arp_out cfg eth env last ip now).1, id + 1⟩

/-! ## tcp.c: the buffers freed on release -/

/-- A configuration with 256-byte buffers, 64 bytes of headroom and local address
10.0.0.1. -/
def exCfg : NetCfg := ⟨256, fun _ => 64, ⟨10, 0, 0, 1⟩⟩

/-- A configuration with 4096-byte buffers, 128 bytes of headroom and local address
10.0.0.1. -/
def exCfgBig : NetCfg := ⟨4096, fun _ => 128, ⟨10, 0, 0, 1⟩⟩

/-- A configuration with 16-byte buffers, no headroom and local address 10.0.0.1. -/
def exCfgSmall : NetCfg := ⟨16, fun _ => 0, ⟨10, 0, 0, 1⟩⟩

/-- The peer 10.0.0.2. -/
def exPeer : ip_t := ⟨10, 0, 0, 2⟩

/-- A buffer of 256 zero bytes. -/
def exScratch : buf_t := ⟨0, 0, List.replicate 256 0⟩

/-- A buffer of 4096 zero bytes. -/
def exScratchBig : buf_t := ⟨0, 0, List.replicate 4096 0⟩

/-- A 3200-byte payload, sitting 5 bytes into its storage. -/
def exPayload : buf_t := ⟨3200, 5, List.replicate 3300 7⟩

/-- A received frame: a 20-byte IPv4 header from 10.0.0.2 to 10.0.0.1 (protocol UDP,
total length 24, valid checksum), 4 payload bytes and 2 bytes of padding, behind a 14-byte
Ethernet header. -/
def exFrame : buf_t :=
  ⟨26, 14, List.replicate 14 0
    ++ [69, 0, 0, 24, 0, 9, 0, 0, 64, 17, 102, 202, 10, 0, 0, 2, 10, 0, 0, 1]
    ++ [1, 2, 3, 4, 0, 0]⟩

/-- The key of the example connection: peer 10.0.0.2, port 40000, local port 80. -/
def exKey : tcp_key_t := new_tcp_key exPeer 40000 80

/-- An established connection with three buffered bytes to send, one of them already sent,
and two received bytes waiting to be read. -/
def exConn : tcp_connect_t :=
  ⟨TCP_ESTABLISHED, 80, 40000, exPeer, 100, 101, 2000, 1460, 1000, 1,
    some ⟨3, 1, [9, 1, 2, 3, 9]⟩, some ⟨3, 4, List.replicate 4 0 ++ [1, 2, 3] ++ List.replicate 9 0⟩⟩

/-- The same connection with a window of one byte, which the sent byte has used up. -/
def exConnBlocked : tcp_connect_t := { exConn with remote_win := 1 }

/-- A TCP state with a listener on port 80 and no connection. -/
def exEnvListen : tcp_env := tcp_open ⟨[], [], exScratch⟩ 80 1

/-- A TCP state with a listener on port 80 and the established example connection. -/
def exEnv : tcp_env := ⟨[(80, 1)], [(exKey, exConn)], exScratch⟩

/-- A SYN segment from 10.0.0.2:40000 to port 80 with sequence number 1000 and window 5000,
checksum 0xDFE7 in the field, behind 34 bytes of lower-layer headers. -/
def exSyn : buf_t :=
  ⟨20, 34, List.replicate 34 0
    ++ [156, 64, 0, 80, 0, 0, 3, 232, 0, 0, 0, 0, 80, 2, 19, 136, 231, 223, 0, 0]⟩

/-- An ACK segment from 10.0.0.2:40000 to port 80 with sequence number 2500, behind 34
bytes of lower-layer headers. -/
def exOutOfOrder : buf_t :=
  ⟨20, 34, List.replicate 34 0
    ++ [156, 64, 0, 80, 0, 0, 9, 196, 0, 0, 27, 89, 80, 16, 19, 136, 198, 156, 0, 0]⟩

/-- The example connection with a window of two bytes: one byte is sent and unacknowledged,
two more are buffered. -/
def exConnWin2 : tcp_connect_t := { exConn with remote_win := 2 }


/-- The link-layer configuration of the examples: local MAC `00:11:22:33:44:55`, ARP
entries kept for 300 seconds, pending frames for one second. -/
def exEth : EthCfg := ⟨⟨0, 17, 34, 51, 68, 85⟩, 300, 1⟩

/-- The hardware address `aa:bb:cc:dd:ee:ff` of the peer. -/
def exPeerMac : mac_t := ⟨170, 187, 204, 221, 238, 255⟩

/-- An ARP request from `exPeer` for the local address, as `ethernet_in` hands it to
`arp_in`: the record after the 14 header bytes, followed by 18 bytes of padding. -/
def exArpRequest : buf_t :=
  ⟨46, 14, List.replicate 14 0
    ++ [0, 1, 8, 0, 6, 4, 0, 1, 170, 187, 204, 221, 238, 255, 10, 0, 0, 2]
    ++ [0, 0, 0, 0, 0, 0, 10, 0, 0, 1] ++ List.replicate 18 0⟩

/-- An ARP reply from `exPeer` to the local host. -/
def exArpReply : buf_t :=
  ⟨46, 14, List.replicate 14 0
    ++ [0, 1, 8, 0, 6, 4, 0, 2, 170, 187, 204, 221, 238, 255, 10, 0, 0, 2]
    ++ [0, 17, 34, 51, 68, 85, 10, 0, 0, 1] ++ List.replicate 18 0⟩

/-- An outgoing IP datagram for `exPeer`: 20 header bytes and 4 data bytes, with 40 bytes of
headroom. -/
def exOutFrame : buf_t :=
  ⟨24, 40, List.replicate 40 0
    ++ [69, 0, 0, 24, 0, 7, 0, 0, 64, 17, 102, 204, 10, 0, 0, 1, 10, 0, 0, 2]
    ++ [1, 2, 3, 4] ++ List.replicate 32 0⟩

/-- A second outgoing datagram for `exPeer`. -/
def exOutFrame2 : buf_t :=
  ⟨24, 40, List.replicate 40 0
    ++ [69, 0, 0, 24, 0, 8, 0, 0, 64, 17, 102, 203, 10, 0, 0, 1, 10, 0, 0, 2]
    ++ [5, 6, 7, 8] ++ List.replicate 32 0⟩

/-- The ARP state after start-up: both maps empty. -/
def exArpEnv : arp_env := ⟨[], [], exScratch⟩

/-- The ARP state with `exOutFrame` waiting for the address of `exPeer` since time 100. -/
def exArpEnvPending : arp_env := ⟨[], [(exPeer, exOutFrame, 100)], exScratch⟩

/-- A send of the 3200-byte payload to `exPeer`. -/
def exCall : ip_out_args := ⟨exScratchBig, exPayload, exPeer, NET_PROTOCOL_UDP⟩

/-- A send of four bytes to `exPeer`. -/
def exCallSmall : ip_out_args := ⟨exScratchBig, ⟨4, 0, [1, 2, 3, 4]⟩, exPeer, NET_PROTOCOL_UDP⟩

/-- A transmit buffer holding a payload of three bytes with 40 bytes of headroom. -/
def exSegBuf : buf_t := ⟨3, 40, List.replicate 40 0 ++ [1, 2, 3] ++ List.replicate 21 0⟩

/-- The frame `exFrame` with header length 4 in place of 5 and the checksum to match. -/
def exFrameShortHdr : buf_t :=
  ⟨26, 14, List.replicate 14 0
    ++ [68, 0, 0, 24, 0, 9, 0, 0, 64, 17, 103, 202, 10, 0, 0, 2, 10, 0, 0, 1]
    ++ [1, 2, 3, 4, 0, 0]⟩

/-- The frame `exFrame` with header length 15, sixty bytes for a packet of 24, and the
checksum to match. -/
def exFrameLongHdr : buf_t :=
  ⟨26, 14, List.replicate 14 0
    ++ [79, 0, 0, 24, 0, 9, 0, 0, 64, 17, 92, 202, 10, 0, 0, 2, 10, 0, 0, 1]
    ++ [1, 2, 3, 4, 0, 0]⟩

/-- A UDP datagram from `exPeer`, port 5000, to port 9999 of the local host, as `ip_in`
hands it to `udp_in`: `data` at the UDP header, the IP header in front of it. -/
def exUdp : buf_t :=
  ⟨12, 34, List.replicate 14 0
    ++ [69, 0, 0, 32, 0, 10, 0, 0, 64, 17, 102, 193, 10, 0, 0, 2, 10, 0, 0, 1]
    ++ [19, 136, 39, 15, 0, 12, 173, 54, 1, 2, 3, 4]⟩


/-- The transmit buffer holding a payload of 3200 bytes, placed by `buf_init` of `exCfgBig`
128 bytes into its storage of 4096 bytes. -/
def exTx : buf_t :=
  ⟨3200, 128, List.replicate 128 0 ++ List.replicate 3200 7 ++ List.replicate 768 0⟩

/-- The ARP state before any address is known, with the 3200-byte payload in `txbuf`. -/
def exArpEnvTx : arp_env := ⟨[], [], exTx⟩

/-- The ARP state with `exPeer` resolved at time 100 and the payload in `txbuf`. -/
def exArpEnvTxKnown : arp_env := ⟨[(exPeer, exPeerMac, 100)], [], exTx⟩

/-! ## Facts about `checksum16` -/

theorem fold16_eq_folded (fuel s : Nat) (hf : 2 ≤ fuel ∨ s < 65536) (hs : s < 4294967296) :
    fold16 fuel s = folded s := by
  unfold folded
  by_cases h1 : s < 65536
  · have h0 : s / 65536 = 0 := by omega
    cases fuel <;> simp only [fold16, h1, h0, if_true, ne_eq, not_true_eq_false, if_false]
  · have h0 : s / 65536 ≠ 0 := by omega
    obtain ⟨f, rfl⟩ : ∃ f, fuel = f + 2 := ⟨fuel - 2, by omega⟩
    by_cases h2 : s % 65536 + s / 65536 < 65536
    · have h3 : (s % 65536 + s / 65536) / 65536 = 0 := by omega
      cases f <;>
        simp only [fold16, h1, h0, h2, h3, if_true, ne_eq, not_true_eq_false, if_false,
          not_false_eq_true]
    · have h3 : (s % 65536 + s / 65536) / 65536 ≠ 0 := by omega
      have h4 : ((s % 65536 + s / 65536) % 65536 + (s % 65536 + s / 65536) / 65536) / 65536
          = 0 := by omega
      cases f <;>
        simp only [fold16, h1, h0, h2, h3, h4, if_true, ne_eq, not_true_eq_false, if_false,
          not_false_eq_true]

theorem fold16_self (s : Nat) (hs : s < 4294967296) : fold16 s s = folded s := by
  apply fold16_eq_folded _ _ _ hs
  omega

theorem folded_lt (s : Nat) (hs : s < 4294967296) : folded s < 65536 := by
  unfold folded
  split_ifs <;> omega

theorem sum16_eq_wsum : ∀ (n : Nat) (l : List Nat) (s : Nat), l.length ≤ n → s < 4294967296 →
    sum16 l s = (s + wsum l) % 4294967296
  | _, [], s, _, hs => by simp only [sum16, wsum]; omega
  | _, [b], s, _, _ => by simp only [sum16, wsum]
  | 0, _ :: _ :: _, _, h, _ => by simp at h
  | n + 1, b0 :: b1 :: rest, s, h, _ => by
    simp only [sum16, wsum]
    rw [sum16_eq_wsum n rest _ (by simp at h; omega) (Nat.mod_lt _ (by omega))]
    omega

theorem wsum_append_even : ∀ (n : Nat) (l r : List Nat), l.length = 2 * n →
    wsum (l ++ r) = wsum l + wsum r
  | 0, l, r, h => by
    have : l = [] := List.length_eq_zero.mp (by omega)
    subst this; simp [wsum]
  | n + 1, [], _, h => by simp at h
  | n + 1, [_], _, h => by simp at h; omega
  | n + 1, b0 :: b1 :: rest, r, h => by
    rw [List.cons_append, List.cons_append]
    simp only [wsum]
    rw [wsum_append_even n rest r (by simp at h; omega)]
    omega

theorem wsum_store16 (c : Nat) (hc : c < 65536) (r : List Nat) :
    wsum (store16 c ++ r) = c + wsum r := by
  rw [store16, List.cons_append, List.cons_append, List.nil_append]
  simp only [wsum]
  omega

theorem checksum16_eq (l : List Nat) :
    checksum16 l = 65535 - folded (wsum l % 4294967296) := by
  have hs : wsum l % 4294967296 < 4294967296 := Nat.mod_lt _ (by omega)
  have := folded_lt _ hs
  simp only [checksum16]
  rw [sum16_eq_wsum l.length l 0 (le_refl _) (by omega), Nat.zero_add, fold16_self _ hs]
  omega

theorem checksum16_lt (l : List Nat) : checksum16 l < 65536 := by
  rw [checksum16_eq]; omega

theorem checksum_arith (s : Nat) (hs : s < 4294967296) :
    folded ((s + (65535 - folded s)) % 4294967296) = 65535 := by
  obtain ⟨h, l, rfl, hl, hh⟩ : ∃ h l, s = 65536 * h + l ∧ l < 65536 ∧ h < 65536 :=
    ⟨s / 65536, s % 65536, by omega, by omega, by omega⟩
  have e1 : (65536 * h + l) % 65536 = l := by omega
  have e2 : (65536 * h + l) / 65536 = h := by omega
  by_cases c1 : 65536 * h + l < 65536
  · have hf : folded (65536 * h + l) = 65536 * h + l := by simp only [folded, c1, if_true]
    have : (65536 * h + l + (65535 - folded (65536 * h + l))) % 4294967296 = 65535 := by
      rw [hf]; omega
    rw [this]; decide
  · by_cases c2 : l + h < 65536
    · have hf : folded (65536 * h + l) = l + h := by
        simp only [folded, c1, if_false, e1, e2, c2, if_true]
      have : (65536 * h + l + (65535 - folded (65536 * h + l))) % 4294967296
          = 65536 * h + (65535 - h) := by
        rw [hf]; omega
      rw [this]
      have d1 : ¬ (65536 * h + (65535 - h) < 65536) := by omega
      have d2 : (65536 * h + (65535 - h)) % 65536 + (65536 * h + (65535 - h)) / 65536
          = 65535 := by omega
      simp only [folded, d1, if_false, d2]
      decide
    · have hf : folded (65536 * h + l) = l + h - 65535 := by
        simp only [folded, c1, if_false, e1, e2, c2]
        omega
      have : (65536 * h + l + (65535 - folded (65536 * h + l))) % 4294967296
          = 65535 * (h + 2) := by
        rw [hf]; omega
      rw [this]
      have d1 : ¬ (65535 * (h + 2) < 65536) := by omega
      by_cases c3 : h = 65535
      · subst c3; decide
      · have d2 : (65535 * (h + 2)) % 65536 + (65535 * (h + 2)) / 65536 = 65535 := by omega
        simp only [folded, d1, if_false, d2]
        decide

/-- Storing the checksum of a run, computed with the checksum field zero, into that field
(at an even offset) makes the run sum to zero. -/
theorem checksum16_fill (A B : List Nat) (heven : A.length % 2 = 0) :
    checksum16 (A ++ store16 (checksum16 (A ++ store16 0 ++ B)) ++ B) = 0 := by
  have hA : A.length = 2 * (A.length / 2) := by omega
  have h0 : wsum (A ++ store16 0 ++ B) = wsum A + wsum B := by
    rw [List.append_assoc, wsum_append_even _ A _ hA, wsum_store16 0 (by omega)]
    omega
  have hc := checksum16_lt (A ++ store16 0 ++ B)
  have h1 : wsum (A ++ store16 (checksum16 (A ++ store16 0 ++ B)) ++ B)
      = wsum A + wsum B + checksum16 (A ++ store16 0 ++ B) := by
    rw [List.append_assoc, wsum_append_even _ A _ hA, wsum_store16 _ hc]
    omega
  have hs : (wsum A + wsum B) % 4294967296 < 4294967296 := Nat.mod_lt _ (by omega)
  have hf := folded_lt _ hs
  have key := checksum_arith _ hs
  rw [checksum16_eq (A ++ store16 _ ++ B), h1]
  rw [checksum16_eq (A ++ store16 0 ++ B), h0]
  have e : (wsum A + wsum B + (65535 - folded ((wsum A + wsum B) % 4294967296))) % 4294967296
      = ((wsum A + wsum B) % 4294967296 + (65535 - folded ((wsum A + wsum B) % 4294967296)))
        % 4294967296 := by omega
  rw [e, key]

/-! ## Facts about memory reads and writes -/

theorem memWrite_length (mem : List Nat) (off : Nat) (bytes : List Nat) :
    (memWrite mem off bytes).length = mem.length := by
  unfold memWrite
  split_ifs with h
  · simp only [List.length_append, List.length_take, List.length_drop]; omega
  · rfl

theorem memRead_length (mem : List Nat) (off n : Nat) (h : off + n ≤ mem.length) :
    (memRead mem off n).length = n := by
  simp only [memRead, List.length_take, List.length_drop]; omega

theorem memRead_memWrite_same (mem : List Nat) (off : Nat) (bytes : List Nat)
    (h : off + bytes.length ≤ mem.length) :
    memRead (memWrite mem off bytes) off bytes.length = bytes := by
  simp only [memRead, memWrite, h, if_true]
  have h1 : (List.take off mem).length = off := by simp only [List.length_take]; omega
  rw [List.append_assoc, List.drop_append_of_le_length (by omega)]
  rw [List.drop_of_length_le (by omega), List.nil_append, List.take_left' rfl]

theorem memRead_memWrite_before (mem : List Nat) (off : Nat) (bytes : List Nat) (o n : Nat)
    (h : o + n ≤ off) : memRead (memWrite mem off bytes) o n = memRead mem o n := by
  unfold memWrite
  split_ifs with hb
  · simp only [memRead]
    apply List.ext_getElem?
    intro i
    simp only [List.getElem?_take, List.getElem?_drop]
    split_ifs with hi
    · rw [List.append_assoc, List.getElem?_append_left (by simp only [List.length_take]; omega)]
      rw [List.getElem?_take]; simp only [show o + i < off by omega, if_true]
    · rfl
  · rfl

theorem memRead_memWrite_after (mem : List Nat) (off : Nat) (bytes : List Nat) (o n : Nat)
    (h : off + bytes.length ≤ o) : memRead (memWrite mem off bytes) o n = memRead mem o n := by
  unfold memWrite
  split_ifs with hb
  · simp only [memRead]
    apply List.ext_getElem?
    intro i
    simp only [List.getElem?_take, List.getElem?_drop]
    split_ifs with hi
    · rw [List.getElem?_append_right (by simp only [List.length_append, List.length_take]; omega)]
      rw [List.getElem?_drop]
      congr 1
      simp only [List.length_append, List.length_take]; omega
    · rfl
  · rfl

theorem memRead_add (mem : List Nat) (off n m : Nat) :
    memRead mem off (n + m) = memRead mem off n ++ memRead mem (off + n) m := by
  simp only [memRead]
  rw [List.take_add, List.drop_drop]

theorem memRead_drop (mem : List Nat) (off n k : Nat) :
    (memRead mem off n).drop k = memRead mem (off + k) (n - k) := by
  simp only [memRead]
  rw [List.drop_take, List.drop_drop]

theorem memRead_take (mem : List Nat) (off n k : Nat) :
    (memRead mem off n).take k = memRead mem off (min k n) := by
  simp only [memRead]
  rw [List.take_take]

/-- A store inside a window that is read back: the bytes before and after the stored run
are those of the old window. -/
theorem memRead_memWrite_inner (mem : List Nat) (d k n : Nat) (bytes : List Nat)
    (hk : k + bytes.length ≤ n) (hn : d + n ≤ mem.length) :
    memRead (memWrite mem (d + k) bytes) d n
      = (memRead mem d n).take k ++ bytes ++ (memRead mem d n).drop (k + bytes.length) := by
  have e : n = k + (bytes.length + (n - (k + bytes.length))) := by omega
  conv_lhs => rw [e, memRead_add, memRead_add]
  rw [memRead_memWrite_before _ _ _ _ _ (le_refl _)]
  rw [memRead_memWrite_same _ _ _ (by omega)]
  rw [memRead_memWrite_after _ _ _ _ _ (le_refl _)]
  rw [memRead_take, memRead_drop, Nat.min_eq_left (by omega), List.append_assoc]
  congr 3
  omega

/-- Storing back the bytes that are already there changes nothing. -/
theorem memWrite_memRead_self (mem : List Nat) (off n : Nat) (h : off + n ≤ mem.length) :
    memWrite mem off (memRead mem off n) = mem := by
  have hl := memRead_length mem off n h
  unfold memWrite
  rw [hl, if_pos h]
  simp only [memRead]
  rw [List.append_assoc]
  conv_rhs => rw [← List.take_append_drop off mem]
  congr 1
  conv_rhs => rw [← List.take_append_drop n (List.drop off mem)]
  rw [List.drop_drop]

theorem getElem?_memWrite (mem : List Nat) (off : Nat) (bytes : List Nat)
    (h : off + bytes.length ≤ mem.length) (i : Nat) :
    (memWrite mem off bytes)[i]? =
      if i < off then mem[i]? else if i < off + bytes.length then bytes[i - off]? else mem[i]? := by
  have ht : (List.take off mem).length = off := by simp only [List.length_take]; omega
  simp only [memWrite, h, if_true]
  split_ifs with h1 h2
  · rw [List.append_assoc, List.getElem?_append_left (by omega), List.getElem?_take]
    simp only [h1, if_true]
  · rw [List.getElem?_append_left (by simp only [List.length_append]; omega)]
    rw [List.getElem?_append_right (by omega), ht]
  · rw [List.getElem?_append_right (by simp only [List.length_append]; omega)]
    rw [List.getElem?_drop]
    congr 1
    simp only [List.length_append]; omega

/-- A second store over the same run replaces the first. -/
theorem memWrite_memWrite_same (mem : List Nat) (off : Nat) (a b : List Nat)
    (hab : a.length = b.length) :
    memWrite (memWrite mem off a) off b = memWrite mem off b := by
  by_cases h : off + a.length ≤ mem.length
  · have hlen : (memWrite mem off a).length = mem.length := memWrite_length _ _ _
    apply List.ext_getElem?
    intro i
    rw [getElem?_memWrite _ _ _ (by omega), getElem?_memWrite mem off a h,
      getElem?_memWrite mem off b (by omega)]
    split_ifs <;> first | rfl | omega
  · have : memWrite mem off a = mem := by simp only [memWrite, h, if_false]
    rw [this]

theorem rd8_eq_getD (mem : List Nat) (d len k : Nat) (hk : k < len) :
    rd8 mem (d + k) = (memRead mem d len).getD k 0 := by
  simp only [rd8, memRead, List.getD_eq_getElem?_getD, List.getElem?_take, List.getElem?_drop,
    hk, if_true]

/-! ## IPv4 egress: `ip_fragment_out` and `ip_out` -/

theorem ip_hdr_image_length (tl id ff p c : Nat) (s d : ip_t) :
    (ip_hdr_image tl id ff p c s d).length = 20 := by
  simp [ip_hdr_image, store16, ip_t.bytes]

theorem ip_hdr_image_split (tl id ff p c : Nat) (s d : ip_t) :
    ip_hdr_image tl id ff p c s d
      = ([IP_VERSION_4 * 16 + IP_HDR_LEN / 4, 0] ++ store16 tl ++ store16 id ++ store16 ff
          ++ [64, p % 256]) ++ store16 c ++ (s.bytes ++ d.bytes) := by
  simp [ip_hdr_image]

theorem buf_add_header_payload (b : buf_t) (n : Nat) :
    (buf_add_header b n).1.payload = b.payload := by
  unfold buf_add_header
  split_ifs <;> rfl

/-- The twenty bytes at `data` of an emitted fragment are the header image that carries the
checksum computed over the image with a zero checksum field. -/
theorem ip_fragment_out_header (cfg : NetCfg) (buf : buf_t) (ip : ip_t)
    (protocol id offset mf : Nat)
    (hfit : (buf_add_header buf IP_HDR_LEN).1.data + IP_HDR_LEN ≤ buf.payload.length) :
    memRead (ip_fragment_out cfg buf ip protocol id offset mf).payload
        (ip_fragment_out cfg buf ip protocol id offset mf).data IP_HDR_LEN
      = ip_hdr_image (swap16 (buf_add_header buf IP_HDR_LEN).1.len) (swap16 id)
          (swap16 ((if mf ≠ 0 then IP_MORE_FRAGMENT else 0) ||| (offset % 65536))) protocol
          (checksum16 (ip_hdr_image (swap16 (buf_add_header buf IP_HDR_LEN).1.len) (swap16 id)
            (swap16 ((if mf ≠ 0 then IP_MORE_FRAGMENT else 0) ||| (offset % 65536))) protocol
            0 cfg.net_if_ip ip))
          cfg.net_if_ip ip := by
  have hp := buf_add_header_payload buf IP_HDR_LEN
  simp only [ip_fragment_out]
  generalize (buf_add_header buf IP_HDR_LEN).1 = b at hfit hp ⊢
  generalize swap16 ((if mf ≠ 0 then IP_MORE_FRAGMENT else 0) ||| (offset % 65536)) = ff
  generalize swap16 b.len = tl
  generalize swap16 id = id16
  have hl0 := ip_hdr_image_length tl id16 ff protocol 0 cfg.net_if_ip ip
  have h20 : IP_HDR_LEN = 20 := rfl
  rw [h20] at hfit ⊢
  have hr : memRead (memWrite b.payload b.data
      (ip_hdr_image tl id16 ff protocol 0 cfg.net_if_ip ip)) b.data 20
      = ip_hdr_image tl id16 ff protocol 0 cfg.net_if_ip ip := by
    have := memRead_memWrite_same b.payload b.data
      (ip_hdr_image tl id16 ff protocol 0 cfg.net_if_ip ip) (by rw [hl0, hp]; exact hfit)
    rw [hl0] at this; exact this
  rw [hr]
  have hs : (store16 (checksum16 (ip_hdr_image tl id16 ff protocol 0 cfg.net_if_ip ip))).length
      = 2 := rfl
  rw [memRead_memWrite_inner _ b.data 10 20 _ (by rw [hs]; omega)
    (by rw [memWrite_length, hp]; exact hfit)]
  rw [hr, hs]
  simp [ip_hdr_image, store16, ip_t.bytes]

/-- C3. Every fragment emitted by `ip_fragment_out`, whatever the payload, destination,
protocol, identification, offset and MF argument, carries a header whose twenty bytes,
checksum field included, have `checksum16` equal to 0; the header has to lie inside the
buffer's storage. -/
theorem ip_fragment_out_checksum_zero (cfg : NetCfg) (buf : buf_t) (ip : ip_t)
    (protocol id offset mf : Nat)
    (hfit : (buf_add_header buf IP_HDR_LEN).1.data + IP_HDR_LEN ≤ buf.payload.length) :
    checksum16 (memRead (ip_fragment_out cfg buf ip protocol id offset mf).payload
      (ip_fragment_out cfg buf ip protocol id offset mf).data IP_HDR_LEN) = 0 := by
  rw [ip_fragment_out_header cfg buf ip protocol id offset mf hfit]
  rw [ip_hdr_image_split, ip_hdr_image_split]
  exact checksum16_fill _ _ (by simp [store16])

theorem ip_fragment_out_data (cfg : NetCfg) (buf : buf_t) (ip : ip_t)
    (protocol id offset mf : Nat) (hroom : 20 ≤ buf.data) :
    (ip_fragment_out cfg buf ip protocol id offset mf).data = buf.data - 20
      ∧ (ip_fragment_out cfg buf ip protocol id offset mf).len = buf.len + 20 := by
  have h : ¬ buf.data < 20 := by omega
  simp [ip_fragment_out, buf_add_header, IP_HDR_LEN, h]

/-- With room for the header in front of `data`, the emitted fragment holds the old contents
of the buffer after its first twenty bytes. -/
theorem ip_fragment_out_payload (cfg : NetCfg) (buf : buf_t) (ip : ip_t)
    (protocol id offset mf : Nat) (hroom : 20 ≤ buf.data) :
    (ip_fragment_out cfg buf ip protocol id offset mf).bytes.drop 20 = buf.bytes := by
  have h : ¬ buf.data < 20 := by omega
  obtain ⟨hd, hl⟩ := ip_fragment_out_data cfg buf ip protocol id offset mf hroom
  unfold buf_t.bytes
  rw [memRead_drop, hd, hl]
  simp only [ip_fragment_out, buf_add_header, IP_HDR_LEN, h, if_false]
  rw [memRead_memWrite_after _ _ _ _ _
    (by simp only [store16, List.length_cons, List.length_nil]; omega)]
  rw [memRead_memWrite_after _ _ _ _ _ (by rw [ip_hdr_image_length])]
  congr 1
  omega

/-- The fragmenting loop: the index only grows, every emitted slice lies before the end of
the input, the loop runs to its exit condition when the fuel allows, and the payloads of
the emitted fragments are the input bytes from slice `i` up to the final index. -/
theorem ip_out_loop_payloads (cfg : NetCfg) (junk buf : buf_t) (ip : ip_t) (protocol id : Nat)
    (hroom : 20 ≤ cfg.origin 1480) (hcap : cfg.origin 1480 + 1480 ≤ cfg.BUF_MAX_LEN)
    (hjunk : junk.payload.length = cfg.BUF_MAX_LEN)
    (hbuf : buf.data + buf.len ≤ buf.payload.length) :
    ∀ fuel i : Nat,
      i ≤ (ip_out_loop cfg junk buf ip protocol id fuel i).2
      ∧ ((ip_out_loop cfg junk buf ip protocol id fuel i).2 = i
          ∨ (ip_out_loop cfg junk buf ip protocol id fuel i).2 * 1480 < buf.len)
      ∧ (buf.len ≤ (i + fuel + 1) * 1480 →
          buf.len ≤ ((ip_out_loop cfg junk buf ip protocol id fuel i).2 + 1) * 1480)
      ∧ ((ip_out_loop cfg junk buf ip protocol id fuel i).1.map
            (fun f => f.bytes.drop 20)).flatten
          = memRead buf.payload (buf.data + i * 1480)
              (((ip_out_loop cfg junk buf ip protocol id fuel i).2 - i) * 1480) := by
  intro fuel
  induction fuel with
  | zero =>
    intro i
    refine ⟨le_refl _, Or.inl rfl, fun h => by simp only [ip_out_loop]; omega, ?_⟩
    simp [ip_out_loop, memRead]
  | succ fuel ih =>
    intro i
    by_cases hc : (i + 1) * 1480 < buf.len
    · obtain ⟨h1, h2, h3, h4⟩ := ih (i + 1)
      have hstep : ip_out_loop cfg junk buf ip protocol id (fuel + 1) i
          = (ip_fragment_out cfg
                { buf_init cfg junk 1480 with
                  payload := memWrite (buf_init cfg junk 1480).payload (buf_init cfg junk 1480).data
                    (memRead buf.payload (buf.data + i * 1480) 1480) }
                ip protocol id (i * (1480 / 8)) 1
              :: (ip_out_loop cfg junk buf ip protocol id fuel (i + 1)).1,
             (ip_out_loop cfg junk buf ip protocol id fuel (i + 1)).2) := by
        simp only [ip_out_loop, IP_HDR_LEN, hc, if_true]
      rw [hstep]
      refine ⟨by simp only; omega, Or.inr (by simp only; omega), fun h => h3 (by omega), ?_⟩
      simp only [List.map_cons, List.flatten_cons]
      rw [h4, ip_fragment_out_payload _ _ _ _ _ _ _ (by simpa [buf_init] using hroom)]
      have hsl : (memRead buf.payload (buf.data + i * 1480) 1480).length = 1480 :=
        memRead_length _ _ _ (by omega)
      have hb : buf_t.bytes { buf_init cfg junk 1480 with
          payload := memWrite (buf_init cfg junk 1480).payload (buf_init cfg junk 1480).data
            (memRead buf.payload (buf.data + i * 1480) 1480) }
          = memRead buf.payload (buf.data + i * 1480) 1480 := by
        simp only [buf_t.bytes, buf_init]
        have := memRead_memWrite_same junk.payload (cfg.origin 1480)
          (memRead buf.payload (buf.data + i * 1480) 1480) (by rw [hsl, hjunk]; exact hcap)
        rw [hsl] at this
        exact this
      rw [hb]
      have e : ((ip_out_loop cfg junk buf ip protocol id fuel (i + 1)).2 - i) * 1480
          = 1480 + ((ip_out_loop cfg junk buf ip protocol id fuel (i + 1)).2 - (i + 1)) * 1480 := by
        omega
      rw [e, memRead_add]
      congr 2
      omega
    · have hstep : ip_out_loop cfg junk buf ip protocol id (fuel + 1) i = ([], i) := by
        simp only [ip_out_loop, IP_HDR_LEN, hc, if_false]
      rw [hstep]
      refine ⟨le_refl _, Or.inl rfl, fun _ => by simp only; omega, ?_⟩
      simp [memRead]

/-- For a call during which `*buf` keeps its contents and a payload that fits the frame
buffer (a slice of up to 1480 bytes has room for the header in front of it and fits the
capacity), concatenating the bytes after the first twenty of every fragment emitted by one
`ip_out` call, in emission order, gives the payload. -/
theorem ip_out_payload_roundtrip (cfg : NetCfg) (junk buf : buf_t) (ip : ip_t)
    (protocol id : Nat)
    (hroom : ∀ n, n ≤ 1480 → 20 ≤ cfg.origin n ∧ cfg.origin n + n ≤ cfg.BUF_MAX_LEN)
    (hjunk : junk.payload.length = cfg.BUF_MAX_LEN)
    (hbuf : buf.data + buf.len ≤ buf.payload.length) :
    ((ip_out cfg junk buf ip protocol id).1.map (fun f => f.bytes.drop 20)).flatten
      = buf.bytes := by
  obtain ⟨hr1, hr2⟩ := hroom 1480 (le_refl _)
  obtain ⟨h1, h2, h3, h4⟩ :=
    ip_out_loop_payloads cfg junk buf ip protocol id hr1 hr2 hjunk hbuf buf.len 0
  have hexit := h3 (by omega)
  simp only [ip_out, IP_HDR_LEN, List.map_append, List.flatten_append, List.map_cons,
    List.map_nil, List.flatten_cons, List.flatten_nil, List.append_nil]
  generalize (ip_out_loop cfg junk buf ip protocol id buf.len 0) = r at h1 h2 h4 hexit ⊢
  have hn : buf.len - r.2 * 1480 ≤ 1480 := by omega
  obtain ⟨hn1, hn2⟩ := hroom _ hn
  rw [h4, ip_fragment_out_payload _ _ _ _ _ _ _ (by simpa [buf_init] using hn1)]
  have hle : r.2 * 1480 ≤ buf.len := by omega
  have hsl : (memRead buf.payload (buf.data + r.2 * 1480) (buf.len - r.2 * 1480)).length
      = buf.len - r.2 * 1480 := memRead_length _ _ _ (by omega)
  have hb : buf_t.bytes { buf_init cfg junk (buf.len - r.2 * 1480) with
      payload := memWrite (buf_init cfg junk (buf.len - r.2 * 1480)).payload
        (buf_init cfg junk (buf.len - r.2 * 1480)).data
        (memRead buf.payload (buf.data + r.2 * 1480) (buf.len - r.2 * 1480)) }
      = memRead buf.payload (buf.data + r.2 * 1480) (buf.len - r.2 * 1480) := by
    simp only [buf_t.bytes, buf_init]
    have := memRead_memWrite_same junk.payload (cfg.origin (buf.len - r.2 * 1480))
      (memRead buf.payload (buf.data + r.2 * 1480) (buf.len - r.2 * 1480))
      (by rw [hsl, hjunk]; exact hn2)
    rw [hsl] at this
    exact this
  rw [hb]
  unfold buf_t.bytes
  have e : buf.len = (r.2 - 0) * 1480 + (buf.len - r.2 * 1480) := by omega
  conv_rhs => rw [e, memRead_add]
  simp only [Nat.sub_zero, Nat.zero_mul, Nat.add_zero]

/-! ## IPv4 ingress: `ip_in` -/

theorem rd8_lt (mem : List Nat) (off : Nat) (hb : ∀ x ∈ mem, x < 256) : rd8 mem off < 256 := by
  unfold rd8
  by_cases h : off < mem.length
  · rw [List.getD_eq_getElem _ _ h]
    exact hb _ (List.getElem_mem h)
  · rw [List.getD_eq_default _ _ (by omega)]
    omega

theorem memRead_one (mem : List Nat) (off : Nat) (h : off < mem.length) :
    memRead mem off 1 = [rd8 mem off] := by
  unfold memRead rd8
  rw [List.drop_eq_getElem_cons h, List.getD_eq_getElem _ _ h]
  rfl

theorem memRead_two (mem : List Nat) (off : Nat) (h : off + 2 ≤ mem.length) :
    memRead mem off 2 = [rd8 mem off, rd8 mem (off + 1)] := by
  rw [show 2 = 1 + 1 from rfl, memRead_add, memRead_one _ _ (by omega),
    memRead_one _ _ (by omega)]
  rfl

theorem store16_rd16 (mem : List Nat) (off : Nat) (h : off + 2 ≤ mem.length)
    (hb : ∀ x ∈ mem, x < 256) : store16 (rd16 mem off) = memRead mem off 2 := by
  have h0 := rd8_lt mem off hb
  have h1 := rd8_lt mem (off + 1) hb
  rw [memRead_two _ _ h]
  unfold store16 rd16
  congr 1
  · omega
  · congr 1
    omega

theorem swap16_rd16 (mem : List Nat) (off : Nat) (hb : ∀ x ∈ mem, x < 256) :
    swap16 (rd16 mem off) = 256 * rd8 mem off + rd8 mem (off + 1) := by
  have h0 := rd8_lt mem off hb
  have h1 := rd8_lt mem (off + 1) hb
  unfold swap16 rd16
  omega

/-- Zeroing the checksum field and storing the saved value back restores the frame. -/
theorem ip_in_restore (mem : List Nat) (d : Nat) (h : d + 12 ≤ mem.length)
    (hb : ∀ x ∈ mem, x < 256) :
    memWrite (memWrite mem (d + 10) (store16 0)) (d + 10) (store16 (rd16 mem (d + 10))) = mem := by
  rw [memWrite_memWrite_same mem (d + 10) (store16 0) (store16 (rd16 mem (d + 10))) rfl,
    store16_rd16 _ _ (by omega) hb, memWrite_memRead_self _ _ _ (by omega)]

/-- The header with a zeroed checksum field, in terms of the frame contents. -/
theorem ip_in_zeroed (b : buf_t) (h20 : 20 ≤ b.len) (hwf : b.data + b.len ≤ b.payload.length) :
    memRead (memWrite b.payload (b.data + 10) (store16 0)) b.data 20
      = b.bytes.take 10 ++ [0, 0] ++ (b.bytes.drop 12).take 8 := by
  rw [memRead_memWrite_inner _ _ 10 20 _ (by simp [store16]) (by omega)]
  have e : memRead b.payload b.data 20 = b.bytes.take 20 := by
    unfold buf_t.bytes
    rw [memRead_take, Nat.min_eq_left h20]
  rw [e, List.take_take, List.drop_take]
  rfl

/-- The guards of `ip_in` as the code evaluates them. -/
theorem ip_in_guards (cfg : NetCfg) (net_in : buf_t → Nat → ip_t → Int) (buf : buf_t) :
    ((ip_in cfg net_in buf).delivered.isSome = true ↔
      (20 ≤ buf.len
        ∧ rd8 buf.payload buf.data / 16 = 4
        ∧ swap16 (rd16 buf.payload (buf.data + 2)) ≤ buf.len
        ∧ checksum16 (memRead (memWrite buf.payload (buf.data + 10) (store16 0)) buf.data 20)
            = rd16 buf.payload (buf.data + 10)
        ∧ rdIp (memWrite (memWrite buf.payload (buf.data + 10) (store16 0)) (buf.data + 10)
            (store16 (rd16 buf.payload (buf.data + 10)))) (buf.data + 16) = cfg.net_if_ip))
    ∧ ((ip_in cfg net_in buf).delivered = none → (ip_in cfg net_in buf).unreachable = none) := by
  simp only [ip_in, IP_HDR_LEN, IP_VERSION_4]
  split_ifs with a1 a2 a3 a4 a5 a6 <;>
    simp only [Option.isSome_none, Option.isSome_some, false_iff, true_iff, not_and,
      forall_true_left, implies_true, and_true, reduceCtorEq, false_implies, Bool.false_eq_true] <;>
    first
      | (intros; omega)
      | (intro h1 h2 h3; omega)
      | (intro h1 h2 h3 h4; exact a5)
      | (refine ⟨by omega, ?_, by omega, ?_, ?_⟩ <;> first | exact not_not.mp a2 | exact not_not.mp a4 | exact not_not.mp a5)

/-- C4. `ip_in` hands the frame to `net_in` exactly when the frame holds at least 20 bytes,
its version field is 4, its total-length field is at most the frame length, `checksum16`
over its first 20 bytes with the checksum field zeroed equals the stored checksum, and its
destination address is the local one; whenever nothing is delivered, nothing is emitted
either. -/
theorem ip_in_delivers_iff (cfg : NetCfg) (net_in : buf_t → Nat → ip_t → Int) (buf : buf_t)
    (hwf : buf.data + buf.len ≤ buf.payload.length) (hb : ∀ x ∈ buf.payload, x < 256) :
    ((ip_in cfg net_in buf).delivered.isSome = true ↔
      (20 ≤ buf.len
        ∧ buf.bytes.getD 0 0 / 16 = 4
        ∧ 256 * buf.bytes.getD 2 0 + buf.bytes.getD 3 0 ≤ buf.len
        ∧ checksum16 (buf.bytes.take 10 ++ [0, 0] ++ (buf.bytes.drop 12).take 8)
            = buf.bytes.getD 10 0 + 256 * buf.bytes.getD 11 0
        ∧ (⟨buf.bytes.getD 16 0, buf.bytes.getD 17 0, buf.bytes.getD 18 0,
            buf.bytes.getD 19 0⟩ : ip_t) = cfg.net_if_ip))
    ∧ ((ip_in cfg net_in buf).delivered = none → (ip_in cfg net_in buf).unreachable = none) := by
  obtain ⟨hraw, hnone⟩ := ip_in_guards cfg net_in buf
  refine ⟨?_, hnone⟩
  rw [hraw]
  by_cases h20 : 20 ≤ buf.len
  · have r0 := rd8_eq_getD buf.payload buf.data buf.len 0 (by omega)
    have r2 := rd8_eq_getD buf.payload buf.data buf.len 2 (by omega)
    have r3 := rd8_eq_getD buf.payload buf.data buf.len 3 (by omega)
    have r10 := rd8_eq_getD buf.payload buf.data buf.len 10 (by omega)
    have r11 := rd8_eq_getD buf.payload buf.data buf.len 11 (by omega)
    have r16 := rd8_eq_getD buf.payload buf.data buf.len 16 (by omega)
    have r17 := rd8_eq_getD buf.payload buf.data buf.len 17 (by omega)
    have r18 := rd8_eq_getD buf.payload buf.data buf.len 18 (by omega)
    have r19 := rd8_eq_getD buf.payload buf.data buf.len 19 (by omega)
    rw [← buf_t.bytes] at r0 r2 r3 r10 r11 r16 r17 r18 r19
    rw [Nat.add_zero] at r0
    have hz := ip_in_zeroed buf h20 hwf
    have hres := ip_in_restore buf.payload buf.data (by omega) hb
    have hsw := swap16_rd16 buf.payload (buf.data + 2) hb
    rw [show buf.data + 2 + 1 = buf.data + 3 from rfl, r2, r3] at hsw
    have hck : rd16 buf.payload (buf.data + 10)
        = buf.bytes.getD 10 0 + 256 * buf.bytes.getD 11 0 := by
      unfold rd16
      rw [show buf.data + 10 + 1 = buf.data + 11 from rfl, r10, r11]
    have hdst : rdIp buf.payload (buf.data + 16)
        = ⟨buf.bytes.getD 16 0, buf.bytes.getD 17 0, buf.bytes.getD 18 0,
            buf.bytes.getD 19 0⟩ := by
      unfold rdIp
      rw [show buf.data + 16 + 1 = buf.data + 17 from rfl,
        show buf.data + 16 + 2 = buf.data + 18 from rfl,
        show buf.data + 16 + 3 = buf.data + 19 from rfl, r16, r17, r18, r19]
    rw [hres, hz, hsw, hck, hdst, r0]
  · exact ⟨fun h => absurd h.1 h20, fun h => absurd h.1 h20⟩

/-! ## TCP: application-facing operations -/

theorem min32_eq_min (a b : Nat) (ha : a < 4294967296) (hb : b < 4294967296) :
    min32 a b = min a b := by
  unfold min32
  rw [Nat.mod_eq_of_lt ha, Nat.mod_eq_of_lt hb]
  split_ifs <;> omega

theorem sub32_eq_sub (a b : Nat) (hba : b ≤ a) (ha : a < 4294967296) : sub32 a b = a - b := by
  unfold sub32
  omega

theorem sub32_lt (a b : Nat) : sub32 a b < 4294967296 := by
  unfold sub32
  omega

/-- C7. When `next_seq − unack_seq + len` (computed as the code does, the difference modulo
2^32 and the sum in 64 bits) reaches `remote_win`, `tcp_connect_write` returns 0, leaves
the connection with its `tx_buf`, `next_seq` and `unack_seq` as well as `txbuf` untouched and
hands nothing to `ip_out`. -/
theorem tcp_connect_write_blocked (cfg : NetCfg) (connect : tcp_connect_t) (txbuf : buf_t)
    (data : List Nat) (len : Nat) (tx : buf_t) (htx : connect.tx_buf = some tx)
    (hblk : connect.remote_win
      ≤ (sub32 connect.next_seq connect.unack_seq + len) % 18446744073709551616) :
    tcp_connect_write cfg connect txbuf data len = some (connect, txbuf, [], 0) := by
  simp only [tcp_connect_write, htx, hblk, if_true]

/-- C8. With `len < 2^32` and `next_seq − unack_seq + len < remote_win`, when the tail
extension of `tx_buf` succeeds, `tcp_connect_write` returns `n = min(tail space, len)`,
which is at most `len`, and `tx_buf` afterwards holds its previous bytes followed by the
first `n` bytes of `data`, its length grown by `n` and its data offset unchanged; no segment
is sent. -/
theorem tcp_connect_write_appends (cfg : NetCfg) (connect : tcp_connect_t) (txbuf : buf_t)
    (data : List Nat) (len : Nat) (tx : buf_t) (htx : connect.tx_buf = some tx)
    (hcap : cfg.BUF_MAX_LEN < 4294967296)
    (hwf : tx.data + tx.len ≤ cfg.BUF_MAX_LEN) (hpl : tx.payload.length = cfg.BUF_MAX_LEN)
    (hlen : len < 4294967296) (hdata : len ≤ data.length)
    (hwin : sub32 connect.next_seq connect.unack_seq + len < connect.remote_win)
    (hpad : (buf_add_padding cfg tx (min (cfg.BUF_MAX_LEN - (tx.data + tx.len)) len)).2 = 0) :
    ∃ tx' : buf_t,
      tcp_connect_write cfg connect txbuf data len
        = some ({ connect with tx_buf := some tx' }, txbuf, [],
            min (cfg.BUF_MAX_LEN - (tx.data + tx.len)) len)
      ∧ min (cfg.BUF_MAX_LEN - (tx.data + tx.len)) len ≤ len
      ∧ tx'.bytes = tx.bytes ++ data.take (min (cfg.BUF_MAX_LEN - (tx.data + tx.len)) len)
      ∧ tx'.len = tx.len + min (cfg.BUF_MAX_LEN - (tx.data + tx.len)) len
      ∧ tx'.data = tx.data := by
  have hsize : min32 (sub32 cfg.BUF_MAX_LEN (tx.data + tx.len)) len
      = min (cfg.BUF_MAX_LEN - (tx.data + tx.len)) len := by
    rw [min32_eq_min _ _ (sub32_lt _ _) hlen, sub32_eq_sub _ _ hwf hcap]
  generalize hn : min (cfg.BUF_MAX_LEN - (tx.data + tx.len)) len = n at hsize hpad ⊢
  have hnle : n ≤ len := by omega
  have hfit : ¬ cfg.BUF_MAX_LEN < tx.data + tx.len + n := by
    intro h
    simp [buf_add_padding, h] at hpad
  have hguard : ¬ connect.remote_win
      ≤ (sub32 connect.next_seq connect.unack_seq + len) % 18446744073709551616 := by
    have := sub32_lt connect.next_seq connect.unack_seq
    omega
  have htake : (data.take n).length = n := by
    rw [List.length_take]; omega
  refine ⟨⟨tx.len + n, tx.data, memWrite tx.payload (tx.data + tx.len) (data.take n)⟩,
    ?_, hnle, ?_, rfl, rfl⟩
  · simp only [tcp_connect_write, htx, hsize, hguard, if_false, buf_add_padding, hfit, ne_eq,
      not_true_eq_false]
  · simp only [buf_t.bytes]
    rw [memRead_add, memRead_memWrite_before _ _ _ _ _ (le_refl _)]
    have := memRead_memWrite_same tx.payload (tx.data + tx.len) (data.take n)
      (by rw [htake, hpl]; omega)
    rw [htake] at this
    rw [this]

/-- C9. With an allocated `rx_buf` and `cap < 2^32`, `tcp_connect_read` returns
`n = min(rx_buf.len, cap)`, stores the first `n` bytes of `rx_buf` at the output, and leaves
in `rx_buf` the remaining `rx_buf.len − n` bytes in their order: the output followed by the
new contents is the old contents. -/
theorem tcp_connect_read_fifo (connect : tcp_connect_t) (cap : Nat) (rx : buf_t)
    (hrx : connect.rx_buf = some rx) (hlen : rx.len < 4294967296) (hcap : cap < 4294967296) :
    ∃ rx' : buf_t,
      tcp_connect_read connect cap
        = some ({ connect with rx_buf := some rx' }, rx.bytes.take (min rx.len cap),
            min rx.len cap)
      ∧ rx'.bytes = rx.bytes.drop (min rx.len cap)
      ∧ rx'.len = rx.len - min rx.len cap
      ∧ rx.bytes.take (min rx.len cap) ++ rx'.bytes = rx.bytes := by
  have hsize : min32 rx.len cap = min rx.len cap := min32_eq_min _ _ hlen hcap
  generalize hn : min rx.len cap = n at hsize ⊢
  have hnle : ¬ rx.len < n := by omega
  refine ⟨⟨rx.len - n, rx.data + n, rx.payload⟩, ?_, ?_, rfl, ?_⟩
  · simp only [tcp_connect_read, hrx, hsize, buf_remove_header, hnle, if_false, ne_eq,
      not_true_eq_false]
    congr 3
    unfold buf_t.bytes
    rw [memRead_take, Nat.min_eq_left (by omega)]
  · unfold buf_t.bytes
    rw [memRead_drop]
  · unfold buf_t.bytes
    rw [← memRead_drop]
    exact List.take_append_drop _ _

/-! ## TCP: `tcp_send` and `tcp_connect_close` -/

theorem map_get_map_set {κ ν : Type} [DecidableEq κ] (m : List (κ × ν)) (k : κ) (v : ν) :
    map_get (m.map (fun e => if e.1 = k then (k, v) else e)) k
      = (map_get m k).map (fun _ => v) := by
  induction m with
  | nil => rfl
  | cons e rest ih =>
    obtain ⟨k', v'⟩ := e
    rw [List.map_cons]
    dsimp only
    by_cases h : k' = k
    · rw [if_pos h]
      simp only [map_get, h, if_true, Option.map_some']
    · rw [if_neg h]
      simp only [map_get, h, if_false]
      exact ih

theorem map_get_set_self {κ ν : Type} [DecidableEq κ] (m : List (κ × ν)) (k : κ) (v w : ν)
    (h : map_get m k = some w) : map_get (map_set m k v) k = some v := by
  unfold map_set
  rw [h, Option.isSome_some, if_pos rfl, map_get_map_set, h]
  rfl

theorem tcp_hdr_image_length (a b c d e f : Nat) (g : tcp_flags_t) (h i j : Nat) :
    (tcp_hdr_image a b c d e f g h i j).length = 20 := by
  simp [tcp_hdr_image, store16, store32]

/-- The pseudo-header overlay of `tcp_checksum` leaves the buffer as it was. -/
theorem tcp_checksum_restores (buf : buf_t) (src_ip dst_ip : ip_t) (hroom : 12 ≤ buf.data)
    (hwf : buf.data ≤ buf.payload.length) : (tcp_checksum buf src_ip dst_ip).1 = buf := by
  simp only [tcp_checksum]
  have hl : (memRead buf.payload (buf.data - 12) 12).length = 12 :=
    memRead_length _ _ _ (by omega)
  rw [memWrite_memWrite_same _ _ _ _ (by rw [hl]; simp [store16, ip_t.bytes]),
    memWrite_memRead_self _ _ _ (by omega)]

/-- The segment `tcp_send` hands to `ip_out`: a twenty-byte header image in front of the old
contents of the buffer, when the buffer has room for the header and the pseudo-header. -/
theorem tcp_send_segment (cfg : NetCfg) (buf : buf_t) (connect : tcp_connect_t)
    (flags : tcp_flags_t) (hroom : 32 ≤ buf.data)
    (hwf : buf.data + buf.len ≤ buf.payload.length) :
    ∃ ck : Nat,
      (tcp_send cfg buf connect flags).2.2.buf.bytes
        = tcp_hdr_image (swap16 connect.local_port) (swap16 connect.remote_port)
            (swap32 ((connect.next_seq % 4294967296
              + (18446744073709551616 - buf.len % 18446744073709551616))
              % 18446744073709551616))
            (swap32 connect.ack) 0 5 flags (swap16 connect.remote_win) ck 0 ++ buf.bytes
      ∧ (tcp_send cfg buf connect flags).2.2.ip = connect.ip
      ∧ (tcp_send cfg buf connect flags).2.2.protocol = NET_PROTOCOL_TCP
      ∧ (tcp_send cfg buf connect flags).1 = (tcp_send cfg buf connect flags).2.2.buf := by
  have hah : buf_add_header buf 20 = (⟨buf.len + 20, buf.data - 20, buf.payload⟩, 0) := by
    simp [buf_add_header, show ¬ buf.data < 20 by omega]
  generalize hseq : swap32 ((connect.next_seq % 4294967296
    + (18446744073709551616 - buf.len % 18446744073709551616)) % 18446744073709551616) = seq
  have himg := tcp_hdr_image_length (swap16 connect.local_port) (swap16 connect.remote_port)
    seq (swap32 connect.ack) 0 5 flags (swap16 connect.remote_win) 0 0
  generalize hh : tcp_hdr_image (swap16 connect.local_port) (swap16 connect.remote_port)
    seq (swap32 connect.ack) 0 5 flags (swap16 connect.remote_win) 0 0 = hdr at himg
  have hck := tcp_checksum_restores
    ⟨buf.len + 20, buf.data - 20, memWrite buf.payload (buf.data - 20) hdr⟩
    connect.ip cfg.net_if_ip (by simp only; omega) (by simp only [memWrite_length]; omega)
  generalize hckv : (tcp_checksum
    ⟨buf.len + 20, buf.data - 20, memWrite buf.payload (buf.data - 20) hdr⟩
    connect.ip cfg.net_if_ip).2 = ck
  have hsend : (tcp_send cfg buf connect flags).2.2
      = ⟨⟨buf.len + 20, buf.data - 20,
          memWrite (memWrite buf.payload (buf.data - 20) hdr) (buf.data - 20 + 16) (store16 ck)⟩,
        connect.ip, NET_PROTOCOL_TCP⟩ := by
    simp only [tcp_send, hah, hseq, show 20 / 4 = 5 from rfl, hh, hck, hckv]
  have hsend1 : (tcp_send cfg buf connect flags).1
      = ⟨buf.len + 20, buf.data - 20,
          memWrite (memWrite buf.payload (buf.data - 20) hdr) (buf.data - 20 + 16) (store16 ck)⟩ := by
    simp only [tcp_send, hah, hseq, show 20 / 4 = 5 from rfl, hh, hck, hckv]
  refine ⟨ck, ?_, by rw [hsend], by rw [hsend], by rw [hsend, hsend1]⟩
  rw [hsend]
  simp only [buf_t.bytes]
  have hs : (store16 ck).length = 2 := rfl
  rw [Nat.add_comm buf.len 20, memRead_add]
  rw [memRead_memWrite_inner _ (buf.data - 20) 16 20 _ (by rw [hs]; omega)
    (by rw [memWrite_length]; omega)]
  have hr : memRead (memWrite buf.payload (buf.data - 20) hdr) (buf.data - 20) 20 = hdr := by
    have := memRead_memWrite_same buf.payload (buf.data - 20) hdr (by rw [himg]; omega)
    rw [himg] at this; exact this
  rw [hr, hs]
  rw [memRead_memWrite_after _ _ _ _ _ (by rw [hs]; omega)]
  rw [memRead_memWrite_after _ _ _ _ _ (by rw [himg])]
  rw [show buf.data - 20 + 20 = buf.data by omega]
  congr 1
  rw [← hh]
  simp [tcp_hdr_image, store16, store32]

/-- C2, as amended. For every byte run of even length, appending the two bytes of its
`checksum16`, in the word order in which `checksum16` reads, gives a run whose `checksum16`
is 0. -/
theorem checksum16_append_self (D : List Nat) (heven : D.length % 2 = 0) :
    checksum16 (D ++ store16 (checksum16 D)) = 0 := by
  have hA : D.length = 2 * (D.length / 2) := by omega
  have h0 : checksum16 (D ++ store16 0 ++ []) = checksum16 D := by
    rw [checksum16_eq, checksum16_eq, List.append_assoc, wsum_append_even _ D _ hA,
      wsum_store16 0 (by omega)]
    simp only [wsum, Nat.add_zero]
  have := checksum16_fill D [] heven
  rw [h0, List.append_nil] at this
  exact this

/-- C2 on a run of even length: the bytes 1, 2 followed by their checksum sum to zero. -/
theorem checksum16_append_self_witness :
    [1, 2].length % 2 = 0 ∧ checksum16 ([1, 2] ++ store16 (checksum16 [1, 2])) = 0 :=
  ⟨by decide, checksum16_append_self [1, 2] (by decide)⟩

/-- C2 as stated fails on a run of odd length: for the single byte 1 the checksum is
0xFFFE, and the three-byte run 01 FE FF has checksum 0x00FF, not 0. -/
theorem checksum16_append_self_odd :
    checksum16 [1] = 65534 ∧ checksum16 ([1] ++ store16 (checksum16 [1])) = 255
      ∧ checksum16 ([1] ++ store16 (checksum16 [1])) ≠ 0 := by
  decide

/-! ## Instances of the IPv4 theorems -/

/-- The round trip on a 3200-byte payload in a buffer of its own, which is sent in three
fragments. -/
theorem ip_out_payload_roundtrip_witness :
    (∀ n, n ≤ 1480 → 20 ≤ exCfgBig.origin n ∧ exCfgBig.origin n + n ≤ exCfgBig.BUF_MAX_LEN)
      ∧ exScratchBig.payload.length = exCfgBig.BUF_MAX_LEN
      ∧ exPayload.data + exPayload.len ≤ exPayload.payload.length
      ∧ ((ip_out exCfgBig exScratchBig exPayload exPeer NET_PROTOCOL_UDP 0).1.map
          (fun f => f.bytes.drop 20)).flatten = exPayload.bytes :=
  have h1 : ∀ n, n ≤ 1480 →
      20 ≤ exCfgBig.origin n ∧ exCfgBig.origin n + n ≤ exCfgBig.BUF_MAX_LEN :=
    fun n hn => ⟨by simp only [exCfgBig]; omega, by simp only [exCfgBig]; omega⟩
  have h2 : exScratchBig.payload.length = exCfgBig.BUF_MAX_LEN := List.length_replicate 4096 0
  have h3 : exPayload.data + exPayload.len ≤ exPayload.payload.length := by
    rw [show exPayload.payload = List.replicate 3300 7 from rfl, List.length_replicate]
    decide
  ⟨h1, h2, h3, ip_out_payload_roundtrip exCfgBig exScratchBig exPayload exPeer
    NET_PROTOCOL_UDP 0 h1 h2 h3⟩

/-- C3 on a three-byte payload with 40 bytes of headroom. -/
theorem ip_fragment_out_checksum_zero_witness :
    (buf_add_header ⟨3, 40, List.replicate 64 0⟩ IP_HDR_LEN).1.data + IP_HDR_LEN
        ≤ (List.replicate 64 0).length
      ∧ checksum16 (memRead
          (ip_fragment_out exCfg ⟨3, 40, List.replicate 64 0⟩ exPeer NET_PROTOCOL_UDP 7 185 1).payload
          (ip_fragment_out exCfg ⟨3, 40, List.replicate 64 0⟩ exPeer NET_PROTOCOL_UDP 7 185 1).data
          IP_HDR_LEN) = 0 :=
  ⟨by decide, ip_fragment_out_checksum_zero exCfg ⟨3, 40, List.replicate 64 0⟩ exPeer
    NET_PROTOCOL_UDP 7 185 1 (by decide)⟩

/-- C4 on a frame that passes every check: it is delivered. -/
theorem ip_in_delivers_iff_witness :
    exFrame.data + exFrame.len ≤ exFrame.payload.length
      ∧ (∀ x ∈ exFrame.payload, x < 256)
      ∧ (ip_in exCfg (fun _ _ _ => 0) exFrame).delivered.isSome = true
      ∧ (20 ≤ exFrame.len
        ∧ exFrame.bytes.getD 0 0 / 16 = 4
        ∧ 256 * exFrame.bytes.getD 2 0 + exFrame.bytes.getD 3 0 ≤ exFrame.len
        ∧ checksum16 (exFrame.bytes.take 10 ++ [0, 0] ++ (exFrame.bytes.drop 12).take 8)
            = exFrame.bytes.getD 10 0 + 256 * exFrame.bytes.getD 11 0
        ∧ (⟨exFrame.bytes.getD 16 0, exFrame.bytes.getD 17 0, exFrame.bytes.getD 18 0,
            exFrame.bytes.getD 19 0⟩ : ip_t) = exCfg.net_if_ip) :=
  have h1 : exFrame.data + exFrame.len ≤ exFrame.payload.length := by decide
  have h2 : ∀ x ∈ exFrame.payload, x < 256 := by decide
  have h3 : (ip_in exCfg (fun _ _ _ => 0) exFrame).delivered.isSome = true := by decide
  ⟨h1, h2, h3, (ip_in_delivers_iff exCfg (fun _ _ _ => 0) exFrame h1 h2).1.mp h3⟩

/-! ## `tcp_in` on the segments of the handshake and of a sequence violation -/

/-- C5 at a concrete SYN. The segment (sequence number 1000) is checksum-valid and addressed
to the listening port 80, no connection exists for its key; `tcp_in` leaves the connection
table empty, so no connection is in SYN_RCVD, and hands nothing to `ip_out`, so no SYN+ACK
is sent. -/
theorem tcp_in_syn_unanswered :
    (tcp_checksum exSyn exPeer exCfg.net_if_ip).2 = 0
      ∧ map_get exEnvListen.tcp_table 80 = some 1
      ∧ map_get exEnvListen.connect_table exKey = none
      ∧ map_get (tcp_in exEnvListen exSyn exPeer).1.connect_table exKey = none
      ∧ (tcp_in exEnvListen exSyn exPeer).2 = [] := by
  decide

/-- C6 at a concrete sequence violation. The connection is ESTABLISHED with `ack = 2000`,
the checksum-valid segment carries sequence number 2500; `tcp_in` hands nothing to `ip_out`,
so no RST+ACK is sent, and the connection is still in the table, unchanged. -/
theorem tcp_in_out_of_order_unanswered :
    (tcp_checksum exOutOfOrder exPeer exCfg.net_if_ip).2 = 0
      ∧ map_get exEnv.connect_table exKey = some exConn
      ∧ exConn.state = TCP_ESTABLISHED ∧ exConn.ack = 2000
      ∧ (tcp_in exEnv exOutOfOrder exPeer).2 = []
      ∧ map_get (tcp_in exEnv exOutOfOrder exPeer).1.connect_table exKey = some exConn := by
  decide

/-! ## Instances of the TCP theorems -/

/-- C7 on a connection whose one-byte window is used up. -/
theorem tcp_connect_write_blocked_witness :
    exConnBlocked.tx_buf
        = some ⟨3, 4, List.replicate 4 0 ++ [1, 2, 3] ++ List.replicate 9 0⟩
      ∧ exConnBlocked.remote_win
        ≤ (sub32 exConnBlocked.next_seq exConnBlocked.unack_seq + 3) % 18446744073709551616
      ∧ tcp_connect_write exCfgSmall exConnBlocked exScratch [5, 6, 7] 3
        = some (exConnBlocked, exScratch, [], 0) :=
  ⟨rfl, by decide, tcp_connect_write_blocked exCfgSmall exConnBlocked exScratch [5, 6, 7] 3
    ⟨3, 4, List.replicate 4 0 ++ [1, 2, 3] ++ List.replicate 9 0⟩ rfl (by decide)⟩

/-- C8 on a 16-byte buffer holding three bytes at offset 4: of twelve bytes offered, the
nine that fit the tail are appended. -/
theorem tcp_connect_write_appends_witness :
    ∃ tx' : buf_t,
      tcp_connect_write exCfgSmall exConn exScratch
          [5, 6, 7, 8, 9, 10, 11, 12, 13, 14, 15, 16] 12
        = some ({ exConn with tx_buf := some tx' }, exScratch, [], 9)
      ∧ 9 ≤ 12
      ∧ tx'.bytes = [1, 2, 3] ++ [5, 6, 7, 8, 9, 10, 11, 12, 13]
      ∧ tx'.len = 3 + 9
      ∧ tx'.data = 4 :=
  tcp_connect_write_appends exCfgSmall exConn exScratch
    [5, 6, 7, 8, 9, 10, 11, 12, 13, 14, 15, 16] 12
    ⟨3, 4, List.replicate 4 0 ++ [1, 2, 3] ++ List.replicate 9 0⟩ rfl (by decide) (by decide)
    (by decide) (by decide) (by decide) (by decide) (by decide)

/-- C9 on a buffer holding 1, 2, 3: a read of capacity 2 returns 1, 2 and leaves 3. -/
theorem tcp_connect_read_fifo_witness :
    ∃ rx' : buf_t,
      tcp_connect_read exConn 2 = some ({ exConn with rx_buf := some rx' }, [1, 2], 2)
      ∧ rx'.bytes = [3]
      ∧ rx'.len = 1
      ∧ [1, 2] ++ rx'.bytes = [1, 2, 3] :=
  tcp_connect_read_fifo exConn 2 ⟨3, 1, [9, 1, 2, 3, 9]⟩ rfl (by decide) (by decide)

/-! ## TCP: closing a port, the window and the sent-bytes invariant -/

/-- C12 at a concrete state. The connection has `unack_seq = 100`, `next_seq = 101` and
`remote_win = 2`, so `unack_seq ≤ next_seq ≤ unack_seq + remote_win`; its `tx_buf` holds three
bytes.  `tcp_write_to_buf` selects `min(3 − 1, 2) = 2` bytes and sets `next_seq = 103`:
afterwards `next_seq − unack_seq = 3`, more than `remote_win`. -/
theorem tcp_write_to_buf_overshoots :
    exConnWin2.unack_seq ≤ exConnWin2.next_seq
      ∧ exConnWin2.next_seq ≤ exConnWin2.unack_seq + exConnWin2.remote_win
      ∧ (tcp_write_to_buf exCfg exConnWin2 exScratch).map
          (fun r => (r.2.2, r.1.next_seq, r.1.unack_seq, r.1.remote_win))
        = some (2, 103, 100, 2)
      ∧ ¬ (103 - 100 ≤ 2) := by
  decide

theorem sub32_add (a b n : Nat) :
    sub32 ((a + n) % 4294967296) b = (sub32 a b + n) % 4294967296 := by
  unfold sub32
  omega

theorem write_size_le (l s w : Nat) (hs : s ≤ l) (h16 : s < 65536) :
    min32 ((l % 18446744073709551616 + (18446744073709551616 - s)) % 18446744073709551616) w
      % 65536 ≤ l - s := by
  unfold min32
  split_ifs <;> omega

/-- The effect of `tcp_write_to_buf` on the count of sent bytes: when the count fits the
16-bit `sent` and lies within `tx_buf`, the selected bytes keep it within `tx_buf`. -/
theorem tcp_write_to_buf_within (cfg : NetCfg) (c : tcp_connect_t) (buf tx : buf_t)
    (htx : c.tx_buf = some tx) (hs : sub32 c.next_seq c.unack_seq ≤ tx.len)
    (h16 : sub32 c.next_seq c.unack_seq < 65536) :
    ∃ (size : Nat) (b' : buf_t),
      tcp_write_to_buf cfg c buf
        = some ({ c with next_seq := (c.next_seq + size) % 4294967296 }, b', size)
      ∧ sub32 c.next_seq c.unack_seq + size ≤ tx.len := by
  have e1 : sub32 c.next_seq c.unack_seq % 65536 = sub32 c.next_seq c.unack_seq := by omega
  have hle := write_size_le tx.len (sub32 c.next_seq c.unack_seq) c.remote_win hs h16
  refine ⟨_, _, by simp only [tcp_write_to_buf, htx, e1]; rfl, by omega⟩

theorem tcp_send_connect (cfg : NetCfg) (buf : buf_t) (c : tcp_connect_t) (flags : tcp_flags_t) :
    (tcp_send cfg buf c flags).2.1
      = if flags.syn || flags.fin then { c with next_seq := (c.next_seq + 1) % 4294967296 }
        else c := by
  simp only [tcp_send]

/-- C13, as amended. For a connection whose count of sent bytes `next_seq − unack_seq` is at
most `tx_buf.len` (and fits the 16-bit `sent` of `tcp_write_to_buf`): `tcp_connect_write` and
`tcp_connect_read` return and leave the count at most `tx_buf.len`; `tcp_connect_close` on an
ESTABLISHED connection returns and leaves it at most `tx_buf.len + 1`, the FIN taking one
sequence number. -/
theorem tcp_sent_within_tx_buf (cfg : NetCfg) (c : tcp_connect_t) (tx : buf_t)
    (htx : c.tx_buf = some tx) (hinv : sub32 c.next_seq c.unack_seq ≤ tx.len)
    (h16 : sub32 c.next_seq c.unack_seq < 65536) :
    (∀ (txbuf : buf_t) (data : List Nat) (len : Nat),
      ∃ (c' : tcp_connect_t) (b' : buf_t) (calls : List ip_call) (n : Nat) (tx' : buf_t),
        tcp_connect_write cfg c txbuf data len = some (c', b', calls, n)
        ∧ c'.tx_buf = some tx' ∧ sub32 c'.next_seq c'.unack_seq ≤ tx'.len)
    ∧ (∀ (cap : Nat) (rx : buf_t), c.rx_buf = some rx →
      ∃ (c' : tcp_connect_t) (out : List Nat) (n : Nat),
        tcp_connect_read c cap = some (c', out, n)
        ∧ c'.tx_buf = some tx ∧ sub32 c'.next_seq c'.unack_seq ≤ tx.len)
    ∧ (∀ (env : tcp_env) (k : tcp_key_t), map_get env.connect_table k = some c →
        c.state = TCP_ESTABLISHED →
      ∃ (env' : tcp_env) (calls : List ip_call) (c' : tcp_connect_t),
        tcp_connect_close cfg env k = some (env', calls)
        ∧ map_get env'.connect_table k = some c'
        ∧ c'.tx_buf = some tx ∧ sub32 c'.next_seq c'.unack_seq ≤ tx.len + 1) := by
  refine ⟨?_, ?_, ?_⟩
  · intro txbuf data len
    by_cases hg : c.remote_win
        ≤ (sub32 c.next_seq c.unack_seq + len) % 18446744073709551616
    · exact ⟨c, txbuf, [], 0, tx, by simp only [tcp_connect_write, htx, hg, if_true], htx, hinv⟩
    · by_cases hfit : cfg.BUF_MAX_LEN
          < tx.data + tx.len + min32 (sub32 cfg.BUF_MAX_LEN (tx.data + tx.len)) len
      · obtain ⟨size, b', hw, hle⟩ := tcp_write_to_buf_within cfg
          { c with tx_buf := some ⟨tx.len, 0, memWrite tx.payload 0 (memRead tx.payload tx.data tx.len)⟩ }
          txbuf ⟨tx.len, 0, memWrite tx.payload 0 (memRead tx.payload tx.data tx.len)⟩
          rfl hinv h16
        dsimp only at hw hle
        have hsub := sub32_add c.next_seq c.unack_seq size
        have hneg : ¬ ((-1 : Int) = 0) := by decide
        by_cases hn : size = 0
        · have hres : tcp_connect_write cfg c txbuf data len
              = some ({ c with
                  tx_buf := some ⟨tx.len, 0,
                    memWrite tx.payload 0 (memRead tx.payload tx.data tx.len)⟩,
                  next_seq := (c.next_seq + size) % 4294967296 }, b', [], 0) := by
            simp only [tcp_connect_write, htx, hg, if_false, buf_add_padding, hfit, if_true,
              ne_eq, hneg, not_false_eq_true, hw, hn, not_true_eq_false]
          refine ⟨_, _, _, _, _, hres, rfl, ?_⟩
          dsimp only
          rw [hsub]
          omega
        · have hres : tcp_connect_write cfg c txbuf data len
              = some ((tcp_send cfg b' { c with
                    tx_buf := some ⟨tx.len, 0,
                      memWrite tx.payload 0 (memRead tx.payload tx.data tx.len)⟩,
                    next_seq := (c.next_seq + size) % 4294967296 } tcp_flags_ack).2.1,
                  (tcp_send cfg b' { c with
                    tx_buf := some ⟨tx.len, 0,
                      memWrite tx.payload 0 (memRead tx.payload tx.data tx.len)⟩,
                    next_seq := (c.next_seq + size) % 4294967296 } tcp_flags_ack).1,
                  [(tcp_send cfg b' { c with
                    tx_buf := some ⟨tx.len, 0,
                      memWrite tx.payload 0 (memRead tx.payload tx.data tx.len)⟩,
                    next_seq := (c.next_seq + size) % 4294967296 } tcp_flags_ack).2.2], 0) := by
            simp only [tcp_connect_write, htx, hg, if_false, buf_add_padding, hfit, if_true,
              ne_eq, hneg, not_false_eq_true, hw, hn]
          have hflags : (tcp_flags_ack.syn || tcp_flags_ack.fin) = false := rfl
          refine ⟨_, _, _, _,
            ⟨tx.len, 0, memWrite tx.payload 0 (memRead tx.payload tx.data tx.len)⟩,
            hres, ?_, ?_⟩
          · rw [tcp_send_connect, hflags]
            rfl
          · rw [tcp_send_connect, hflags]
            dsimp only
            rw [if_neg (by decide), hsub]
            omega
      · have hres : tcp_connect_write cfg c txbuf data len
            = some ({ c with
                tx_buf := some ⟨tx.len + min32 (sub32 cfg.BUF_MAX_LEN (tx.data + tx.len)) len,
                  tx.data, memWrite tx.payload (tx.data + tx.len)
                    (data.take (min32 (sub32 cfg.BUF_MAX_LEN (tx.data + tx.len)) len))⟩ },
                txbuf, [], min32 (sub32 cfg.BUF_MAX_LEN (tx.data + tx.len)) len) := by
          simp only [tcp_connect_write, htx, hg, if_false, buf_add_padding, hfit, ne_eq,
            not_true_eq_false]
        refine ⟨_, _, _, _, _, hres, rfl, ?_⟩
        dsimp only
        omega
  · intro cap rx hrx
    have hres : tcp_connect_read c cap
        = some ({ c with rx_buf := some (if (buf_remove_header rx (min32 rx.len cap)).2 ≠ 0
              then ⟨(buf_remove_header rx (min32 rx.len cap)).1.len, 0,
                memWrite (buf_remove_header rx (min32 rx.len cap)).1.payload 0
                  (memRead (buf_remove_header rx (min32 rx.len cap)).1.payload
                    (buf_remove_header rx (min32 rx.len cap)).1.data
                    (buf_remove_header rx (min32 rx.len cap)).1.len)⟩
              else (buf_remove_header rx (min32 rx.len cap)).1) },
            memRead rx.payload rx.data (min32 rx.len cap), min32 rx.len cap) := by
      simp only [tcp_connect_read, hrx]
    exact ⟨_, _, _, hres, htx, hinv⟩
  · intro env k hk hst
    obtain ⟨size, b', hw, hle⟩ := tcp_write_to_buf_within cfg c env.txbuf tx htx hinv h16
    have hres : tcp_connect_close cfg env k
        = some ({ env with
            connect_table := map_set env.connect_table k
              { (tcp_send cfg b' { c with next_seq := (c.next_seq + size) % 4294967296 }
                  tcp_flags_ack_fin).2.1 with state := TCP_FIN_WAIT_1 },
            txbuf := (tcp_send cfg b' { c with next_seq := (c.next_seq + size) % 4294967296 }
                  tcp_flags_ack_fin).1 },
          [(tcp_send cfg b' { c with next_seq := (c.next_seq + size) % 4294967296 }
                  tcp_flags_ack_fin).2.2]) := by
      simp only [tcp_connect_close, hk, hst, if_true, hw]
    have hflags : (tcp_flags_ack_fin.syn || tcp_flags_ack_fin.fin) = true := rfl
    refine ⟨_, _, _, hres, map_get_set_self _ _ _ _ hk, ?_, ?_⟩
    · dsimp only
      rw [tcp_send_connect, hflags]
      exact htx
    · dsimp only
      rw [tcp_send_connect, hflags]
      dsimp only
      rw [if_pos rfl]
      dsimp only
      rw [sub32_add ((c.next_seq + size) % 4294967296) c.unack_seq 1,
        sub32_add c.next_seq c.unack_seq size]
      omega

/-- C13 on the example connection (three buffered bytes, one of them sent): a write, a read
and a close. -/
theorem tcp_sent_within_tx_buf_witness :
    (∃ (c' : tcp_connect_t) (b' : buf_t) (calls : List ip_call) (n : Nat) (tx' : buf_t),
        tcp_connect_write exCfg exConn exScratch [5, 6, 7] 3 = some (c', b', calls, n)
        ∧ c'.tx_buf = some tx' ∧ sub32 c'.next_seq c'.unack_seq ≤ tx'.len)
      ∧ (∃ (c' : tcp_connect_t) (out : List Nat) (n : Nat),
        tcp_connect_read exConn 2 = some (c', out, n)
        ∧ c'.tx_buf = some ⟨3, 4, List.replicate 4 0 ++ [1, 2, 3] ++ List.replicate 9 0⟩
        ∧ sub32 c'.next_seq c'.unack_seq ≤ 3)
      ∧ (∃ (env' : tcp_env) (calls : List ip_call) (c' : tcp_connect_t),
        tcp_connect_close exCfg exEnv exKey = some (env', calls)
        ∧ map_get env'.connect_table exKey = some c'
        ∧ c'.tx_buf = some ⟨3, 4, List.replicate 4 0 ++ [1, 2, 3] ++ List.replicate 9 0⟩
        ∧ sub32 c'.next_seq c'.unack_seq ≤ 3 + 1) :=
  have h := tcp_sent_within_tx_buf exCfg exConn
    ⟨3, 4, List.replicate 4 0 ++ [1, 2, 3] ++ List.replicate 9 0⟩ rfl (by decide) (by decide)
  ⟨h.1 exScratch [5, 6, 7] 3, h.2.1 2 ⟨3, 1, [9, 1, 2, 3, 9]⟩ rfl, h.2.2 exEnv exKey rfl rfl⟩

/-- C13 as stated fails for `tcp_connect_close`: the example connection has
`next_seq − unack_seq = 1` and three bytes in `tx_buf`; after the close the count is 4
(two bytes selected and one sequence number for the FIN) while `tx_buf` still holds 3. -/
theorem tcp_connect_close_exceeds_tx_buf :
    sub32 exConn.next_seq exConn.unack_seq = 1
      ∧ exConn.tx_buf.map buf_t.len = some 3
      ∧ ((tcp_connect_close exCfg exEnv exKey).bind
            (fun r => map_get r.1.connect_table exKey)).map
          (fun c => (sub32 c.next_seq c.unack_seq, c.tx_buf.map buf_t.len))
        = some (4, some 3)
      ∧ ¬ (4 ≤ 3) := by
  decide

/-! ## Ethernet and ARP -/

theorem ether_hdr_image_length (dst src : mac_t) (p : Nat) :
    (ether_hdr_image dst src p).length = 14 := by
  simp [ether_hdr_image, mac_t.bytes, store16]

theorem arp_pkt_image_length (op : Nat) (sm : mac_t) (si : ip_t) (tm : mac_t) (ti : ip_t) :
    (arp_pkt_image op sm si tm ti).length = 28 := by
  simp [arp_pkt_image, mac_t.bytes, ip_t.bytes, store16]

/-- The frame `ethernet_out` hands to the driver: the 14-byte header image, then the old
contents of the buffer (and padding after them), when the buffer has room for the header. -/
theorem ethernet_out_frame (cfg : NetCfg) (eth : EthCfg) (buf : buf_t) (mac : mac_t)
    (protocol : Nat) (hroom : 14 ≤ buf.data) (hwf : buf.data + buf.len ≤ buf.payload.length) :
    (ethernet_out cfg eth buf mac protocol).bytes.take 14
        = ether_hdr_image mac eth.net_if_mac (swap16 protocol)
      ∧ ((ethernet_out cfg eth buf mac protocol).bytes.drop 14).take buf.len = buf.bytes := by
  obtain ⟨b1, hb1, hd, hp, hl⟩ : ∃ b1 : buf_t,
      (if buf.len < 46 then (buf_add_padding cfg buf (46 - buf.len)).1 else buf) = b1
      ∧ b1.data = buf.data ∧ b1.payload = buf.payload ∧ buf.len ≤ b1.len := by
    refine ⟨_, rfl, ?_, ?_, ?_⟩ <;>
    · unfold buf_add_padding
      split_ifs <;> simp
  have hah : buf_add_header b1 14 = (⟨b1.len + 14, b1.data - 14, b1.payload⟩, 0) := by
    simp [buf_add_header, show ¬ b1.data < 14 by omega]
  have himg := ether_hdr_image_length mac eth.net_if_mac (swap16 protocol)
  have hfr : ethernet_out cfg eth buf mac protocol
      = ⟨b1.len + 14, buf.data - 14,
          memWrite buf.payload (buf.data - 14)
            (ether_hdr_image mac eth.net_if_mac (swap16 protocol))⟩ := by
    simp only [ethernet_out, hb1, hah, hd, hp]
  rw [hfr]
  simp only [buf_t.bytes]
  constructor
  · rw [memRead_take, Nat.min_eq_left (by omega)]
    have := memRead_memWrite_same buf.payload (buf.data - 14)
      (ether_hdr_image mac eth.net_if_mac (swap16 protocol)) (by rw [himg]; omega)
    rw [himg] at this
    exact this
  · rw [memRead_drop, memRead_take, Nat.min_eq_left (by omega),
      memRead_memWrite_after _ _ _ _ _ (by rw [himg])]
    congr 1
    omega

/-- The frame built by `arp_req` or `arp_resp`: the Ethernet header, then the 28-byte ARP
record, when `txbuf` has room for them. -/
theorem arp_frame (cfg : NetCfg) (eth : EthCfg) (txbuf : buf_t) (dst : mac_t) (pkt : List Nat)
    (hpkt : pkt.length = 28) (hroom : 14 ≤ cfg.origin 28)
    (hfit : cfg.origin 28 + 28 ≤ txbuf.payload.length) :
    (ethernet_out cfg eth
        ⟨28, cfg.origin 28, memWrite txbuf.payload (cfg.origin 28) pkt⟩ dst
        NET_PROTOCOL_ARP).bytes.take 14
        = dst.bytes ++ eth.net_if_mac.bytes ++ [8, 6]
      ∧ ((ethernet_out cfg eth
        ⟨28, cfg.origin 28, memWrite txbuf.payload (cfg.origin 28) pkt⟩ dst
        NET_PROTOCOL_ARP).bytes.drop 14).take 28 = pkt := by
  obtain ⟨h1, h2⟩ := ethernet_out_frame cfg eth
    ⟨28, cfg.origin 28, memWrite txbuf.payload (cfg.origin 28) pkt⟩ dst NET_PROTOCOL_ARP
    hroom (by simp only [memWrite_length]; omega)
  refine ⟨by rw [h1]; rfl, ?_⟩
  rw [h2]
  simp only [buf_t.bytes]
  have := memRead_memWrite_same txbuf.payload (cfg.origin 28) pkt (by rw [hpkt]; omega)
  rw [hpkt] at this
  exact this

theorem map_get_timed_filter_ne {κ ν : Type} [DecidableEq κ] (timeout now : Nat)
    (m r : List (κ × ν × Nat)) (k : κ) :
    map_get_timed timeout now (m.filter (fun e => decide (e.1 ≠ k)) ++ r) k
      = map_get_timed timeout now r k := by
  induction m with
  | nil => rfl
  | cons e rest ih =>
    obtain ⟨k', v, ts⟩ := e
    by_cases h : k' = k
    · simpa [List.filter_cons, h] using ih
    · simpa [List.filter_cons, h, map_get_timed] using ih

/-- A key that has just been set is present until its TTL has elapsed. -/
theorem map_get_timed_set_self {κ ν : Type} [DecidableEq κ] (timeout now now' : Nat)
    (m : List (κ × ν × Nat)) (k : κ) (v : ν) (hlive : timeout = 0 ∨ now' < now + timeout) :
    map_get_timed timeout now' (map_set_timed m now k v) k = some v := by
  unfold map_set_timed
  rw [map_get_timed_filter_ne]
  simp only [map_get_timed, if_true, hlive]

/-- A deleted key is absent. -/
theorem map_get_timed_delete_self {κ ν : Type} [DecidableEq κ] (timeout now : Nat)
    (m : List (κ × ν × Nat)) (k : κ) :
    map_get_timed timeout now (map_delete m k) k = none := by
  have := map_get_timed_filter_ne timeout now m [] k
  rw [List.append_nil] at this
  exact this

/-- A key that is absent stays absent as the clock advances. -/
theorem map_get_timed_none_mono {κ ν : Type} [DecidableEq κ] (timeout now now' : Nat)
    (m : List (κ × ν × Nat)) (k : κ) (hle : now ≤ now')
    (h : map_get_timed timeout now m k = none) : map_get_timed timeout now' m k = none := by
  induction m with
  | nil => rfl
  | cons e rest ih =>
    obtain ⟨k', v, ts⟩ := e
    by_cases hk : k' = k
    · simp only [map_get_timed, hk, if_true] at h ⊢
      split_ifs at h with h1
      rw [if_neg (by omega)]
    · simp only [map_get_timed, hk, if_false] at h ⊢
      exact ih h

theorem rd16_eq_swap16_iff (buf : buf_t) (k c : Nat) (hk : k + 1 < buf.len) (hc : c < 65536)
    (hb : ∀ x ∈ buf.payload, x < 256) :
    rd16 buf.payload (buf.data + k) = swap16 c ↔ be16 buf.bytes k = c := by
  have r0 := rd8_eq_getD buf.payload buf.data buf.len k (by omega)
  have r1 := rd8_eq_getD buf.payload buf.data buf.len (k + 1) hk
  have b0 := rd8_lt buf.payload (buf.data + k) hb
  have b1 := rd8_lt buf.payload (buf.data + (k + 1)) hb
  rw [← buf_t.bytes] at r0 r1
  rw [r0] at b0
  rw [r1] at b1
  have hsw : swap16 c = (c % 256) * 256 + c / 256 := by
    unfold swap16
    omega
  unfold rd16 be16
  rw [show buf.data + k + 1 = buf.data + (k + 1) from rfl, r0, r1, hsw]
  constructor <;> intro h <;> omega

/-- The guards of Step 1 and Step 2 of `arp_in`, as the code evaluates them, hold exactly for
the frames that are valid on the wire. -/
theorem arp_valid_iff (buf : buf_t) (hb : ∀ x ∈ buf.payload, x < 256) :
    arp_valid buf ↔
      (¬ buf.len < 28 ∧ ¬ rd16 buf.payload buf.data ≠ swap16 ARP_HW_ETHER
        ∧ ¬ rd16 buf.payload (buf.data + 2) ≠ swap16 NET_PROTOCOL_IP
        ∧ ¬ rd8 buf.payload (buf.data + 4) ≠ 6 ∧ ¬ rd8 buf.payload (buf.data + 5) ≠ 4
        ∧ ¬ (rd16 buf.payload (buf.data + 6) ≠ swap16 ARP_REQUEST
            ∧ rd16 buf.payload (buf.data + 6) ≠ swap16 ARP_REPLY)) := by
  unfold arp_valid
  by_cases hlen : 28 ≤ buf.len
  · have e0 := rd16_eq_swap16_iff buf 0 ARP_HW_ETHER (by omega) (by decide) hb
    have e2 := rd16_eq_swap16_iff buf 2 NET_PROTOCOL_IP (by omega) (by decide) hb
    have e6 := rd16_eq_swap16_iff buf 6 ARP_REQUEST (by omega) (by decide) hb
    have e6' := rd16_eq_swap16_iff buf 6 ARP_REPLY (by omega) (by decide) hb
    have r4 := rd8_eq_getD buf.payload buf.data buf.len 4 (by omega)
    have r5 := rd8_eq_getD buf.payload buf.data buf.len 5 (by omega)
    rw [← buf_t.bytes] at r4 r5
    rw [Nat.add_zero] at e0
    rw [← e0, ← e2, ← e6, ← e6', ← r4, ← r5]
    constructor
    · rintro ⟨h1, h2, h3, h4, h5, h6⟩
      refine ⟨by omega, not_not.mpr h2, not_not.mpr h3, not_not.mpr h4, not_not.mpr h5, ?_⟩
      rintro ⟨n1, n2⟩
      rcases h6 with h | h
      · exact n1 h
      · exact n2 h
    · rintro ⟨h1, h2, h3, h4, h5, h6⟩
      refine ⟨hlen, not_not.mp h2, not_not.mp h3, not_not.mp h4, not_not.mp h5, ?_⟩
      by_cases hq : rd16 buf.payload (buf.data + 6) = swap16 ARP_REQUEST
      · exact Or.inl hq
      · exact Or.inr (not_not.mp (fun n2 => h6 ⟨hq, n2⟩))
  · exact ⟨fun h => absurd h.1 hlen, fun h => absurd (by omega) h.1⟩

/-- A frame that fails a check of `arp_in` changes nothing and sends nothing. -/
theorem arp_in_invalid (cfg : NetCfg) (eth : EthCfg) (env : arp_env) (buf : buf_t) (now : Nat)
    (hb : ∀ x ∈ buf.payload, x < 256) (hinv : ¬ arp_valid buf) :
    arp_in cfg eth env buf now = (env, []) := by
  rw [arp_valid_iff buf hb] at hinv
  unfold arp_in
  split_ifs with g1 g2 g3 g4 g5 g6 <;> first | rfl | exact absurd ⟨g1, g2, g3, g4, g5, g6⟩ hinv

/-- A valid frame passes the checks of `arp_in`: the sender is learned, then the pending
queue is consulted. -/
theorem arp_in_valid (cfg : NetCfg) (eth : EthCfg) (env : arp_env) (buf : buf_t) (now : Nat)
    (hb : ∀ x ∈ buf.payload, x < 256) (hv : arp_valid buf) :
    arp_in cfg eth env buf now =
      match map_get_timed eth.ARP_MIN_INTERVAL now env.arp_buf (arp_sender_ip buf) with
      | some buf2 =>
        ({ env with
            arp_table := map_set_timed env.arp_table now (arp_sender_ip buf) (arp_sender_mac buf),
            arp_buf := map_delete env.arp_buf (arp_sender_ip buf) },
          [ethernet_out cfg eth buf2 (arp_sender_mac buf) NET_PROTOCOL_IP])
      | none =>
        if be16 buf.bytes 6 = ARP_REQUEST ∧ arp_target_ip buf = cfg.net_if_ip then
          ({ env with
              arp_table := map_set_timed env.arp_table now (arp_sender_ip buf)
                (arp_sender_mac buf),
              txbuf := arp_resp cfg eth env.txbuf (arp_sender_ip buf) (arp_sender_mac buf) },
            [arp_resp cfg eth env.txbuf (arp_sender_ip buf) (arp_sender_mac buf)])
        else
          ({ env with
              arp_table := map_set_timed env.arp_table now (arp_sender_ip buf)
                (arp_sender_mac buf) }, []) := by
  have e6 := rd16_eq_swap16_iff buf 6 ARP_REQUEST (by have := hv.1; omega) (by decide) hb
  obtain ⟨g1, g2, g3, g4, g5, g6⟩ := (arp_valid_iff buf hb).mp hv
  simp only [arp_in, g1, g2, g3, g4, g5, g6, if_false, e6]

theorem arp_in_pending (cfg : NetCfg) (eth : EthCfg) (env : arp_env) (buf : buf_t) (now : Nat)
    (hb : ∀ x ∈ buf.payload, x < 256) (hv : arp_valid buf) (f : buf_t)
    (hp : map_get_timed eth.ARP_MIN_INTERVAL now env.arp_buf (arp_sender_ip buf) = some f) :
    arp_in cfg eth env buf now
      = (⟨map_set_timed env.arp_table now (arp_sender_ip buf) (arp_sender_mac buf),
          map_delete env.arp_buf (arp_sender_ip buf), env.txbuf⟩,
        [ethernet_out cfg eth f (arp_sender_mac buf) NET_PROTOCOL_IP]) := by
  rw [arp_in_valid cfg eth env buf now hb hv, hp]

theorem arp_in_no_pending (cfg : NetCfg) (eth : EthCfg) (env : arp_env) (buf : buf_t)
    (now : Nat) (hb : ∀ x ∈ buf.payload, x < 256) (hv : arp_valid buf)
    (hp : map_get_timed eth.ARP_MIN_INTERVAL now env.arp_buf (arp_sender_ip buf) = none) :
    arp_in cfg eth env buf now
      = if be16 buf.bytes 6 = ARP_REQUEST ∧ arp_target_ip buf = cfg.net_if_ip then
          (⟨map_set_timed env.arp_table now (arp_sender_ip buf) (arp_sender_mac buf),
              env.arp_buf, arp_resp cfg eth env.txbuf (arp_sender_ip buf) (arp_sender_mac buf)⟩,
            [arp_resp cfg eth env.txbuf (arp_sender_ip buf) (arp_sender_mac buf)])
        else
          (⟨map_set_timed env.arp_table now (arp_sender_ip buf) (arp_sender_mac buf),
              env.arp_buf, env.txbuf⟩, []) := by
  rw [arp_in_valid cfg eth env buf now hb hv, hp]

/-- Whatever branch a valid frame takes, the ARP table afterwards is the old one with the
sender set at the time of the call. -/
theorem arp_in_table (cfg : NetCfg) (eth : EthCfg) (env : arp_env) (buf : buf_t) (now : Nat)
    (hb : ∀ x ∈ buf.payload, x < 256) (hv : arp_valid buf) :
    (arp_in cfg eth env buf now).1.arp_table
      = map_set_timed env.arp_table now (arp_sender_ip buf) (arp_sender_mac buf) := by
  cases hp : map_get_timed eth.ARP_MIN_INTERVAL now env.arp_buf (arp_sender_ip buf) with
  | some f => rw [arp_in_pending cfg eth env buf now hb hv f hp]
  | none =>
    rw [arp_in_no_pending cfg eth env buf now hb hv hp]
    split_ifs <;> rfl

/-- The reply built by `arp_resp`, byte by byte. -/
theorem arp_resp_frame (cfg : NetCfg) (eth : EthCfg) (txbuf : buf_t) (ip : ip_t) (mac : mac_t)
    (hroom : 14 ≤ cfg.origin 28) (hfit : cfg.origin 28 + 28 ≤ txbuf.payload.length) :
    (arp_resp cfg eth txbuf ip mac).bytes.take 14 = mac.bytes ++ eth.net_if_mac.bytes ++ [8, 6]
      ∧ ((arp_resp cfg eth txbuf ip mac).bytes.drop 14).take 28
        = [0, 1, 8, 0, 6, 4, 0, 2] ++ eth.net_if_mac.bytes ++ cfg.net_if_ip.bytes
            ++ mac.bytes ++ ip.bytes := by
  have h := arp_frame cfg eth txbuf mac
    (arp_pkt_image (swap16 ARP_REPLY) eth.net_if_mac cfg.net_if_ip mac ip)
    (arp_pkt_image_length _ _ _ _ _) hroom hfit
  exact ⟨h.1, h.2.trans rfl⟩

/-- The request built by `arp_req`, byte by byte. -/
theorem arp_req_frame (cfg : NetCfg) (eth : EthCfg) (txbuf : buf_t) (ip : ip_t)
    (hroom : 14 ≤ cfg.origin 28) (hfit : cfg.origin 28 + 28 ≤ txbuf.payload.length) :
    (arp_req cfg eth txbuf ip).bytes.take 14
        = [255, 255, 255, 255, 255, 255] ++ eth.net_if_mac.bytes ++ [8, 6]
      ∧ ((arp_req cfg eth txbuf ip).bytes.drop 14).take 28
        = [0, 1, 8, 0, 6, 4, 0, 1] ++ eth.net_if_mac.bytes ++ cfg.net_if_ip.bytes
            ++ [0, 0, 0, 0, 0, 0] ++ ip.bytes := by
  have h := arp_frame cfg eth txbuf ether_broadcast_mac
    (arp_pkt_image (swap16 ARP_REQUEST) eth.net_if_mac cfg.net_if_ip ⟨0, 0, 0, 0, 0, 0⟩ ip)
    (arp_pkt_image_length _ _ _ _ _) hroom hfit
  exact ⟨h.1, h.2.trans rfl⟩

/-! ## ARP: resolution, pending queue and replies -/

/-- C14. After `arp_in` has processed a valid ARP frame with sender IP `X` and sender MAC
`M`, a call `arp_out(f, X)` made before the learned entry expires hands exactly one frame to
the driver: destination `M`, source the local MAC, EtherType IPv4, carrying `f`.  The state
is left as it was, so nothing is added to the pending queue and no ARP request is built. -/
theorem arp_out_after_learning (cfg : NetCfg) (eth : EthCfg) (env : arp_env) (buf f : buf_t)
    (now now' : Nat) (hb : ∀ x ∈ buf.payload, x < 256) (hv : arp_valid buf)
    (hlive : eth.ARP_TIMEOUT_SEC = 0 ∨ now' < now + eth.ARP_TIMEOUT_SEC)
    (hroom : 14 ≤ f.data) (hwf : f.data + f.len ≤ f.payload.length) :
    ∃ fr : buf_t,
      arp_out cfg eth (arp_in cfg eth env buf now).1 f (arp_sender_ip buf) now'
        = ((arp_in cfg eth env buf now).1, [fr])
      ∧ fr.bytes.take 14 = (arp_sender_mac buf).bytes ++ eth.net_if_mac.bytes ++ [8, 0]
      ∧ (fr.bytes.drop 14).take f.len = f.bytes := by
  have hget : map_get_timed eth.ARP_TIMEOUT_SEC now' (arp_in cfg eth env buf now).1.arp_table
      (arp_sender_ip buf) = some (arp_sender_mac buf) := by
    rw [arp_in_table cfg eth env buf now hb hv]
    exact map_get_timed_set_self _ _ _ _ _ _ hlive
  obtain ⟨h1, h2⟩ := ethernet_out_frame cfg eth f (arp_sender_mac buf) NET_PROTOCOL_IP hroom hwf
  refine ⟨ethernet_out cfg eth f (arp_sender_mac buf) NET_PROTOCOL_IP, ?_, ?_, h2⟩
  · simp only [arp_out, hget]
  · rw [h1]
    rfl

/-- The first `arp_out` for an unresolved destination queues the frame and sends a request;
every later call within the lifetime of the queue entry does nothing. -/
theorem arp_out_seq_quiet (cfg : NetCfg) (eth : EthCfg) (ip : ip_t) (env : arp_env)
    (f1 : buf_t) (t1 : Nat)
    (htab : ∀ t, t1 ≤ t → map_get_timed eth.ARP_TIMEOUT_SEC t env.arp_table ip = none)
    (hq : ∀ t, eth.ARP_MIN_INTERVAL = 0 ∨ t < t1 + eth.ARP_MIN_INTERVAL →
      map_get_timed eth.ARP_MIN_INTERVAL t env.arp_buf ip = some f1) :
    ∀ rest : List (buf_t × Nat),
      (∀ c ∈ rest, t1 ≤ c.2 ∧ (eth.ARP_MIN_INTERVAL = 0 ∨ c.2 < t1 + eth.ARP_MIN_INTERVAL)) →
      arp_out_seq cfg eth ip env rest = (env, []) := by
  intro rest
  induction rest with
  | nil => intro _; rfl
  | cons c rest ih =>
    intro h
    obtain ⟨f, t⟩ := c
    have hc := h (f, t) (List.mem_cons_self _ _)
    have hstep : arp_out cfg eth env f ip t = (env, []) := by
      simp only [arp_out, htab t hc.1, hq t hc.2]
    simp only [arp_out_seq, hstep]
    rw [ih (fun c hm => h c (List.mem_cons_of_mem _ hm))]
    rfl

/-- C15. For a destination `X` that is absent from the ARP table and from the pending queue,
`n ≥ 1` consecutive calls `arp_out(f_1, X)`, …, `arp_out(f_n, X)`, all within the lifetime
of the queue entry made by the first, hand exactly one frame to the driver: the broadcast
ARP request for `X` with the local MAC and IP as sender.  No IP frame is sent, the ARP table
is unchanged, and the pending queue holds a copy of `f_1` for `X`. -/
theorem arp_out_single_request (cfg : NetCfg) (eth : EthCfg) (env : arp_env) (X : ip_t)
    (f1 : buf_t) (t1 : Nat) (rest : List (buf_t × Nat))
    (htab : map_get_timed eth.ARP_TIMEOUT_SEC t1 env.arp_table X = none)
    (hq : map_get_timed eth.ARP_MIN_INTERVAL t1 env.arp_buf X = none)
    (hrest : ∀ c ∈ rest,
      t1 ≤ c.2 ∧ (eth.ARP_MIN_INTERVAL = 0 ∨ c.2 < t1 + eth.ARP_MIN_INTERVAL))
    (hroom : 14 ≤ cfg.origin 28) (hfit : cfg.origin 28 + 28 ≤ env.txbuf.payload.length) :
    ∃ req : buf_t,
      (arp_out_seq cfg eth X env ((f1, t1) :: rest)).2 = [req]
      ∧ req.bytes.take 14 = [255, 255, 255, 255, 255, 255] ++ eth.net_if_mac.bytes ++ [8, 6]
      ∧ (req.bytes.drop 14).take 28
          = [0, 1, 8, 0, 6, 4, 0, 1] ++ eth.net_if_mac.bytes ++ cfg.net_if_ip.bytes
              ++ [0, 0, 0, 0, 0, 0] ++ X.bytes
      ∧ (arp_out_seq cfg eth X env ((f1, t1) :: rest)).1.arp_table = env.arp_table
      ∧ ∀ t, eth.ARP_MIN_INTERVAL = 0 ∨ t < t1 + eth.ARP_MIN_INTERVAL →
          map_get_timed eth.ARP_MIN_INTERVAL t
            (arp_out_seq cfg eth X env ((f1, t1) :: rest)).1.arp_buf X = some f1 := by
  have hfirst : arp_out cfg eth env f1 X t1
      = (⟨env.arp_table, map_set_timed env.arp_buf t1 X f1, arp_req cfg eth env.txbuf X⟩,
          [arp_req cfg eth env.txbuf X]) := by
    simp only [arp_out, htab, hq, buf_copy]
  have hquiet := arp_out_seq_quiet cfg eth X
    ⟨env.arp_table, map_set_timed env.arp_buf t1 X f1, arp_req cfg eth env.txbuf X⟩ f1 t1
    (fun t ht => map_get_timed_none_mono _ _ _ _ _ ht htab)
    (fun t ht => map_get_timed_set_self _ _ _ _ _ _ ht) rest hrest
  have hseq : arp_out_seq cfg eth X env ((f1, t1) :: rest)
      = (⟨env.arp_table, map_set_timed env.arp_buf t1 X f1, arp_req cfg eth env.txbuf X⟩,
          [arp_req cfg eth env.txbuf X]) := by
    simp only [arp_out_seq, hfirst, hquiet, List.append_nil]
  obtain ⟨h1, h2⟩ := arp_req_frame cfg eth env.txbuf X hroom hfit
  rw [hseq]
  exact ⟨_, rfl, h1, h2, rfl, fun t ht => map_get_timed_set_self _ _ _ _ _ _ ht⟩

/-- C16. A valid ARP frame (request or reply) whose sender IP `X` has a live pending-queue
entry holding `f` makes `arp_in` hand exactly one frame to the driver: destination the
frame's sender MAC, EtherType IPv4, carrying `f`; no ARP reply is sent and the entry for `X`
is gone.  A second, identical ARP frame sends at most an ARP reply, never `f` again. -/
theorem arp_in_flushes_pending (cfg : NetCfg) (eth : EthCfg) (env : arp_env) (buf f : buf_t)
    (now : Nat) (hb : ∀ x ∈ buf.payload, x < 256) (hv : arp_valid buf)
    (hp : map_get_timed eth.ARP_MIN_INTERVAL now env.arp_buf (arp_sender_ip buf) = some f)
    (hroom : 14 ≤ f.data) (hwf : f.data + f.len ≤ f.payload.length)
    (htx : 14 ≤ cfg.origin 28) (hfit : cfg.origin 28 + 28 ≤ env.txbuf.payload.length) :
    ∃ fr : buf_t,
      (arp_in cfg eth env buf now).2 = [fr]
      ∧ fr.bytes.take 14 = (arp_sender_mac buf).bytes ++ eth.net_if_mac.bytes ++ [8, 0]
      ∧ (fr.bytes.drop 14).take f.len = f.bytes
      ∧ (∀ t, map_get_timed eth.ARP_MIN_INTERVAL t (arp_in cfg eth env buf now).1.arp_buf
          (arp_sender_ip buf) = none)
      ∧ ∀ now2,
          (arp_in cfg eth (arp_in cfg eth env buf now).1 buf now2).2 = []
          ∨ ∃ r : buf_t, (arp_in cfg eth (arp_in cfg eth env buf now).1 buf now2).2 = [r]
              ∧ r.bytes.take 14
                = (arp_sender_mac buf).bytes ++ eth.net_if_mac.bytes ++ [8, 6] := by
  obtain ⟨h1, h2⟩ := ethernet_out_frame cfg eth f (arp_sender_mac buf) NET_PROTOCOL_IP hroom hwf
  rw [arp_in_pending cfg eth env buf now hb hv f hp]
  refine ⟨_, rfl, by rw [h1]; rfl, h2, fun t => map_get_timed_delete_self _ _ _ _, ?_⟩
  intro now2
  rw [arp_in_no_pending cfg eth _ buf now2 hb hv (map_get_timed_delete_self _ _ _ _)]
  split_ifs
  · exact Or.inr ⟨_, rfl, (arp_resp_frame cfg eth env.txbuf _ _ htx hfit).1⟩
  · exact Or.inl rfl

/-- C17. For a valid ARP frame whose sender has no pending-queue entry: if the opcode is
request and the target IP is the local one, `arp_in` hands exactly one frame to the driver,
an ARP frame sent to the sender's MAC with opcode reply, the local MAC and IP as sender and
the request's sender MAC and IP as target; in every other case it hands over nothing. -/
theorem arp_in_replies (cfg : NetCfg) (eth : EthCfg) (env : arp_env) (buf : buf_t) (now : Nat)
    (hb : ∀ x ∈ buf.payload, x < 256) (hv : arp_valid buf)
    (hp : map_get_timed eth.ARP_MIN_INTERVAL now env.arp_buf (arp_sender_ip buf) = none)
    (htx : 14 ≤ cfg.origin 28) (hfit : cfg.origin 28 + 28 ≤ env.txbuf.payload.length) :
    (be16 buf.bytes 6 = ARP_REQUEST ∧ arp_target_ip buf = cfg.net_if_ip →
      ∃ fr : buf_t,
        (arp_in cfg eth env buf now).2 = [fr]
        ∧ fr.bytes.take 14 = (arp_sender_mac buf).bytes ++ eth.net_if_mac.bytes ++ [8, 6]
        ∧ (fr.bytes.drop 14).take 28
            = [0, 1, 8, 0, 6, 4, 0, 2] ++ eth.net_if_mac.bytes ++ cfg.net_if_ip.bytes
                ++ (arp_sender_mac buf).bytes ++ (arp_sender_ip buf).bytes)
    ∧ (¬ (be16 buf.bytes 6 = ARP_REQUEST ∧ arp_target_ip buf = cfg.net_if_ip) →
      (arp_in cfg eth env buf now).2 = []) := by
  rw [arp_in_no_pending cfg eth env buf now hb hv hp]
  obtain ⟨h1, h2⟩ := arp_resp_frame cfg eth env.txbuf (arp_sender_ip buf) (arp_sender_mac buf)
    htx hfit
  constructor
  · intro hc
    rw [if_pos hc]
    exact ⟨_, rfl, h1, h2⟩
  · intro hc
    rw [if_neg hc]

/-- C18. A frame that is shorter than the 28-byte ARP record, or whose hardware type is not
Ethernet, protocol type not IPv4, hardware length not 6, protocol length not 4, or opcode
neither request nor reply, leaves the ARP table and the pending queue unchanged and sends
nothing.  A frame that passes all these checks leaves the mapping from its sender IP to its
sender MAC in the ARP table, whatever its opcode and target IP, until the TTL elapses. -/
theorem arp_in_checks_then_learns (cfg : NetCfg) (eth : EthCfg) (env : arp_env) (buf : buf_t)
    (now : Nat) (hb : ∀ x ∈ buf.payload, x < 256) :
    ((buf.len < 28 ∨ be16 buf.bytes 0 ≠ ARP_HW_ETHER ∨ be16 buf.bytes 2 ≠ NET_PROTOCOL_IP
        ∨ buf.bytes.getD 4 0 ≠ 6 ∨ buf.bytes.getD 5 0 ≠ 4
        ∨ (be16 buf.bytes 6 ≠ ARP_REQUEST ∧ be16 buf.bytes 6 ≠ ARP_REPLY)) →
      arp_in cfg eth env buf now = (env, []))
    ∧ ((28 ≤ buf.len ∧ be16 buf.bytes 0 = ARP_HW_ETHER ∧ be16 buf.bytes 2 = NET_PROTOCOL_IP
        ∧ buf.bytes.getD 4 0 = 6 ∧ buf.bytes.getD 5 0 = 4
        ∧ (be16 buf.bytes 6 = ARP_REQUEST ∨ be16 buf.bytes 6 = ARP_REPLY)) →
      ∀ now', eth.ARP_TIMEOUT_SEC = 0 ∨ now' < now + eth.ARP_TIMEOUT_SEC →
        map_get_timed eth.ARP_TIMEOUT_SEC now' (arp_in cfg eth env buf now).1.arp_table
          (arp_sender_ip buf) = some (arp_sender_mac buf)) := by
  constructor
  · intro h
    apply arp_in_invalid cfg eth env buf now hb
    rintro ⟨v1, v2, v3, v4, v5, v6⟩
    rcases h with h | h | h | h | h | h
    · omega
    · exact h v2
    · exact h v3
    · exact h v4
    · exact h v5
    · rcases v6 with v | v
      · exact h.1 v
      · exact h.2 v
  · intro hv now' hlive
    rw [arp_in_table cfg eth env buf now hb hv]
    exact map_get_timed_set_self _ _ _ _ _ _ hlive

/-! ## Instances of the ARP theorems -/

theorem exScratch_fits : exCfg.origin 28 + 28 ≤ exScratch.payload.length := by
  rw [show exScratch.payload = List.replicate 256 0 from rfl, List.length_replicate]
  decide

/-- C14 on a reply from `aa:bb:cc:dd:ee:ff` at time 100 and a send at time 150. -/
theorem arp_out_after_learning_witness :
    (∀ x ∈ exArpReply.payload, x < 256) ∧ arp_valid exArpReply
      ∧ (exEth.ARP_TIMEOUT_SEC = 0 ∨ 150 < 100 + exEth.ARP_TIMEOUT_SEC)
      ∧ 14 ≤ exOutFrame.data ∧ exOutFrame.data + exOutFrame.len ≤ exOutFrame.payload.length
      ∧ ∃ fr : buf_t,
          arp_out exCfg exEth (arp_in exCfg exEth exArpEnv exArpReply 100).1 exOutFrame
              (arp_sender_ip exArpReply) 150
            = ((arp_in exCfg exEth exArpEnv exArpReply 100).1, [fr])
          ∧ fr.bytes.take 14
              = (arp_sender_mac exArpReply).bytes ++ exEth.net_if_mac.bytes ++ [8, 0]
          ∧ (fr.bytes.drop 14).take exOutFrame.len = exOutFrame.bytes :=
  ⟨by decide, by decide, by decide, by decide, by decide,
    arp_out_after_learning exCfg exEth exArpEnv exArpReply exOutFrame 100 150
      (by decide) (by decide) (by decide) (by decide) (by decide)⟩

/-- C15 on two sends to the unresolved `exPeer` within the same second. -/
theorem arp_out_single_request_witness :
    map_get_timed exEth.ARP_TIMEOUT_SEC 100 exArpEnv.arp_table exPeer = none
      ∧ map_get_timed exEth.ARP_MIN_INTERVAL 100 exArpEnv.arp_buf exPeer = none
      ∧ (∀ c ∈ [(exOutFrame2, 100)],
          100 ≤ c.2 ∧ (exEth.ARP_MIN_INTERVAL = 0 ∨ c.2 < 100 + exEth.ARP_MIN_INTERVAL))
      ∧ 14 ≤ exCfg.origin 28 ∧ exCfg.origin 28 + 28 ≤ exArpEnv.txbuf.payload.length
      ∧ ∃ req : buf_t,
          (arp_out_seq exCfg exEth exPeer exArpEnv
              [(exOutFrame, 100), (exOutFrame2, 100)]).2 = [req]
          ∧ req.bytes.take 14
              = [255, 255, 255, 255, 255, 255] ++ exEth.net_if_mac.bytes ++ [8, 6]
          ∧ (req.bytes.drop 14).take 28
              = [0, 1, 8, 0, 6, 4, 0, 1] ++ exEth.net_if_mac.bytes ++ exCfg.net_if_ip.bytes
                  ++ [0, 0, 0, 0, 0, 0] ++ exPeer.bytes
          ∧ (arp_out_seq exCfg exEth exPeer exArpEnv
              [(exOutFrame, 100), (exOutFrame2, 100)]).1.arp_table = exArpEnv.arp_table
          ∧ ∀ t, exEth.ARP_MIN_INTERVAL = 0 ∨ t < 100 + exEth.ARP_MIN_INTERVAL →
              map_get_timed exEth.ARP_MIN_INTERVAL t
                (arp_out_seq exCfg exEth exPeer exArpEnv
                  [(exOutFrame, 100), (exOutFrame2, 100)]).1.arp_buf exPeer
                = some exOutFrame :=
  ⟨by decide, by decide, by decide, by decide, exScratch_fits,
    arp_out_single_request exCfg exEth exArpEnv exPeer exOutFrame 100 [(exOutFrame2, 100)]
      (by decide) (by decide) (by decide) (by decide) exScratch_fits⟩

/-- C16 on a reply from `exPeer` while `exOutFrame` is waiting for its address. -/
theorem arp_in_flushes_pending_witness :
    (∀ x ∈ exArpReply.payload, x < 256) ∧ arp_valid exArpReply
      ∧ map_get_timed exEth.ARP_MIN_INTERVAL 100 exArpEnvPending.arp_buf
          (arp_sender_ip exArpReply) = some exOutFrame
      ∧ 14 ≤ exOutFrame.data ∧ exOutFrame.data + exOutFrame.len ≤ exOutFrame.payload.length
      ∧ 14 ≤ exCfg.origin 28 ∧ exCfg.origin 28 + 28 ≤ exArpEnvPending.txbuf.payload.length
      ∧ ∃ fr : buf_t,
          (arp_in exCfg exEth exArpEnvPending exArpReply 100).2 = [fr]
          ∧ fr.bytes.take 14
              = (arp_sender_mac exArpReply).bytes ++ exEth.net_if_mac.bytes ++ [8, 0]
          ∧ (fr.bytes.drop 14).take exOutFrame.len = exOutFrame.bytes
          ∧ (∀ t, map_get_timed exEth.ARP_MIN_INTERVAL t
              (arp_in exCfg exEth exArpEnvPending exArpReply 100).1.arp_buf
              (arp_sender_ip exArpReply) = none)
          ∧ ∀ now2,
              (arp_in exCfg exEth (arp_in exCfg exEth exArpEnvPending exArpReply 100).1
                exArpReply now2).2 = []
              ∨ ∃ r : buf_t,
                  (arp_in exCfg exEth (arp_in exCfg exEth exArpEnvPending exArpReply 100).1
                    exArpReply now2).2 = [r]
                  ∧ r.bytes.take 14
                    = (arp_sender_mac exArpReply).bytes ++ exEth.net_if_mac.bytes ++ [8, 6] :=
  ⟨by decide, by decide, by decide, by decide, by decide, by decide, exScratch_fits,
    arp_in_flushes_pending exCfg exEth exArpEnvPending exArpReply exOutFrame 100
      (by decide) (by decide) (by decide) (by decide) (by decide) (by decide) exScratch_fits⟩

/-- C17 on a request from `exPeer` for the local address, nothing pending. -/
theorem arp_in_replies_witness :
    (∀ x ∈ exArpRequest.payload, x < 256) ∧ arp_valid exArpRequest
      ∧ map_get_timed exEth.ARP_MIN_INTERVAL 100 exArpEnv.arp_buf
          (arp_sender_ip exArpRequest) = none
      ∧ 14 ≤ exCfg.origin 28 ∧ exCfg.origin 28 + 28 ≤ exArpEnv.txbuf.payload.length
      ∧ ∃ fr : buf_t,
          (arp_in exCfg exEth exArpEnv exArpRequest 100).2 = [fr]
          ∧ fr.bytes.take 14
              = (arp_sender_mac exArpRequest).bytes ++ exEth.net_if_mac.bytes ++ [8, 6]
          ∧ (fr.bytes.drop 14).take 28
              = [0, 1, 8, 0, 6, 4, 0, 2] ++ exEth.net_if_mac.bytes ++ exCfg.net_if_ip.bytes
                  ++ (arp_sender_mac exArpRequest).bytes
                  ++ (arp_sender_ip exArpRequest).bytes :=
  ⟨by decide, by decide, by decide, by decide, exScratch_fits,
    (arp_in_replies exCfg exEth exArpEnv exArpRequest 100
      (by decide) (by decide) (by decide) (by decide) exScratch_fits).1
      ⟨by decide, by decide⟩⟩

/-- C18 on a reply from `exPeer`: the mapping is in the table until time 400; the same
frame cut to 27 bytes changes nothing. -/
theorem arp_in_checks_then_learns_witness :
    (∀ x ∈ exArpReply.payload, x < 256)
      ∧ map_get_timed exEth.ARP_TIMEOUT_SEC 399
          (arp_in exCfg exEth exArpEnv exArpReply 100).1.arp_table (arp_sender_ip exArpReply)
        = some (arp_sender_mac exArpReply)
      ∧ arp_in exCfg exEth exArpEnv ⟨27, 14, exArpReply.payload⟩ 100 = (exArpEnv, []) :=
  ⟨by decide,
    (arp_in_checks_then_learns exCfg exEth exArpEnv exArpReply 100 (by decide)).2
      (by decide) 399 (by decide),
    (arp_in_checks_then_learns exCfg exEth exArpEnv ⟨27, 14, exArpReply.payload⟩ 100
      (by decide)).1 (Or.inl (by decide))⟩

/-! ## IPv4 egress: number, lengths and offsets of the fragments -/

theorem getD_memRead_prefix (mem : List Nat) (d len n k : Nat) (hk : k < n) (hn : n ≤ len) :
    (memRead mem d len).getD k 0 = (memRead mem d n).getD k 0 := by
  rw [← rd8_eq_getD mem d len k (by omega), ← rd8_eq_getD mem d n k hk]

theorem be16_digits (h l : Nat) (hh : h < 256) (hl : l < 256) :
    256 * ((l * 256 + h) % 256) + (l * 256 + h) / 256 % 256 = 256 * h + l := by
  omega

theorem be16_swap16_bytes (x : Nat) :
    256 * (swap16 x % 256) + swap16 x / 256 % 256 = x % 65536 := by
  have hsw : swap16 x = (x % 65536 % 256) * 256 + x % 65536 / 256 := by
    unfold swap16
    omega
  rw [hsw, be16_digits _ _ (by omega) (Nat.mod_lt _ (by omega))]
  omega

/-- Length, total-length field and flags/fragment-offset field of an emitted fragment, the
two fields read in network byte order. -/
theorem ip_fragment_out_fields (cfg : NetCfg) (buf : buf_t) (ip : ip_t)
    (protocol id offset mf : Nat) (hroom : 20 ≤ buf.data)
    (hwf : buf.data + buf.len ≤ buf.payload.length) :
    (ip_fragment_out cfg buf ip protocol id offset mf).len = buf.len + 20
      ∧ be16 (ip_fragment_out cfg buf ip protocol id offset mf).bytes 2 = (buf.len + 20) % 65536
      ∧ be16 (ip_fragment_out cfg buf ip protocol id offset mf).bytes 6
          = ((if mf ≠ 0 then IP_MORE_FRAGMENT else 0) ||| (offset % 65536)) % 65536 := by
  obtain ⟨hd, hl⟩ := ip_fragment_out_data cfg buf ip protocol id offset mf hroom
  have hah : buf_add_header buf IP_HDR_LEN = (⟨buf.len + 20, buf.data - 20, buf.payload⟩, 0) := by
    simp [buf_add_header, IP_HDR_LEN, show ¬ buf.data < 20 by omega]
  have hhdr := ip_fragment_out_header cfg buf ip protocol id offset mf
    (by rw [hah]; simp only [IP_HDR_LEN]; omega)
  rw [hah] at hhdr
  simp only [IP_HDR_LEN] at hhdr
  generalize ((if mf ≠ 0 then IP_MORE_FRAGMENT else 0) ||| (offset % 65536)) = ff at hhdr ⊢
  generalize checksum16 (ip_hdr_image (swap16 (buf.len + 20)) (swap16 id) (swap16 ff) protocol 0
    cfg.net_if_ip ip) = ck at hhdr
  have hg : ∀ k, k < 20 →
      (ip_fragment_out cfg buf ip protocol id offset mf).bytes.getD k 0
        = (ip_hdr_image (swap16 (buf.len + 20)) (swap16 id) (swap16 ff) protocol ck
            cfg.net_if_ip ip).getD k 0 := by
    intro k hk
    rw [← hhdr]
    unfold buf_t.bytes
    exact getD_memRead_prefix _ _ _ _ _ hk (by rw [hl]; omega)
  refine ⟨hl, ?_, ?_⟩
  · unfold be16
    rw [hg 2 (by omega), hg 3 (by omega)]
    have := be16_swap16_bytes (buf.len + 20)
    simpa [ip_hdr_image, store16] using this
  · unfold be16
    rw [hg 6 (by omega), hg 7 (by omega)]
    have := be16_swap16_bytes ff
    simpa [ip_hdr_image, store16] using this

/-- The fragmenting loop: every fragment it emits is 1500 bytes long, carries 1500 in its
total-length field, and carries the MF bit together with 185 times its slice index in its
flags/fragment-offset field; the number of emitted fragments is the distance the index
moved. -/
theorem ip_out_loop_fields (cfg : NetCfg) (junk buf : buf_t) (ip : ip_t) (protocol id : Nat)
    (hroom : 20 ≤ cfg.origin 1480) (hcap : cfg.origin 1480 + 1480 ≤ cfg.BUF_MAX_LEN)
    (hjunk : junk.payload.length = cfg.BUF_MAX_LEN) :
    ∀ fuel i : Nat,
      i ≤ (ip_out_loop cfg junk buf ip protocol id fuel i).2
      ∧ (ip_out_loop cfg junk buf ip protocol id fuel i).1.map
            (fun f => (f.len, be16 f.bytes 2, be16 f.bytes 6))
          = (List.range ((ip_out_loop cfg junk buf ip protocol id fuel i).2 - i)).map
              (fun j => (1500, 1500, (8192 ||| ((i + j) * 185 % 65536)) % 65536)) := by
  intro fuel
  induction fuel with
  | zero =>
    intro i
    simp [ip_out_loop]
  | succ fuel ih =>
    intro i
    by_cases hc : (i + 1) * 1480 < buf.len
    · obtain ⟨h1, h2⟩ := ih (i + 1)
      have hstep : ip_out_loop cfg junk buf ip protocol id (fuel + 1) i
          = (ip_fragment_out cfg
                { buf_init cfg junk 1480 with
                  payload := memWrite (buf_init cfg junk 1480).payload (buf_init cfg junk 1480).data
                    (memRead buf.payload (buf.data + i * 1480) 1480) }
                ip protocol id (i * (1480 / 8)) 1
              :: (ip_out_loop cfg junk buf ip protocol id fuel (i + 1)).1,
             (ip_out_loop cfg junk buf ip protocol id fuel (i + 1)).2) := by
        simp only [ip_out_loop, IP_HDR_LEN, hc, if_true]
      rw [hstep]
      refine ⟨by simp only; omega, ?_⟩
      obtain ⟨f1, f2, f3⟩ := ip_fragment_out_fields cfg
        { buf_init cfg junk 1480 with
          payload := memWrite (buf_init cfg junk 1480).payload (buf_init cfg junk 1480).data
            (memRead buf.payload (buf.data + i * 1480) 1480) }
        ip protocol id (i * (1480 / 8)) 1
        (by simpa [buf_init] using hroom)
        (by simp only [buf_init, memWrite_length]; rw [hjunk]; exact hcap)
      have e : (ip_out_loop cfg junk buf ip protocol id fuel (i + 1)).2 - i
          = ((ip_out_loop cfg junk buf ip protocol id fuel (i + 1)).2 - (i + 1)) + 1 := by
        omega
      simp only [List.map_cons]
      rw [f1, f2, f3, h2, e, List.range_succ_eq_map, List.map_cons, List.map_map]
      simp only [buf_init, IP_MORE_FRAGMENT]
      refine congrArg₂ List.cons ?_ ?_
      · simp
      · refine List.map_congr_left ?_
        intro j _
        simp only [Function.comp, Nat.succ_eq_add_one]
        rw [show i + (j + 1) = i + 1 + j by omega]
    · have hstep : ip_out_loop cfg junk buf ip protocol id (fuel + 1) i = ([], i) := by
        simp only [ip_out_loop, IP_HDR_LEN, hc, if_false]
      rw [hstep]
      simp

/-- One `ip_out` call emits `max 1 ⌈len / 1480⌉` fragments; fragment `i` is 1500 bytes long
with MF set when it is not the last, and the last one carries the remaining bytes with MF
clear; the total-length field equals the frame length and the offset part of the
flags/fragment-offset field is `185 * i` (as a 16-bit value). -/
theorem ip_out_fields (cfg : NetCfg) (junk buf : buf_t) (ip : ip_t) (protocol id : Nat)
    (hroom : ∀ n, n ≤ 1480 → 20 ≤ cfg.origin n ∧ cfg.origin n + n ≤ cfg.BUF_MAX_LEN)
    (hjunk : junk.payload.length = cfg.BUF_MAX_LEN)
    (hbuf : buf.data + buf.len ≤ buf.payload.length) :
    (ip_out cfg junk buf ip protocol id).1.map
        (fun f => (f.len, be16 f.bytes 2, be16 f.bytes 6))
      = (List.range (max 1 ((buf.len + 1479) / 1480))).map (fun i =>
          if i + 1 < max 1 ((buf.len + 1479) / 1480)
          then (1500, 1500, (8192 ||| (i * 185 % 65536)) % 65536)
          else (20 + buf.len - 1480 * i, 20 + buf.len - 1480 * i, i * 185 % 65536)) := by
  obtain ⟨hr1, hr2⟩ := hroom 1480 (le_refl _)
  obtain ⟨h1, h2, h3, -⟩ :=
    ip_out_loop_payloads cfg junk buf ip protocol id hr1 hr2 hjunk hbuf buf.len 0
  obtain ⟨-, h5⟩ := ip_out_loop_fields cfg junk buf ip protocol id hr1 hr2 hjunk buf.len 0
  have hexit := h3 (by omega)
  simp only [ip_out, IP_HDR_LEN, List.map_append, List.map_cons, List.map_nil]
  rw [h5]
  generalize (ip_out_loop cfg junk buf ip protocol id buf.len 0) = r at h1 h2 hexit ⊢
  have hn : buf.len - r.2 * 1480 ≤ 1480 := by omega
  have hcount : max 1 ((buf.len + 1479) / 1480) = r.2 + 1 := by
    rcases h2 with h2 | h2
    · have : (buf.len + 1479) / 1480 ≤ 1 := by omega
      omega
    · have : (buf.len + 1479) / 1480 = r.2 + 1 := by omega
      omega
  obtain ⟨hn1, hn2⟩ := hroom _ hn
  obtain ⟨f1, f2, f3⟩ := ip_fragment_out_fields cfg
    { buf_init cfg junk (buf.len - r.2 * 1480) with
      payload := memWrite (buf_init cfg junk (buf.len - r.2 * 1480)).payload
        (buf_init cfg junk (buf.len - r.2 * 1480)).data
        (memRead buf.payload (buf.data + r.2 * 1480) (buf.len - r.2 * 1480)) }
    ip protocol id (r.2 * (1480 / 8)) 0
    (by simpa [buf_init] using hn1)
    (by simp only [buf_init, memWrite_length]; rw [hjunk]; exact hn2)
  rw [f1, f2, f3, hcount, List.range_succ, List.map_append, List.map_singleton]
  simp only [buf_init, Nat.sub_zero, Nat.zero_add]
  refine congrArg₂ (fun a b => a ++ b) ?_ ?_
  · refine List.map_congr_left ?_
    intro j hj
    rw [List.mem_range] at hj
    rw [if_pos (by omega)]
  · rw [if_neg (by omega)]
    have e1 : buf.len - r.2 * 1480 + 20 = 20 + buf.len - 1480 * r.2 := by omega
    have e2 : (20 + buf.len - 1480 * r.2) % 65536 = 20 + buf.len - 1480 * r.2 := by omega
    simp [e1, e2]

theorem mf_offset_field : ∀ i, i < 45 →
    (8192 ||| (i * 185 % 65536)) % 65536 = 8192 + i * 185 := by
  decide

/-- For a call during which `*buf` keeps its contents and a payload of at most 66600 bytes
(45 slices) that fits the frame buffer, the flags/fragment-offset field of fragment `i`,
read in network byte order, has `185 * i` in its 13 offset bits and, in its three flag
bits, exactly the More-Fragments bit when `i` is not the last fragment and no bit when it
is. -/
theorem ip_out_fragment_offsets (cfg : NetCfg) (junk buf : buf_t) (ip : ip_t)
    (protocol id : Nat)
    (hroom : ∀ n, n ≤ 1480 → 20 ≤ cfg.origin n ∧ cfg.origin n + n ≤ cfg.BUF_MAX_LEN)
    (hjunk : junk.payload.length = cfg.BUF_MAX_LEN)
    (hbuf : buf.data + buf.len ≤ buf.payload.length)
    (hlen : buf.len ≤ 66600) :
    (ip_out cfg junk buf ip protocol id).1.map
        (fun f => (be16 f.bytes 6 % 8192, be16 f.bytes 6 / 8192))
      = (List.range (ip_out cfg junk buf ip protocol id).1.length).map
          (fun i => (i * 185,
            if i + 1 < (ip_out cfg junk buf ip protocol id).1.length then 1 else 0)) := by
  have hf := ip_out_fields cfg junk buf ip protocol id hroom hjunk hbuf
  have hcount : (ip_out cfg junk buf ip protocol id).1.length
      = max 1 ((buf.len + 1479) / 1480) := by
    have := congrArg List.length hf
    simpa using this
  have hn : max 1 ((buf.len + 1479) / 1480) ≤ 45 := by
    have : (buf.len + 1479) / 1480 ≤ 45 := by omega
    omega
  have h := congrArg (List.map (fun t : Nat × Nat × Nat => (t.2.2 % 8192, t.2.2 / 8192))) hf
  rw [List.map_map, List.map_map] at h
  rw [hcount]
  refine Eq.trans h (List.map_congr_left ?_)
  intro i hi
  rw [List.mem_range] at hi
  by_cases hlast : i + 1 < max 1 ((buf.len + 1479) / 1480)
  · simp only [Function.comp, if_pos hlast]
    rw [mf_offset_field i (by omega)]
    have hlt : i * 185 < 8192 := by omega
    refine Prod.ext ?_ ?_
    · show (8192 + i * 185) % 8192 = i * 185
      omega
    · show (8192 + i * 185) / 8192 = 1
      omega
  · simp only [Function.comp, if_neg hlast]
    have hlt : i * 185 < 8192 := by omega
    refine Prod.ext ?_ ?_
    · show i * 185 % 65536 % 8192 = i * 185
      rw [Nat.mod_eq_of_lt (show i * 185 < 65536 by omega), Nat.mod_eq_of_lt hlt]
    · show i * 185 % 65536 / 8192 = 0
      rw [Nat.mod_eq_of_lt (show i * 185 < 65536 by omega), Nat.div_eq_of_lt hlt]

/-- For a call during which `*buf` keeps its contents and a payload that fits the frame
buffer, `ip_out` emits `n = max 1 ⌈len / 1480⌉` fragments; the total-length field is 1500
in every fragment but the last and `20 + len - 1480 * (n - 1)` in the last, and it is the
length of the emitted frame; the last value is at most 1500 and, for a non-empty payload,
more than the 20 header bytes. -/
theorem ip_out_fragment_count (cfg : NetCfg) (junk buf : buf_t) (ip : ip_t)
    (protocol id : Nat)
    (hroom : ∀ n, n ≤ 1480 → 20 ≤ cfg.origin n ∧ cfg.origin n + n ≤ cfg.BUF_MAX_LEN)
    (hjunk : junk.payload.length = cfg.BUF_MAX_LEN)
    (hbuf : buf.data + buf.len ≤ buf.payload.length) :
    ∃ n, n = max 1 ((buf.len + 1479) / 1480)
      ∧ (ip_out cfg junk buf ip protocol id).1.length = n
      ∧ (ip_out cfg junk buf ip protocol id).1.map (fun f => be16 f.bytes 2)
          = (List.range n).map
              (fun i => if i + 1 < n then 1500 else 20 + buf.len - 1480 * (n - 1))
      ∧ (ip_out cfg junk buf ip protocol id).1.map (fun f => f.len)
          = (ip_out cfg junk buf ip protocol id).1.map (fun f => be16 f.bytes 2)
      ∧ 20 + buf.len - 1480 * (n - 1) ≤ 1500
      ∧ (0 < buf.len → 20 < 20 + buf.len - 1480 * (n - 1)) := by
  have hf := ip_out_fields cfg junk buf ip protocol id hroom hjunk hbuf
  have hcount : (ip_out cfg junk buf ip protocol id).1.length
      = max 1 ((buf.len + 1479) / 1480) := by
    have := congrArg List.length hf
    simpa using this
  have h1 := congrArg (List.map (fun t : Nat × Nat × Nat => t.1)) hf
  have h2 := congrArg (List.map (fun t : Nat × Nat × Nat => t.2.1)) hf
  rw [List.map_map, List.map_map] at h1 h2
  have hfield : (ip_out cfg junk buf ip protocol id).1.map (fun f => be16 f.bytes 2)
      = (List.range (max 1 ((buf.len + 1479) / 1480))).map
          (fun i => if i + 1 < max 1 ((buf.len + 1479) / 1480) then 1500
            else 20 + buf.len - 1480 * (max 1 ((buf.len + 1479) / 1480) - 1)) := by
    refine Eq.trans h2 (List.map_congr_left ?_)
    intro i hi
    rw [List.mem_range] at hi
    by_cases hlast : i + 1 < max 1 ((buf.len + 1479) / 1480)
    · simp only [Function.comp, if_pos hlast]
    · simp only [Function.comp, if_neg hlast]
      rw [show max 1 ((buf.len + 1479) / 1480) - 1 = i by omega]
  refine ⟨_, rfl, hcount, hfield, ?_, ?_, ?_⟩
  · refine Eq.trans h1 (Eq.trans (List.map_congr_left ?_) h2.symm)
    intro i _
    by_cases hlast : i + 1 < max 1 ((buf.len + 1479) / 1480)
    · simp only [Function.comp, if_pos hlast]
    · simp only [Function.comp, if_neg hlast]
  · have : buf.len ≤ 1480 * ((buf.len + 1479) / 1480) := by omega
    omega
  · intro hpos
    have : 1480 * ((buf.len + 1479) / 1480) < buf.len + 1480 := by omega
    omega

/-! ## Instances of the fragmentation theorems -/

theorem ip_out_length (cfg : NetCfg) (junk buf : buf_t) (ip : ip_t) (protocol id : Nat)
    (hroom : ∀ n, n ≤ 1480 → 20 ≤ cfg.origin n ∧ cfg.origin n + n ≤ cfg.BUF_MAX_LEN)
    (hjunk : junk.payload.length = cfg.BUF_MAX_LEN)
    (hbuf : buf.data + buf.len ≤ buf.payload.length) :
    (ip_out cfg junk buf ip protocol id).1.length = max 1 ((buf.len + 1479) / 1480) := by
  have := congrArg List.length (ip_out_fields cfg junk buf ip protocol id hroom hjunk hbuf)
  simpa using this

theorem exCfgBig_room :
    ∀ n, n ≤ 1480 → 20 ≤ exCfgBig.origin n ∧ exCfgBig.origin n + n ≤ exCfgBig.BUF_MAX_LEN :=
  fun n hn => ⟨by simp only [exCfgBig]; omega, by simp only [exCfgBig]; omega⟩

theorem exPayload_fits : exPayload.data + exPayload.len ≤ exPayload.payload.length := by
  rw [show exPayload.payload = List.replicate 3300 7 from rfl, List.length_replicate]
  decide

/-- The offsets on a 3200-byte payload in a buffer of its own: 0, 185, 370 with MF set on
the first two fragments only. -/
theorem ip_out_fragment_offsets_witness :
    (∀ n, n ≤ 1480 → 20 ≤ exCfgBig.origin n ∧ exCfgBig.origin n + n ≤ exCfgBig.BUF_MAX_LEN)
      ∧ exScratchBig.payload.length = exCfgBig.BUF_MAX_LEN
      ∧ exPayload.data + exPayload.len ≤ exPayload.payload.length
      ∧ exPayload.len ≤ 66600
      ∧ (ip_out exCfgBig exScratchBig exPayload exPeer NET_PROTOCOL_UDP 7).1.map
            (fun f => (be16 f.bytes 6 % 8192, be16 f.bytes 6 / 8192))
          = [(0, 1), (185, 1), (370, 0)] := by
  have h2 : exScratchBig.payload.length = exCfgBig.BUF_MAX_LEN := List.length_replicate 4096 0
  have h4 : exPayload.len ≤ 66600 := by decide
  have hlen := ip_out_length exCfgBig exScratchBig exPayload exPeer NET_PROTOCOL_UDP 7
    exCfgBig_room h2 exPayload_fits
  have h := ip_out_fragment_offsets exCfgBig exScratchBig exPayload exPeer NET_PROTOCOL_UDP 7
    exCfgBig_room h2 exPayload_fits h4
  rw [hlen] at h
  exact ⟨exCfgBig_room, h2, exPayload_fits, h4, h.trans (by decide)⟩

/-- The count on a 3200-byte payload in a buffer of its own: three fragments with total
length 1500, 1500 and 260. -/
theorem ip_out_fragment_count_witness :
    (∀ n, n ≤ 1480 → 20 ≤ exCfgBig.origin n ∧ exCfgBig.origin n + n ≤ exCfgBig.BUF_MAX_LEN)
      ∧ exScratchBig.payload.length = exCfgBig.BUF_MAX_LEN
      ∧ exPayload.data + exPayload.len ≤ exPayload.payload.length
      ∧ (ip_out exCfgBig exScratchBig exPayload exPeer NET_PROTOCOL_UDP 7).1.length = 3
      ∧ (ip_out exCfgBig exScratchBig exPayload exPeer NET_PROTOCOL_UDP 7).1.map
            (fun f => be16 f.bytes 2) = [1500, 1500, 260]
      ∧ (ip_out exCfgBig exScratchBig exPayload exPeer NET_PROTOCOL_UDP 7).1.map
            (fun f => f.len) = [1500, 1500, 260] := by
  have h2 : exScratchBig.payload.length = exCfgBig.BUF_MAX_LEN := List.length_replicate 4096 0
  obtain ⟨n, hn, hlen, hfield, hframe, -, -⟩ :=
    ip_out_fragment_count exCfgBig exScratchBig exPayload exPeer NET_PROTOCOL_UDP 7
      exCfgBig_room h2 exPayload_fits
  have hn3 : n = 3 := hn.trans (by decide)
  subst hn3
  have hf3 : (ip_out exCfgBig exScratchBig exPayload exPeer NET_PROTOCOL_UDP 7).1.map
      (fun f => be16 f.bytes 2) = [1500, 1500, 260] := hfield.trans (by decide)
  exact ⟨exCfgBig_room, h2, exPayload_fits, hlen, hf3, hframe.trans hf3⟩


/-! ## IPv4 egress: the identification field -/

/-- The identification field of an emitted fragment, read in network byte order, is the
counter value as a 16-bit number. -/
theorem ip_fragment_out_id (cfg : NetCfg) (buf : buf_t) (ip : ip_t)
    (protocol id offset mf : Nat) (hroom : 20 ≤ buf.data)
    (hwf : buf.data + buf.len ≤ buf.payload.length) :
    be16 (ip_fragment_out cfg buf ip protocol id offset mf).bytes 4 = id % 65536 := by
  obtain ⟨hd, hl⟩ := ip_fragment_out_data cfg buf ip protocol id offset mf hroom
  have hah : buf_add_header buf IP_HDR_LEN = (⟨buf.len + 20, buf.data - 20, buf.payload⟩, 0) := by
    simp [buf_add_header, IP_HDR_LEN, show ¬ buf.data < 20 by omega]
  have hhdr := ip_fragment_out_header cfg buf ip protocol id offset mf
    (by rw [hah]; simp only [IP_HDR_LEN]; omega)
  rw [hah] at hhdr
  simp only [IP_HDR_LEN] at hhdr
  generalize ((if mf ≠ 0 then IP_MORE_FRAGMENT else 0) ||| (offset % 65536)) = ff at hhdr
  generalize checksum16 (ip_hdr_image (swap16 (buf.len + 20)) (swap16 id) (swap16 ff) protocol 0
    cfg.net_if_ip ip) = ck at hhdr
  have hg : ∀ k, k < 20 →
      (ip_fragment_out cfg buf ip protocol id offset mf).bytes.getD k 0
        = (ip_hdr_image (swap16 (buf.len + 20)) (swap16 id) (swap16 ff) protocol ck
            cfg.net_if_ip ip).getD k 0 := by
    intro k hk
    rw [← hhdr]
    unfold buf_t.bytes
    exact getD_memRead_prefix _ _ _ _ _ hk (by rw [hl]; omega)
  unfold be16
  rw [hg 4 (by omega), hg 5 (by omega)]
  have := be16_swap16_bytes id
  simpa [ip_hdr_image, store16] using this

theorem ip_out_loop_ids (cfg : NetCfg) (junk buf : buf_t) (ip : ip_t) (protocol id : Nat)
    (hroom : 20 ≤ cfg.origin 1480) (hcap : cfg.origin 1480 + 1480 ≤ cfg.BUF_MAX_LEN)
    (hjunk : junk.payload.length = cfg.BUF_MAX_LEN) :
    ∀ fuel i : Nat, ∀ f ∈ (ip_out_loop cfg junk buf ip protocol id fuel i).1,
      be16 f.bytes 4 = id % 65536 := by
  intro fuel
  induction fuel with
  | zero =>
    intro i f hf
    simp [ip_out_loop] at hf
  | succ fuel ih =>
    intro i f hf
    by_cases hc : (i + 1) * 1480 < buf.len
    · have hstep : ip_out_loop cfg junk buf ip protocol id (fuel + 1) i
          = (ip_fragment_out cfg
                { buf_init cfg junk 1480 with
                  payload := memWrite (buf_init cfg junk 1480).payload (buf_init cfg junk 1480).data
                    (memRead buf.payload (buf.data + i * 1480) 1480) }
                ip protocol id (i * (1480 / 8)) 1
              :: (ip_out_loop cfg junk buf ip protocol id fuel (i + 1)).1,
             (ip_out_loop cfg junk buf ip protocol id fuel (i + 1)).2) := by
        simp only [ip_out_loop, IP_HDR_LEN, hc, if_true]
      rw [hstep] at hf
      rcases List.mem_cons.mp hf with h | h
      · rw [h]
        exact ip_fragment_out_id cfg _ ip protocol id _ 1
          (by simpa [buf_init] using hroom)
          (by simp only [buf_init, memWrite_length]; rw [hjunk]; exact hcap)
      · exact ih (i + 1) f h
    · have hstep : ip_out_loop cfg junk buf ip protocol id (fuel + 1) i = ([], i) := by
        simp only [ip_out_loop, IP_HDR_LEN, hc, if_false]
      rw [hstep] at hf
      simp at hf

/-- Every fragment of one `ip_out` call carries the counter value of that call, and the
call leaves the counter one higher. -/
theorem ip_out_ids (cfg : NetCfg) (junk buf : buf_t) (ip : ip_t) (protocol id : Nat)
    (hroom : ∀ n, n ≤ 1480 → 20 ≤ cfg.origin n ∧ cfg.origin n + n ≤ cfg.BUF_MAX_LEN)
    (hjunk : junk.payload.length = cfg.BUF_MAX_LEN)
    (hbuf : buf.data + buf.len ≤ buf.payload.length) :
    (ip_out cfg junk buf ip protocol id).2 = id + 1
      ∧ (ip_out cfg junk buf ip protocol id).1 ≠ []
      ∧ ∀ f ∈ (ip_out cfg junk buf ip protocol id).1, be16 f.bytes 4 = id % 65536 := by
  obtain ⟨hr1, hr2⟩ := hroom 1480 (le_refl _)
  obtain ⟨h1, h2, h3, -⟩ :=
    ip_out_loop_payloads cfg junk buf ip protocol id hr1 hr2 hjunk hbuf buf.len 0
  have hloop := ip_out_loop_ids cfg junk buf ip protocol id hr1 hr2 hjunk buf.len 0
  have hexit := h3 (by omega)
  refine ⟨rfl, by simp [ip_out], ?_⟩
  intro f hf
  simp only [ip_out, IP_HDR_LEN, List.mem_append, List.mem_singleton] at hf
  rcases hf with hf | hf
  · exact hloop f hf
  · generalize (ip_out_loop cfg junk buf ip protocol id buf.len 0) = r at h1 h2 hexit hf
    have hn : buf.len - r.2 * 1480 ≤ 1480 := by omega
    obtain ⟨hn1, hn2⟩ := hroom _ hn
    rw [hf]
    exact ip_fragment_out_id cfg _ ip protocol id _ 0
      (by simpa [buf_init] using hn1)
      (by simp only [buf_init, memWrite_length]; rw [hjunk]; exact hn2)

theorem ip_out_run_length (cfg : NetCfg) :
    ∀ (calls : List ip_out_args) (id : Nat), (ip_out_run cfg id calls).length = calls.length
  | [], _ => rfl
  | c :: rest, id => by
    simp only [ip_out_run, List.length_cons]
    rw [ip_out_run_length cfg rest]

/-- The fragments of the call at position `k` of a run started with counter `id` are those
of `ip_out` with counter `id + k`. -/
theorem ip_out_run_get (cfg : NetCfg) :
    ∀ (calls : List ip_out_args) (id k : Nat),
      (ip_out_run cfg id calls)[k]?
        = calls[k]?.map (fun c => (ip_out cfg c.junk c.buf c.ip c.protocol (id + k)).1)
  | [], _, _ => by simp [ip_out_run]
  | c :: rest, id, 0 => by simp [ip_out_run]
  | c :: rest, id, k + 1 => by
    simp only [ip_out_run, List.getElem?_cons_succ]
    rw [ip_out_run_get cfg rest]
    have e : (ip_out cfg c.junk c.buf c.ip c.protocol id).2 + k = id + (k + 1) := by
      show id + 1 + k = id + (k + 1)
      omega
    rw [e]

theorem option_map_some {α β : Type} (f : α → β) (o : Option α) (b : β)
    (h : o.map f = some b) : ∃ a, o = some a ∧ f a = b := by
  cases o with
  | none => simp at h
  | some a => exact ⟨a, rfl, by simpa using h⟩

/-- C21. In an execution whose `ip_out` calls all fit the frame buffer, the call at position
`k` (counted from 0) emits at least one fragment and every fragment it emits carries
`k mod 2^16` in its identification field: one value per call whatever the number of
fragments, starting at 0 and going up by one, modulo 2^16, from each call to the next. -/
theorem ip_out_identification (cfg : NetCfg) (calls : List ip_out_args)
    (hroom : ∀ n, n ≤ 1480 → 20 ≤ cfg.origin n ∧ cfg.origin n + n ≤ cfg.BUF_MAX_LEN)
    (hfit : ∀ c ∈ calls, c.junk.payload.length = cfg.BUF_MAX_LEN
      ∧ c.buf.data + c.buf.len ≤ c.buf.payload.length) :
    (ip_out_calls cfg calls).length = calls.length
      ∧ ∀ (k : Nat) (frags : List buf_t), (ip_out_calls cfg calls)[k]? = some frags →
          frags ≠ [] ∧ ∀ f ∈ frags, be16 f.bytes 4 = k % 65536 := by
  refine ⟨ip_out_run_length cfg calls 0, ?_⟩
  intro k frags hk
  unfold ip_out_calls at hk
  rw [ip_out_run_get, Nat.zero_add] at hk
  obtain ⟨c, hc, rfl⟩ := option_map_some _ _ _ hk
  obtain ⟨hj, hb⟩ := hfit c (List.getElem?_mem hc)
  obtain ⟨-, hne, hid⟩ := ip_out_ids cfg c.junk c.buf c.ip c.protocol k hroom hj hb
  exact ⟨hne, hid⟩

/-- C22, as amended. In an execution whose `ip_out` calls all fit the frame buffer, two
calls fewer than 2^16 calls apart write different identification fields into their
fragments. -/
theorem ip_out_identification_distinct (cfg : NetCfg) (calls : List ip_out_args)
    (hroom : ∀ n, n ≤ 1480 → 20 ≤ cfg.origin n ∧ cfg.origin n + n ≤ cfg.BUF_MAX_LEN)
    (hfit : ∀ c ∈ calls, c.junk.payload.length = cfg.BUF_MAX_LEN
      ∧ c.buf.data + c.buf.len ≤ c.buf.payload.length)
    (i j : Nat) (fi fj : List buf_t) (hij : i < j) (hnear : j < i + 65536)
    (hi : (ip_out_calls cfg calls)[i]? = some fi)
    (hj : (ip_out_calls cfg calls)[j]? = some fj) :
    ∀ f ∈ fi, ∀ g ∈ fj, be16 f.bytes 4 ≠ be16 g.bytes 4 := by
  unfold ip_out_calls at hi hj
  rw [ip_out_run_get, Nat.zero_add] at hi hj
  obtain ⟨c, hc, rfl⟩ := option_map_some _ _ _ hi
  obtain ⟨d, hd, rfl⟩ := option_map_some _ _ _ hj
  obtain ⟨hcj, hcb⟩ := hfit c (List.getElem?_mem hc)
  obtain ⟨hdj, hdb⟩ := hfit d (List.getElem?_mem hd)
  obtain ⟨-, -, hidc⟩ := ip_out_ids cfg c.junk c.buf c.ip c.protocol i hroom hcj hcb
  obtain ⟨-, -, hidd⟩ := ip_out_ids cfg d.junk d.buf d.ip d.protocol j hroom hdj hdb
  intro f hf g hg
  rw [hidc f hf, hidd g hg]
  omega

/-! ## Instances of the identification theorems -/

/-- The identification fields of the fragments of one call, in emission order. -/
theorem ip_out_id_fields (cfg : NetCfg) (junk buf : buf_t) (ip : ip_t) (protocol id : Nat)
    (hroom : ∀ n, n ≤ 1480 → 20 ≤ cfg.origin n ∧ cfg.origin n + n ≤ cfg.BUF_MAX_LEN)
    (hjunk : junk.payload.length = cfg.BUF_MAX_LEN)
    (hbuf : buf.data + buf.len ≤ buf.payload.length) :
    (ip_out cfg junk buf ip protocol id).1.map (fun f => be16 f.bytes 4)
      = List.replicate (max 1 ((buf.len + 1479) / 1480)) (id % 65536) := by
  rw [List.eq_replicate_iff]
  refine ⟨by rw [List.length_map, ip_out_length cfg junk buf ip protocol id hroom hjunk hbuf], ?_⟩
  intro b hb
  obtain ⟨f, hf, rfl⟩ := List.mem_map.mp hb
  exact (ip_out_ids cfg junk buf ip protocol id hroom hjunk hbuf).2.2 f hf

theorem exCalls_fit : ∀ c ∈ [exCall, exCallSmall],
    c.junk.payload.length = exCfgBig.BUF_MAX_LEN
      ∧ c.buf.data + c.buf.len ≤ c.buf.payload.length := by
  intro c hc
  simp only [List.mem_cons, List.mem_singleton, List.not_mem_nil, or_false] at hc
  rcases hc with rfl | rfl
  · exact ⟨List.length_replicate 4096 0, exPayload_fits⟩
  · exact ⟨List.length_replicate 4096 0, by decide⟩

theorem exCallSmall_fit : ∀ (n : Nat), ∀ c ∈ List.replicate n exCallSmall,
    c.junk.payload.length = exCfgBig.BUF_MAX_LEN
      ∧ c.buf.data + c.buf.len ≤ c.buf.payload.length := by
  intro n c hc
  rw [List.eq_of_mem_replicate hc]
  exact ⟨List.length_replicate 4096 0, by decide⟩

/-- C21 on two sends, the first in three fragments. -/
theorem ip_out_identification_witness :
    (∀ n, n ≤ 1480 → 20 ≤ exCfgBig.origin n ∧ exCfgBig.origin n + n ≤ exCfgBig.BUF_MAX_LEN)
      ∧ (∀ c ∈ [exCall, exCallSmall], c.junk.payload.length = exCfgBig.BUF_MAX_LEN
          ∧ c.buf.data + c.buf.len ≤ c.buf.payload.length)
      ∧ (ip_out_calls exCfgBig [exCall, exCallSmall]).length = 2
      ∧ ∀ (k : Nat) (frags : List buf_t),
          (ip_out_calls exCfgBig [exCall, exCallSmall])[k]? = some frags →
            frags ≠ [] ∧ ∀ f ∈ frags, be16 f.bytes 4 = k % 65536 :=
  ⟨exCfgBig_room, exCalls_fit,
    ip_out_identification exCfgBig [exCall, exCallSmall] exCfgBig_room exCalls_fit⟩

/-- C22 on the first two sends of an execution. -/
theorem ip_out_identification_distinct_witness :
    (∀ n, n ≤ 1480 → 20 ≤ exCfgBig.origin n ∧ exCfgBig.origin n + n ≤ exCfgBig.BUF_MAX_LEN)
      ∧ (∀ c ∈ [exCall, exCallSmall], c.junk.payload.length = exCfgBig.BUF_MAX_LEN
          ∧ c.buf.data + c.buf.len ≤ c.buf.payload.length)
      ∧ (ip_out_calls exCfgBig [exCall, exCallSmall])[0]?
          = some (ip_out exCfgBig exScratchBig exPayload exPeer NET_PROTOCOL_UDP 0).1
      ∧ (ip_out_calls exCfgBig [exCall, exCallSmall])[1]?
          = some (ip_out exCfgBig exScratchBig ⟨4, 0, [1, 2, 3, 4]⟩ exPeer NET_PROTOCOL_UDP 1).1
      ∧ ∀ f ∈ (ip_out exCfgBig exScratchBig exPayload exPeer NET_PROTOCOL_UDP 0).1,
          ∀ g ∈ (ip_out exCfgBig exScratchBig ⟨4, 0, [1, 2, 3, 4]⟩ exPeer NET_PROTOCOL_UDP 1).1,
            be16 f.bytes 4 ≠ be16 g.bytes 4 :=
  have h0 : (ip_out_calls exCfgBig [exCall, exCallSmall])[0]?
      = some (ip_out exCfgBig exScratchBig exPayload exPeer NET_PROTOCOL_UDP 0).1 := by
    rw [ip_out_calls, ip_out_run_get]
    rfl
  have h1 : (ip_out_calls exCfgBig [exCall, exCallSmall])[1]?
      = some (ip_out exCfgBig exScratchBig ⟨4, 0, [1, 2, 3, 4]⟩ exPeer NET_PROTOCOL_UDP 1).1 := by
    rw [ip_out_calls, ip_out_run_get]
    rfl
  ⟨exCfgBig_room, exCalls_fit, h0, h1,
    ip_out_identification_distinct exCfgBig [exCall, exCallSmall] exCfgBig_room exCalls_fit
      0 1 _ _ (by decide) (by decide) h0 h1⟩

/-- In an execution of 65537 sends the first and the last write the same identification
field, 0: the counter has gone once round its 16 bits. -/
theorem ip_out_identification_repeats :
    ((ip_out_calls exCfgBig (List.replicate 65537 exCallSmall))[0]?).map
        (List.map (fun f => be16 f.bytes 4)) = some [0]
      ∧ ((ip_out_calls exCfgBig (List.replicate 65537 exCallSmall))[65536]?).map
        (List.map (fun f => be16 f.bytes 4)) = some [0] := by
  have h2 : exScratchBig.payload.length = exCfgBig.BUF_MAX_LEN := List.length_replicate 4096 0
  have hf : ∀ id, (ip_out exCfgBig exCallSmall.junk exCallSmall.buf exCallSmall.ip
      exCallSmall.protocol id).1.map (fun f => be16 f.bytes 4) = [id % 65536] := by
    intro id
    rw [ip_out_id_fields exCfgBig exCallSmall.junk exCallSmall.buf exCallSmall.ip
      exCallSmall.protocol id exCfgBig_room h2 (by decide)]
    rfl
  unfold ip_out_calls
  rw [ip_out_run_get, ip_out_run_get, List.getElem?_replicate, List.getElem?_replicate,
    if_pos (by decide), if_pos (by decide)]
  simp only [Option.map, hf]
  decide

/-! ## TCP: the segment built by `tcp_send` -/

theorem be32_digits (a0 a1 a2 a3 : Nat) (h0 : a0 < 256) (h1 : a1 < 256) (h2 : a2 < 256)
    (h3 : a3 < 256) :
    (a0 * 16777216 + a1 * 65536 + a2 * 256 + a3) % 256 = a3
      ∧ (a0 * 16777216 + a1 * 65536 + a2 * 256 + a3) / 256 % 256 = a2
      ∧ (a0 * 16777216 + a1 * 65536 + a2 * 256 + a3) / 65536 % 256 = a1
      ∧ (a0 * 16777216 + a1 * 65536 + a2 * 256 + a3) / 16777216 % 256 = a0 := by
  refine ⟨by omega, by omega, by omega, by omega⟩

theorem be32_swap32_bytes (x : Nat) :
    16777216 * (swap32 x % 256) + 65536 * (swap32 x / 256 % 256)
      + 256 * (swap32 x / 65536 % 256) + swap32 x / 16777216 % 256 = x % 4294967296 := by
  obtain ⟨e0, e1, e2, e3⟩ := be32_digits (x % 4294967296 % 256) (x % 4294967296 / 256 % 256)
    (x % 4294967296 / 65536 % 256) (x % 4294967296 / 16777216 % 256)
    (Nat.mod_lt _ (by omega)) (Nat.mod_lt _ (by omega)) (Nat.mod_lt _ (by omega))
    (Nat.mod_lt _ (by omega))
  unfold swap32
  rw [e0, e1, e2, e3]
  clear e0 e1 e2 e3
  omega

theorem store16_digits (h l : Nat) (hh : h < 256) (hl : l < 256) :
    store16 (l * 256 + h) = [h, l] := by
  unfold store16
  congr 1
  · omega
  · congr 1
    omega

theorem store16_swap16 (x : Nat) (hx : x < 65536) : store16 (swap16 x) = [x / 256, x % 256] := by
  have hsw : swap16 x = (x % 256) * 256 + x / 256 := by
    unfold swap16
    omega
  rw [hsw]
  exact store16_digits _ _ (by omega) (Nat.mod_lt _ (by omega))

/-- The value `tcp_checksum` returns: `checksum16` over the pseudo-header followed by the
contents of the buffer. -/
theorem tcp_checksum_value (buf : buf_t) (src_ip dst_ip : ip_t) (hroom : 12 ≤ buf.data)
    (hwf : buf.data + buf.len ≤ buf.payload.length) (hlen : buf.len < 65536) :
    (tcp_checksum buf src_ip dst_ip).2
      = checksum16 (src_ip.bytes ++ dst_ip.bytes ++ [0, 6] ++ [buf.len / 256, buf.len % 256]
          ++ buf.bytes) := by
  have hst := store16_swap16 buf.len hlen
  have hl : (src_ip.bytes ++ dst_ip.bytes ++ [0, NET_PROTOCOL_TCP]
      ++ [buf.len / 256, buf.len % 256]).length = 12 := rfl
  simp only [tcp_checksum, Nat.mod_eq_of_lt hlen, hst]
  rw [Nat.add_comm buf.len 12, memRead_add]
  have h1 := memRead_memWrite_same buf.payload (buf.data - 12)
    (src_ip.bytes ++ dst_ip.bytes ++ [0, NET_PROTOCOL_TCP] ++ [buf.len / 256, buf.len % 256])
    (by rw [hl]; omega)
  rw [hl] at h1
  rw [h1, memRead_memWrite_after _ _ _ _ _ (by rw [hl]),
    show buf.data - 12 + 12 = buf.data by omega]
  rfl

/-- The bytes of a buffer whose first twenty bytes were stored as a header image. -/
theorem hdr_then_payload (buf : buf_t) (hdr : List Nat) (hl : hdr.length = 20)
    (hroom : 20 ≤ buf.data) (hwf : buf.data + buf.len ≤ buf.payload.length) :
    buf_t.bytes ⟨buf.len + 20, buf.data - 20, memWrite buf.payload (buf.data - 20) hdr⟩
      = hdr ++ buf.bytes := by
  simp only [buf_t.bytes]
  rw [Nat.add_comm buf.len 20, memRead_add]
  have hr := memRead_memWrite_same buf.payload (buf.data - 20) hdr (by rw [hl]; omega)
  rw [hl] at hr
  rw [hr, memRead_memWrite_after _ _ _ _ _ (by rw [hl]),
    show buf.data - 20 + 20 = buf.data by omega]

/-- The segment `tcp_send` hands to `ip_out`, with the value of its checksum field: the
checksum of the pseudo-header (remote address first, then the local one) followed by the
segment with a zero checksum field. -/
theorem tcp_send_segment_checksum (cfg : NetCfg) (buf : buf_t) (connect : tcp_connect_t)
    (flags : tcp_flags_t) (hroom : 32 ≤ buf.data)
    (hwf : buf.data + buf.len ≤ buf.payload.length) (hlen : buf.len + 20 < 65536) :
    ∃ ck : Nat,
      ck = checksum16 (connect.ip.bytes ++ cfg.net_if_ip.bytes ++ [0, 6]
          ++ [(buf.len + 20) / 256, (buf.len + 20) % 256]
          ++ (tcp_hdr_image (swap16 connect.local_port) (swap16 connect.remote_port)
            (swap32 ((connect.next_seq % 4294967296
              + (18446744073709551616 - buf.len % 18446744073709551616))
              % 18446744073709551616))
            (swap32 connect.ack) 0 5 flags (swap16 connect.remote_win) 0 0 ++ buf.bytes))
      ∧ (tcp_send cfg buf connect flags).2.2.buf.bytes
        = tcp_hdr_image (swap16 connect.local_port) (swap16 connect.remote_port)
            (swap32 ((connect.next_seq % 4294967296
              + (18446744073709551616 - buf.len % 18446744073709551616))
              % 18446744073709551616))
            (swap32 connect.ack) 0 5 flags (swap16 connect.remote_win) ck 0 ++ buf.bytes := by
  have hah : buf_add_header buf 20 = (⟨buf.len + 20, buf.data - 20, buf.payload⟩, 0) := by
    simp [buf_add_header, show ¬ buf.data < 20 by omega]
  generalize hseq : swap32 ((connect.next_seq % 4294967296
    + (18446744073709551616 - buf.len % 18446744073709551616)) % 18446744073709551616) = seq
  have himg := tcp_hdr_image_length (swap16 connect.local_port) (swap16 connect.remote_port)
    seq (swap32 connect.ack) 0 5 flags (swap16 connect.remote_win) 0 0
  have hbytes := hdr_then_payload buf _ himg (by omega) hwf
  have hckv := tcp_checksum_value
    ⟨buf.len + 20, buf.data - 20, memWrite buf.payload (buf.data - 20)
      (tcp_hdr_image (swap16 connect.local_port) (swap16 connect.remote_port)
        seq (swap32 connect.ack) 0 5 flags (swap16 connect.remote_win) 0 0)⟩
    connect.ip cfg.net_if_ip (by simp only; omega) (by simp only [memWrite_length]; omega) hlen
  rw [hbytes] at hckv
  simp only at hckv
  have hck := tcp_checksum_restores
    ⟨buf.len + 20, buf.data - 20, memWrite buf.payload (buf.data - 20)
      (tcp_hdr_image (swap16 connect.local_port) (swap16 connect.remote_port)
        seq (swap32 connect.ack) 0 5 flags (swap16 connect.remote_win) 0 0)⟩
    connect.ip cfg.net_if_ip (by simp only; omega) (by simp only [memWrite_length]; omega)
  generalize hckd : (tcp_checksum
    ⟨buf.len + 20, buf.data - 20, memWrite buf.payload (buf.data - 20)
      (tcp_hdr_image (swap16 connect.local_port) (swap16 connect.remote_port)
        seq (swap32 connect.ack) 0 5 flags (swap16 connect.remote_win) 0 0)⟩
    connect.ip cfg.net_if_ip).2 = ck at hckv
  have hsend : (tcp_send cfg buf connect flags).2.2.buf
      = ⟨buf.len + 20, buf.data - 20,
          memWrite (memWrite buf.payload (buf.data - 20)
            (tcp_hdr_image (swap16 connect.local_port) (swap16 connect.remote_port)
              seq (swap32 connect.ack) 0 5 flags (swap16 connect.remote_win) 0 0))
            (buf.data - 20 + 16) (store16 ck)⟩ := by
    simp only [tcp_send, hah, hseq, show 20 / 4 = 5 from rfl, hck, hckd]
  refine ⟨ck, hckv, ?_⟩
  rw [hsend]
  generalize hh : tcp_hdr_image (swap16 connect.local_port) (swap16 connect.remote_port)
    seq (swap32 connect.ack) 0 5 flags (swap16 connect.remote_win) 0 0 = hdr at himg
  simp only [buf_t.bytes]
  have hs : (store16 ck).length = 2 := rfl
  rw [Nat.add_comm buf.len 20, memRead_add]
  rw [memRead_memWrite_inner _ (buf.data - 20) 16 20 _ (by rw [hs]; omega)
    (by rw [memWrite_length]; omega)]
  have hr : memRead (memWrite buf.payload (buf.data - 20) hdr) (buf.data - 20) 20 = hdr := by
    have := memRead_memWrite_same buf.payload (buf.data - 20) hdr (by rw [himg]; omega)
    rw [himg] at this; exact this
  rw [hr, hs]
  rw [memRead_memWrite_after _ _ _ _ _ (by rw [hs]; omega)]
  rw [memRead_memWrite_after _ _ _ _ _ (by rw [himg])]
  rw [show buf.data - 20 + 20 = buf.data by omega]
  congr 1
  rw [← hh]
  simp [tcp_hdr_image, store16, store32]

/-- Exchanging the two addresses in front of a byte run does not change its checksum. -/
theorem checksum16_swap_addresses (a b : ip_t) (rest : List Nat) :
    checksum16 (a.bytes ++ b.bytes ++ rest) = checksum16 (b.bytes ++ a.bytes ++ rest) := by
  rw [checksum16_eq, checksum16_eq]
  have e : wsum (a.bytes ++ b.bytes ++ rest) = wsum (b.bytes ++ a.bytes ++ rest) := by
    simp only [ip_t.bytes, List.cons_append, List.nil_append, wsum]
    omega
  rw [e]

/-- C24. For a segment of fewer than 2^16 bytes built by `tcp_send` (payload of even or odd
length, with room in front of it for the header and the pseudo-header), `checksum16` over
the pseudo-header with the local address as source, the connection's remote address as
destination, a zero byte, protocol 6 and the segment length, followed by the whole segment
as handed to `ip_out`, is 0. -/
theorem tcp_send_checksum_valid (cfg : NetCfg) (buf : buf_t) (connect : tcp_connect_t)
    (flags : tcp_flags_t) (hroom : 32 ≤ buf.data)
    (hwf : buf.data + buf.len ≤ buf.payload.length) (hlen : buf.len + 20 < 65536) :
    (tcp_send cfg buf connect flags).2.2.buf.bytes.length = buf.len + 20
      ∧ checksum16 (cfg.net_if_ip.bytes ++ connect.ip.bytes ++ [0, 6]
          ++ [(buf.len + 20) / 256, (buf.len + 20) % 256]
          ++ (tcp_send cfg buf connect flags).2.2.buf.bytes) = 0 := by
  obtain ⟨ck, hck, hb⟩ := tcp_send_segment_checksum cfg buf connect flags hroom hwf hlen
  have hpl : buf.bytes.length = buf.len := memRead_length _ _ _ hwf
  rw [hb]
  refine ⟨by rw [List.length_append, tcp_hdr_image_length, hpl]; omega, ?_⟩
  generalize swap32 ((connect.next_seq % 4294967296
    + (18446744073709551616 - buf.len % 18446744073709551616)) % 18446744073709551616)
    = seq at hck
  have hsplit : ∀ c, tcp_hdr_image (swap16 connect.local_port) (swap16 connect.remote_port)
      seq (swap32 connect.ack) 0 5 flags (swap16 connect.remote_win) c 0
      = (store16 (swap16 connect.local_port) ++ store16 (swap16 connect.remote_port)
          ++ store32 seq ++ store32 (swap32 connect.ack) ++ [0 % 16 + 16 * (5 % 16), flags.byte]
          ++ store16 (swap16 connect.remote_win)) ++ store16 c ++ store16 0 := by
    intro c
    simp only [tcp_hdr_image, List.append_assoc]
  rw [hsplit] at hck ⊢
  generalize hA16 : store16 (swap16 connect.local_port) ++ store16 (swap16 connect.remote_port)
    ++ store32 seq ++ store32 (swap32 connect.ack) ++ [0 % 16 + 16 * (5 % 16), flags.byte]
    ++ store16 (swap16 connect.remote_win) = A16 at hck
  have hA16l : A16.length = 16 := by
    rw [← hA16]
    simp [store16, store32]
  have hfill := checksum16_fill
    (connect.ip.bytes ++ cfg.net_if_ip.bytes ++ [0, 6]
      ++ [(buf.len + 20) / 256, (buf.len + 20) % 256] ++ A16)
    (store16 0 ++ buf.bytes)
    (by simp only [List.length_append, hA16l, ip_t.bytes, List.length_cons, List.length_nil])
  have e1 : connect.ip.bytes ++ cfg.net_if_ip.bytes ++ [0, 6]
      ++ [(buf.len + 20) / 256, (buf.len + 20) % 256] ++ A16 ++ store16 0
      ++ (store16 0 ++ buf.bytes)
      = connect.ip.bytes ++ cfg.net_if_ip.bytes ++ [0, 6]
        ++ [(buf.len + 20) / 256, (buf.len + 20) % 256]
        ++ (A16 ++ store16 0 ++ store16 0 ++ buf.bytes) := by
    simp only [List.append_assoc]
  rw [e1, ← hck] at hfill
  have e2 : cfg.net_if_ip.bytes ++ connect.ip.bytes ++ [0, 6]
      ++ [(buf.len + 20) / 256, (buf.len + 20) % 256]
      ++ (A16 ++ store16 ck ++ store16 0 ++ buf.bytes)
      = cfg.net_if_ip.bytes ++ connect.ip.bytes ++ ([0, 6]
        ++ [(buf.len + 20) / 256, (buf.len + 20) % 256] ++ A16 ++ store16 ck
        ++ (store16 0 ++ buf.bytes)) := by
    simp only [List.append_assoc]
  have e3 : connect.ip.bytes ++ cfg.net_if_ip.bytes ++ [0, 6]
      ++ [(buf.len + 20) / 256, (buf.len + 20) % 256] ++ A16 ++ store16 ck
      ++ (store16 0 ++ buf.bytes)
      = connect.ip.bytes ++ cfg.net_if_ip.bytes ++ ([0, 6]
        ++ [(buf.len + 20) / 256, (buf.len + 20) % 256] ++ A16 ++ store16 ck
        ++ (store16 0 ++ buf.bytes)) := by
    simp only [List.append_assoc]
  rw [e2, checksum16_swap_addresses, ← e3]
  exact hfill

theorem getD_hdr_append (hdr p : List Nat) (k : Nat) (hk : k < hdr.length) :
    (hdr ++ p).getD k 0 = hdr.getD k 0 := by
  rw [List.getD_eq_getElem?_getD, List.getD_eq_getElem?_getD, List.getElem?_append_left hk]

/-- C23. For a payload of `n` bytes placed in `buf` with room in front of it for the header
and the pseudo-header, `tcp_send` hands to `ip_out`, for protocol 6 and the connection's
remote address, a segment of `n + 20` bytes: the payload preceded by a header that holds, in
network byte order, the local port, the remote port, `(next_seq − n) mod 2^32`, `ack`, then
the byte `0x50` (data offset 5, reserved bits 0), the flags byte, `remote_win`, the checksum
and the urgent pointer 0. -/
theorem tcp_send_header (cfg : NetCfg) (buf : buf_t) (connect : tcp_connect_t)
    (flags : tcp_flags_t) (hroom : 32 ≤ buf.data)
    (hwf : buf.data + buf.len ≤ buf.payload.length) :
    (tcp_send cfg buf connect flags).2.2.ip = connect.ip
      ∧ (tcp_send cfg buf connect flags).2.2.protocol = 6
      ∧ (tcp_send cfg buf connect flags).2.2.buf.bytes.length = buf.len + 20
      ∧ (tcp_send cfg buf connect flags).2.2.buf.bytes.drop 20 = buf.bytes
      ∧ be16 (tcp_send cfg buf connect flags).2.2.buf.bytes 0 = connect.local_port % 65536
      ∧ be16 (tcp_send cfg buf connect flags).2.2.buf.bytes 2 = connect.remote_port % 65536
      ∧ (be32 (tcp_send cfg buf connect flags).2.2.buf.bytes 4 : Int)
          = ((connect.next_seq : Int) - (buf.len : Int)) % 4294967296
      ∧ be32 (tcp_send cfg buf connect flags).2.2.buf.bytes 8 = connect.ack % 4294967296
      ∧ (tcp_send cfg buf connect flags).2.2.buf.bytes.getD 12 0 = 16 * 5 + 0
      ∧ (tcp_send cfg buf connect flags).2.2.buf.bytes.getD 13 0 = flags.byte
      ∧ be16 (tcp_send cfg buf connect flags).2.2.buf.bytes 14 = connect.remote_win % 65536
      ∧ be16 (tcp_send cfg buf connect flags).2.2.buf.bytes 18 = 0 := by
  obtain ⟨ck, hb, hip, hproto, -⟩ := tcp_send_segment cfg buf connect flags hroom hwf
  have hpl : buf.bytes.length = buf.len := memRead_length _ _ _ hwf
  have hl := tcp_hdr_image_length (swap16 connect.local_port) (swap16 connect.remote_port)
    (swap32 ((connect.next_seq % 4294967296
      + (18446744073709551616 - buf.len % 18446744073709551616)) % 18446744073709551616))
    (swap32 connect.ack) 0 5 flags (swap16 connect.remote_win) ck 0
  have hg : ∀ k, k < 20 → (tcp_send cfg buf connect flags).2.2.buf.bytes.getD k 0
      = (tcp_hdr_image (swap16 connect.local_port) (swap16 connect.remote_port)
          (swap32 ((connect.next_seq % 4294967296
            + (18446744073709551616 - buf.len % 18446744073709551616))
            % 18446744073709551616))
          (swap32 connect.ack) 0 5 flags (swap16 connect.remote_win) ck 0).getD k 0 := by
    intro k hk
    rw [hb]
    exact getD_hdr_append _ _ _ (by rw [hl]; exact hk)
  have hseq : ((((connect.next_seq % 4294967296
      + (18446744073709551616 - buf.len % 18446744073709551616)) % 18446744073709551616)
      % 4294967296 : Nat) : Int)
      = ((connect.next_seq : Int) - (buf.len : Int)) % 4294967296 := by
    omega
  refine ⟨hip, hproto, ?_, ?_, ?_, ?_, ?_, ?_, ?_, ?_, ?_, ?_⟩
  · rw [hb, List.length_append, hl, hpl]
    omega
  · rw [hb, List.drop_left' hl]
  · unfold be16
    rw [hg 0 (by omega), hg 1 (by omega)]
    have := be16_swap16_bytes connect.local_port
    simpa [tcp_hdr_image, store16, store32] using this
  · unfold be16
    rw [hg 2 (by omega), hg 3 (by omega)]
    have := be16_swap16_bytes connect.remote_port
    simpa [tcp_hdr_image, store16, store32] using this
  · have hnat : be32 (tcp_send cfg buf connect flags).2.2.buf.bytes 4
        = ((connect.next_seq % 4294967296
            + (18446744073709551616 - buf.len % 18446744073709551616))
            % 18446744073709551616) % 4294967296 := by
      unfold be32
      rw [hg 4 (by omega), hg 5 (by omega), hg 6 (by omega), hg 7 (by omega)]
      have := be32_swap32_bytes ((connect.next_seq % 4294967296
        + (18446744073709551616 - buf.len % 18446744073709551616)) % 18446744073709551616)
      simpa [tcp_hdr_image, store16, store32] using this
    rw [hnat]
    exact hseq
  · unfold be32
    rw [hg 8 (by omega), hg 9 (by omega), hg 10 (by omega), hg 11 (by omega)]
    have := be32_swap32_bytes connect.ack
    simpa [tcp_hdr_image, store16, store32] using this
  · rw [hg 12 (by omega)]
    simp [tcp_hdr_image, store16, store32]
  · rw [hg 13 (by omega)]
    simp [tcp_hdr_image, store16, store32]
  · unfold be16
    rw [hg 14 (by omega), hg 15 (by omega)]
    have := be16_swap16_bytes connect.remote_win
    simpa [tcp_hdr_image, store16, store32] using this
  · unfold be16
    rw [hg 18 (by omega), hg 19 (by omega)]
    simp [tcp_hdr_image, store16, store32]

/-- C26. `tcp_send` changes nothing of the connection but `next_seq`, which goes up by one
modulo 2^32 when the flags hold SYN or FIN and stays as it is otherwise. -/
theorem tcp_send_frame (cfg : NetCfg) (buf : buf_t) (connect : tcp_connect_t)
    (flags : tcp_flags_t) :
    (tcp_send cfg buf connect flags).2.1.next_seq
        = (if flags.syn = true ∨ flags.fin = true then (connect.next_seq + 1) % 4294967296
          else connect.next_seq)
      ∧ (tcp_send cfg buf connect flags).2.1.state = connect.state
      ∧ (tcp_send cfg buf connect flags).2.1.local_port = connect.local_port
      ∧ (tcp_send cfg buf connect flags).2.1.remote_port = connect.remote_port
      ∧ (tcp_send cfg buf connect flags).2.1.ip = connect.ip
      ∧ (tcp_send cfg buf connect flags).2.1.unack_seq = connect.unack_seq
      ∧ (tcp_send cfg buf connect flags).2.1.ack = connect.ack
      ∧ (tcp_send cfg buf connect flags).2.1.remote_mss = connect.remote_mss
      ∧ (tcp_send cfg buf connect flags).2.1.remote_win = connect.remote_win
      ∧ (tcp_send cfg buf connect flags).2.1.handler = connect.handler
      ∧ (tcp_send cfg buf connect flags).2.1.rx_buf = connect.rx_buf
      ∧ (tcp_send cfg buf connect flags).2.1.tx_buf = connect.tx_buf := by
  rw [tcp_send_connect]
  cases hs : flags.syn <;> cases hf : flags.fin <;> simp

/-! ## Instances of the `tcp_send` theorems -/

/-- C23 on the example connection and a payload of three bytes, sent with ACK. -/
theorem tcp_send_header_witness :
    32 ≤ exSegBuf.data ∧ exSegBuf.data + exSegBuf.len ≤ exSegBuf.payload.length
      ∧ (tcp_send exCfg exSegBuf exConn tcp_flags_ack).2.2.ip = exConn.ip
      ∧ (tcp_send exCfg exSegBuf exConn tcp_flags_ack).2.2.protocol = 6
      ∧ (tcp_send exCfg exSegBuf exConn tcp_flags_ack).2.2.buf.bytes.length = 23
      ∧ (tcp_send exCfg exSegBuf exConn tcp_flags_ack).2.2.buf.bytes.drop 20 = [1, 2, 3]
      ∧ be16 (tcp_send exCfg exSegBuf exConn tcp_flags_ack).2.2.buf.bytes 0 = 80
      ∧ be16 (tcp_send exCfg exSegBuf exConn tcp_flags_ack).2.2.buf.bytes 2 = 40000
      ∧ (be32 (tcp_send exCfg exSegBuf exConn tcp_flags_ack).2.2.buf.bytes 4 : Int) = 98
      ∧ be32 (tcp_send exCfg exSegBuf exConn tcp_flags_ack).2.2.buf.bytes 8 = 2000
      ∧ (tcp_send exCfg exSegBuf exConn tcp_flags_ack).2.2.buf.bytes.getD 12 0 = 80
      ∧ (tcp_send exCfg exSegBuf exConn tcp_flags_ack).2.2.buf.bytes.getD 13 0 = 16
      ∧ be16 (tcp_send exCfg exSegBuf exConn tcp_flags_ack).2.2.buf.bytes 14 = 1000
      ∧ be16 (tcp_send exCfg exSegBuf exConn tcp_flags_ack).2.2.buf.bytes 18 = 0 :=
  have h1 : 32 ≤ exSegBuf.data := by decide
  have h2 : exSegBuf.data + exSegBuf.len ≤ exSegBuf.payload.length := by decide
  ⟨h1, h2, tcp_send_header exCfg exSegBuf exConn tcp_flags_ack h1 h2⟩

/-- C24 on the example connection and a payload of three bytes, a segment of odd length. -/
theorem tcp_send_checksum_valid_witness :
    32 ≤ exSegBuf.data ∧ exSegBuf.data + exSegBuf.len ≤ exSegBuf.payload.length
      ∧ exSegBuf.len + 20 < 65536
      ∧ (tcp_send exCfg exSegBuf exConn tcp_flags_ack).2.2.buf.bytes.length = 23
      ∧ checksum16 ([10, 0, 0, 1] ++ [10, 0, 0, 2] ++ [0, 6] ++ [0, 23]
          ++ (tcp_send exCfg exSegBuf exConn tcp_flags_ack).2.2.buf.bytes) = 0 :=
  have h1 : 32 ≤ exSegBuf.data := by decide
  have h2 : exSegBuf.data + exSegBuf.len ≤ exSegBuf.payload.length := by decide
  have h3 : exSegBuf.len + 20 < 65536 := by decide
  ⟨h1, h2, h3, tcp_send_checksum_valid exCfg exSegBuf exConn tcp_flags_ack h1 h2 h3⟩

/-! ## IPv4 ingress: what is handed to the upper layer -/

/-- The call of `net_in` made for a frame that passes the checks of `ip_in`: the buffer cut
to the total length, with the header stripped by `buf_remove_header`, the protocol byte and
the source address. -/
theorem ip_in_delivered (cfg : NetCfg) (net_in : buf_t → Nat → ip_t → Int) (buf : buf_t)
    (hwf : buf.data + buf.len ≤ buf.payload.length) (hb : ∀ x ∈ buf.payload, x < 256)
    (h : (ip_in cfg net_in buf).delivered.isSome = true) :
    (ip_in cfg net_in buf).delivered
      = some ((buf_remove_header
            ⟨swap16 (rd16 buf.payload (buf.data + 2)), buf.data, buf.payload⟩
            (rd8 buf.payload buf.data % 16 * 4)).1,
          rd8 buf.payload (buf.data + 9), rdIp buf.payload (buf.data + 12)) := by
  obtain ⟨g1, g2, g3, g4, g5⟩ := (ip_in_guards cfg net_in buf).1.mp h
  have hres := ip_in_restore buf.payload buf.data (by omega) hb
  rw [hres] at g5
  have hcut : (if swap16 (rd16 buf.payload (buf.data + 2)) < buf.len
      then (buf_remove_padding buf (buf.len - swap16 (rd16 buf.payload (buf.data + 2)))).1
      else buf)
      = ⟨swap16 (rd16 buf.payload (buf.data + 2)), buf.data, buf.payload⟩ := by
    split_ifs with hc
    · have e : buf.len - (buf.len - swap16 (rd16 buf.payload (buf.data + 2)))
          = swap16 (rd16 buf.payload (buf.data + 2)) := by omega
      simp only [buf_remove_padding, if_neg (show ¬ buf.len
        < buf.len - swap16 (rd16 buf.payload (buf.data + 2)) by omega), e]
    · have e : swap16 (rd16 buf.payload (buf.data + 2)) = buf.len := by omega
      rw [e]
  simp only [ip_in, IP_HDR_LEN, IP_VERSION_4, if_neg (show ¬ buf.len < 20 by omega), g2,
    ne_eq, not_true_eq_false, if_false, if_neg (not_lt.mpr g3), g4, hres, g5, hcut]

theorem ip_in_total (buf : buf_t) (h20 : 20 ≤ buf.len) (hb : ∀ x ∈ buf.payload, x < 256) :
    swap16 (rd16 buf.payload (buf.data + 2)) = be16 buf.bytes 2 := by
  have r2 := rd8_eq_getD buf.payload buf.data buf.len 2 (by omega)
  have r3 := rd8_eq_getD buf.payload buf.data buf.len 3 (by omega)
  rw [← buf_t.bytes] at r2 r3
  rw [swap16_rd16 _ _ hb, show buf.data + 2 + 1 = buf.data + 3 from rfl, r2, r3]
  rfl

theorem ip_in_cut (buf : buf_t) (total n : Nat) (ht : total ≤ buf.len) :
    buf_t.bytes ⟨total - n, buf.data + n, buf.payload⟩ = (buf.bytes.take total).drop n := by
  unfold buf_t.bytes
  rw [memRead_take, memRead_drop, Nat.min_eq_left ht]

/-- C25. For a frame that `ip_in` accepts and whose header length `hdr_len × 4` does not
exceed its total length, the buffer handed to the demultiplexer holds exactly the bytes of
the frame from offset `hdr_len × 4` up to, not including, offset `total_len`; it is handed
over with the protocol byte and the source address of the header. -/
theorem ip_in_strips_header_and_padding (cfg : NetCfg) (net_in : buf_t → Nat → ip_t → Int)
    (buf : buf_t) (hwf : buf.data + buf.len ≤ buf.payload.length)
    (hb : ∀ x ∈ buf.payload, x < 256)
    (h : (ip_in cfg net_in buf).delivered.isSome = true)
    (hhl : buf.bytes.getD 0 0 % 16 * 4 ≤ be16 buf.bytes 2) :
    ∃ b : buf_t,
      (ip_in cfg net_in buf).delivered
        = some (b, buf.bytes.getD 9 0,
            ⟨buf.bytes.getD 12 0, buf.bytes.getD 13 0, buf.bytes.getD 14 0,
              buf.bytes.getD 15 0⟩)
      ∧ b.bytes = (buf.bytes.take (be16 buf.bytes 2)).drop (buf.bytes.getD 0 0 % 16 * 4) := by
  obtain ⟨g1, -, g3, -, -⟩ := (ip_in_guards cfg net_in buf).1.mp h
  have r0 := rd8_eq_getD buf.payload buf.data buf.len 0 (by omega)
  have r9 := rd8_eq_getD buf.payload buf.data buf.len 9 (by omega)
  have r12 := rd8_eq_getD buf.payload buf.data buf.len 12 (by omega)
  have r13 := rd8_eq_getD buf.payload buf.data buf.len 13 (by omega)
  have r14 := rd8_eq_getD buf.payload buf.data buf.len 14 (by omega)
  have r15 := rd8_eq_getD buf.payload buf.data buf.len 15 (by omega)
  rw [← buf_t.bytes] at r0 r9 r12 r13 r14 r15
  rw [Nat.add_zero] at r0
  have hsrc : rdIp buf.payload (buf.data + 12)
      = ⟨buf.bytes.getD 12 0, buf.bytes.getD 13 0, buf.bytes.getD 14 0,
          buf.bytes.getD 15 0⟩ := by
    unfold rdIp
    rw [show buf.data + 12 + 1 = buf.data + 13 from rfl,
      show buf.data + 12 + 2 = buf.data + 14 from rfl,
      show buf.data + 12 + 3 = buf.data + 15 from rfl, r12, r13, r14, r15]
  have htot := ip_in_total buf g1 hb
  rw [htot] at g3
  rw [ip_in_delivered cfg net_in buf hwf hb h, htot, r0, r9, hsrc]
  refine ⟨_, rfl, ?_⟩
  simp only [buf_remove_header, if_neg (not_lt.mpr hhl)]
  exact ip_in_cut buf _ _ g3

/-- C25 on a frame of 24 bytes with two bytes of padding: the four data bytes are handed
over for protocol 17 and source `10.0.0.2`. -/
theorem ip_in_strips_header_and_padding_witness :
    exFrame.data + exFrame.len ≤ exFrame.payload.length
      ∧ (∀ x ∈ exFrame.payload, x < 256)
      ∧ (ip_in exCfg (fun _ _ _ => 0) exFrame).delivered.isSome = true
      ∧ exFrame.bytes.getD 0 0 % 16 * 4 ≤ be16 exFrame.bytes 2
      ∧ ∃ b : buf_t,
          (ip_in exCfg (fun _ _ _ => 0) exFrame).delivered = some (b, 17, ⟨10, 0, 0, 2⟩)
          ∧ b.bytes = [1, 2, 3, 4] :=
  have h1 : exFrame.data + exFrame.len ≤ exFrame.payload.length := by decide
  have h2 : ∀ x ∈ exFrame.payload, x < 256 := by decide
  have h3 : (ip_in exCfg (fun _ _ _ => 0) exFrame).delivered.isSome = true := by decide
  have h4 : exFrame.bytes.getD 0 0 % 16 * 4 ≤ be16 exFrame.bytes 2 := by decide
  ⟨h1, h2, h3, h4, ip_in_strips_header_and_padding exCfg (fun _ _ _ => 0) exFrame h1 h2 h3 h4⟩

/-! ## UDP: a datagram for a port without handler -/

set_option maxRecDepth 20000 in
/-- C28 at a concrete datagram. A checksum-valid datagram from `10.0.0.2` for port 9999,
with no handler registered, makes `udp_in` send one ICMP message of type 3, code 3, whose
body is the datagram's IP header and its first eight bytes; the message is handed to
`ip_out` for the local address `10.0.0.1`, not for the sender, and the IP packet that
`ip_out` emits has `10.0.0.1` as destination. -/
theorem udp_in_unreachable_to_self :
    (udp_in exCfg [] exScratch exUdp exPeer).handled = none
      ∧ (udp_in exCfg [] exScratch exUdp exPeer).unreachable.map
          (fun c => (c.ip, c.protocol, c.buf.bytes.take 2, c.buf.bytes.drop 8))
        = some (⟨10, 0, 0, 1⟩, 1, [3, 3],
            [69, 0, 0, 32, 0, 10, 0, 0, 64, 17, 102, 193, 10, 0, 0, 2, 10, 0, 0, 1,
              19, 136, 39, 15, 0, 12, 173, 54])
      ∧ (udp_in exCfg [] exScratch exUdp exPeer).unreachable.map
          (fun c => (ip_out exCfg exScratch c.buf c.ip c.protocol 0).1.map
            (fun f => (f.bytes.drop 16).take 4))
        = some [[10, 0, 0, 1]]
      ∧ exPeer = ⟨10, 0, 0, 2⟩ := by
  decide

/-! ## `ip_prefix_match` -/

theorem ip_prefix_match_inner_add : ∀ (j flag count : Nat), count + j ≤ 255 →
    ip_prefix_match_inner j flag count
      = ((ip_prefix_match_inner j flag 0).1 + count, (ip_prefix_match_inner j flag 0).2)
  | 0, _, count, _ => by simp [ip_prefix_match_inner]
  | j + 1, flag, count, h => by
    by_cases hf : flag &&& 128 ≠ 0
    · simp only [ip_prefix_match_inner, if_pos hf, Nat.zero_add]
    · simp only [ip_prefix_match_inner, if_neg hf]
      rw [ip_prefix_match_inner_add j _ ((count + 1) % 256) (by omega),
        ip_prefix_match_inner_add j _ ((0 + 1) % 256) (by omega)]
      simp only [Prod.mk.injEq, and_true]
      omega

set_option maxRecDepth 100000 in
/-- One byte: the inner loop counts the leading zero bits of `flag`, and returns from inside
exactly when there are fewer than eight. -/
theorem ip_prefix_match_inner_bits : ∀ flag, flag < 256 →
    (ip_prefix_match_inner 8 flag 0).1 ≤ 8
      ∧ ((ip_prefix_match_inner 8 flag 0).2 = true ↔ (ip_prefix_match_inner 8 flag 0).1 < 8)
      ∧ (∀ m, m < (ip_prefix_match_inner 8 flag 0).1 → flag.testBit (7 - m) = false)
      ∧ ((ip_prefix_match_inner 8 flag 0).1 < 8 →
          flag.testBit (7 - (ip_prefix_match_inner 8 flag 0).1) = true) := by
  decide

theorem bitAt_cons_lt (x : Nat) (xs : List Nat) (n : Nat) (h : n < 8) :
    bitAt (x :: xs) n = x.testBit (7 - n) := by
  unfold bitAt
  rw [show n / 8 = 0 by omega, show n % 8 = n by omega]
  rfl

theorem bitAt_cons_ge (x : Nat) (xs : List Nat) (n : Nat) (h : 8 ≤ n) :
    bitAt (x :: xs) n = bitAt xs (n - 8) := by
  unfold bitAt
  rw [show n / 8 = (n - 8) / 8 + 1 by omega, show n % 8 = (n - 8) % 8 by omega]
  rfl

theorem bitAt_at (l : List Nat) (i m : Nat) (hm : m < 8) :
    bitAt l (8 * i + (7 - m)) = (l.getD i 0).testBit m := by
  unfold bitAt
  rw [show (8 * i + (7 - m)) / 8 = i by omega, show 7 - (8 * i + (7 - m)) % 8 = m by omega]

theorem xor_testBit_false (x y i : Nat) (h : (x ^^^ y).testBit i = false) :
    x.testBit i = y.testBit i := by
  rw [Nat.testBit_xor] at h
  cases hx : x.testBit i <;> cases hy : y.testBit i <;> simp_all

theorem xor_testBit_true (x y i : Nat) (h : (x ^^^ y).testBit i = true) :
    x.testBit i ≠ y.testBit i := by
  rw [Nat.testBit_xor] at h
  cases hx : x.testBit i <;> cases hy : y.testBit i <;> simp_all

theorem byte_eq_of_bits (x y : Nat) (hx : x < 256) (hy : y < 256)
    (h : ∀ m, m < 8 → x.testBit m = y.testBit m) : x = y := by
  apply Nat.eq_of_testBit_eq
  intro i
  by_cases hi : i < 8
  · exact h i hi
  · have hp : 256 ≤ 2 ^ i :=
      le_trans (by decide : 256 ≤ 2 ^ 8) (Nat.pow_le_pow_right (by decide) (by omega))
    rw [Nat.testBit_lt_two_pow (lt_of_lt_of_le hx hp),
      Nat.testBit_lt_two_pow (lt_of_lt_of_le hy hp)]

/-- The outer loop adds to `count` the length of the longest common prefix of the two byte
runs, in bits, most significant bit first. -/
theorem ip_prefix_match_loop_spec : ∀ (xs ys : List Nat) (c : Nat),
    xs.length = ys.length → (∀ x ∈ xs, x < 256) → (∀ y ∈ ys, y < 256) →
    c + 8 * xs.length ≤ 255 →
    ∃ k, ip_prefix_match_loop xs ys c = c + k ∧ k ≤ 8 * xs.length
      ∧ (∀ n, n < k → bitAt xs n = bitAt ys n)
      ∧ (k < 8 * xs.length → bitAt xs k ≠ bitAt ys k)
  | [], [], c, _, _, _, _ => ⟨0, by simp [ip_prefix_match_loop], by simp, by simp, by simp⟩
  | [], _ :: _, _, h, _, _, _ => by simp at h
  | _ :: _, [], _, h, _, _, _ => by simp at h
  | x :: xs, y :: ys, c, hlen, hx, hy, hc => by
    have hx0 : x < 256 := hx x (List.mem_cons_self _ _)
    have hy0 : y < 256 := hy y (List.mem_cons_self _ _)
    have hf : x ^^^ y < 256 := Nat.xor_lt_two_pow (n := 8) hx0 hy0
    obtain ⟨b1, b2, b3, b4⟩ := ip_prefix_match_inner_bits (x ^^^ y) hf
    have hadd := ip_prefix_match_inner_add 8 (x ^^^ y) c
      (by simp only [List.length_cons] at hc; omega)
    by_cases hr : (ip_prefix_match_inner 8 (x ^^^ y) 0).2 = true
    · have hk := b2.mp hr
      refine ⟨(ip_prefix_match_inner 8 (x ^^^ y) 0).1, ?_, ?_, ?_, ?_⟩
      · simp only [ip_prefix_match_loop, Nat.mod_eq_of_lt hf, hadd, hr, if_true]
        omega
      · simp only [List.length_cons]
        omega
      · intro n hn
        rw [bitAt_cons_lt _ _ _ (by omega), bitAt_cons_lt _ _ _ (by omega)]
        exact xor_testBit_false _ _ _ (b3 n hn)
      · intro _
        rw [bitAt_cons_lt _ _ _ hk, bitAt_cons_lt _ _ _ hk]
        exact xor_testBit_true _ _ _ (b4 hk)
    · have hk : (ip_prefix_match_inner 8 (x ^^^ y) 0).1 = 8 := by
        have : ¬ (ip_prefix_match_inner 8 (x ^^^ y) 0).1 < 8 := fun h => hr (b2.mpr h)
        omega
      obtain ⟨k, e1, e2, e3, e4⟩ := ip_prefix_match_loop_spec xs ys (8 + c)
        (by simpa using hlen)
        (fun a ha => hx a (List.mem_cons_of_mem _ ha))
        (fun a ha => hy a (List.mem_cons_of_mem _ ha))
        (by simp only [List.length_cons] at hc; omega)
      refine ⟨8 + k, ?_, ?_, ?_, ?_⟩
      · simp only [ip_prefix_match_loop, Nat.mod_eq_of_lt hf, hadd, hr, hk]
        simp only [Bool.false_eq_true, if_false]
        rw [e1]
        omega
      · simp only [List.length_cons]
        omega
      · intro n hn
        by_cases h8 : n < 8
        · rw [bitAt_cons_lt _ _ _ h8, bitAt_cons_lt _ _ _ h8]
          exact xor_testBit_false _ _ _ (b3 n (by omega))
        · rw [bitAt_cons_ge _ _ _ (by omega), bitAt_cons_ge _ _ _ (by omega)]
          exact e3 (n - 8) (by omega)
      · intro hlt
        simp only [List.length_cons] at hlt
        rw [bitAt_cons_ge _ _ _ (by omega), bitAt_cons_ge _ _ _ (by omega),
          show 8 + k - 8 = k by omega]
        exact e4 (by omega)

theorem ip_prefix_match_loop_comm : ∀ (xs ys : List Nat) (c : Nat),
    ip_prefix_match_loop xs ys c = ip_prefix_match_loop ys xs c
  | [], [], _ => rfl
  | [], _ :: _, _ => by simp [ip_prefix_match_loop]
  | _ :: _, [], _ => by simp [ip_prefix_match_loop]
  | x :: xs, y :: ys, c => by
    simp only [ip_prefix_match_loop, Nat.xor_comm y x]
    rw [ip_prefix_match_loop_comm xs ys]

/-- C29. For two addresses of byte values, `ip_prefix_match` returns the length in bits of
their longest common prefix, most significant bit first from byte 0: the result is at most
32, the bits before it agree, the bit at it differs when it is below 32, it is 32 exactly
when the addresses are equal, and it does not depend on the order of the arguments. -/
theorem ip_prefix_match_spec (a b : ip_t) (ha : ∀ x ∈ a.bytes, x < 256)
    (hb : ∀ x ∈ b.bytes, x < 256) :
    ip_prefix_match a b ≤ 32
      ∧ (∀ n, n < ip_prefix_match a b → a.bit n = b.bit n)
      ∧ (ip_prefix_match a b < 32 → a.bit (ip_prefix_match a b) ≠ b.bit (ip_prefix_match a b))
      ∧ (ip_prefix_match a b = 32 ↔ a = b)
      ∧ ip_prefix_match a b = ip_prefix_match b a := by
  obtain ⟨k, e1, e2, e3, e4⟩ := ip_prefix_match_loop_spec a.bytes b.bytes 0 rfl ha hb
    (by simp [ip_t.bytes])
  have hk : ip_prefix_match a b = k := by
    unfold ip_prefix_match
    rw [e1, Nat.zero_add]
  have hl : 8 * a.bytes.length = 32 := rfl
  rw [hl] at e2 e4
  rw [hk]
  refine ⟨e2, e3, e4, ?_, ?_⟩
  · constructor
    · intro h32
      have hbyte : ∀ i, i < 4 → a.bytes.getD i 0 = b.bytes.getD i 0 := by
        intro i hi
        have hai : a.bytes.getD i 0 < 256 := by
          rw [List.getD_eq_getElem _ _ (show i < a.bytes.length from hi)]
          exact ha _ (List.getElem_mem _)
        have hbi : b.bytes.getD i 0 < 256 := by
          rw [List.getD_eq_getElem _ _ (show i < b.bytes.length from hi)]
          exact hb _ (List.getElem_mem _)
        apply byte_eq_of_bits _ _ hai hbi
        intro m hm
        rw [← bitAt_at a.bytes i m hm, ← bitAt_at b.bytes i m hm]
        exact e3 _ (by omega)
      have h0 := hbyte 0 (by omega)
      have h1 := hbyte 1 (by omega)
      have h2 := hbyte 2 (by omega)
      have h3 := hbyte 3 (by omega)
      obtain ⟨a0, a1, a2, a3⟩ := a
      obtain ⟨b0, b1, b2, b3⟩ := b
      simp only [ip_t.bytes, List.getD_cons_zero, List.getD_cons_succ] at h0 h1 h2 h3
      rw [h0, h1, h2, h3]
    · intro hab
      by_contra hne
      exact e4 (by omega) (by rw [hab])
  · rw [← hk]
    unfold ip_prefix_match
    exact ip_prefix_match_loop_comm _ _ _

/-- C29 on `10.0.0.1` and `10.0.0.2`: the first 30 bits agree. -/
theorem ip_prefix_match_spec_witness :
    (∀ x ∈ exCfg.net_if_ip.bytes, x < 256) ∧ (∀ x ∈ exPeer.bytes, x < 256)
      ∧ ip_prefix_match exCfg.net_if_ip exPeer = 30
      ∧ (∀ n, n < ip_prefix_match exCfg.net_if_ip exPeer →
          exCfg.net_if_ip.bit n = exPeer.bit n)
      ∧ (ip_prefix_match exCfg.net_if_ip exPeer < 32 →
          exCfg.net_if_ip.bit (ip_prefix_match exCfg.net_if_ip exPeer)
            ≠ exPeer.bit (ip_prefix_match exCfg.net_if_ip exPeer))
      ∧ (ip_prefix_match exCfg.net_if_ip exPeer = 32 ↔ exCfg.net_if_ip = exPeer)
      ∧ ip_prefix_match exCfg.net_if_ip exPeer = ip_prefix_match exPeer exCfg.net_if_ip :=
  have h := ip_prefix_match_spec exCfg.net_if_ip exPeer (by decide) (by decide)
  ⟨by decide, by decide, by decide, h.2.1, h.2.2.1, h.2.2.2.1, h.2.2.2.2⟩

/-! ## TCP: closing a connection and closing a port -/

/-- The checks of `ip_in` on the frame contents: none of them reads the header-length
nibble, and a frame that passes them all is handed to `net_in`. -/
theorem ip_in_accepts (cfg : NetCfg) (net_in : buf_t → Nat → ip_t → Int) (buf : buf_t)
    (hwf : buf.data + buf.len ≤ buf.payload.length) (hb : ∀ x ∈ buf.payload, x < 256)
    (h20 : 20 ≤ buf.len) (hv : buf.bytes.getD 0 0 / 16 = 4)
    (htot : be16 buf.bytes 2 ≤ buf.len)
    (hck : checksum16 (buf.bytes.take 10 ++ [0, 0] ++ (buf.bytes.drop 12).take 8)
      = buf.bytes.getD 10 0 + 256 * buf.bytes.getD 11 0)
    (hdst : (⟨buf.bytes.getD 16 0, buf.bytes.getD 17 0, buf.bytes.getD 18 0,
      buf.bytes.getD 19 0⟩ : ip_t) = cfg.net_if_ip) :
    (ip_in cfg net_in buf).delivered.isSome = true := by
  rw [(ip_in_guards cfg net_in buf).1]
  have r0 := rd8_eq_getD buf.payload buf.data buf.len 0 (by omega)
  have r10 := rd8_eq_getD buf.payload buf.data buf.len 10 (by omega)
  have r11 := rd8_eq_getD buf.payload buf.data buf.len 11 (by omega)
  have r16 := rd8_eq_getD buf.payload buf.data buf.len 16 (by omega)
  have r17 := rd8_eq_getD buf.payload buf.data buf.len 17 (by omega)
  have r18 := rd8_eq_getD buf.payload buf.data buf.len 18 (by omega)
  have r19 := rd8_eq_getD buf.payload buf.data buf.len 19 (by omega)
  rw [← buf_t.bytes] at r0 r10 r11 r16 r17 r18 r19
  rw [Nat.add_zero] at r0
  have hz := ip_in_zeroed buf h20 hwf
  have hres := ip_in_restore buf.payload buf.data (by omega) hb
  have hck2 : rd16 buf.payload (buf.data + 10)
      = buf.bytes.getD 10 0 + 256 * buf.bytes.getD 11 0 := by
    unfold rd16
    rw [show buf.data + 10 + 1 = buf.data + 11 from rfl, r10, r11]
  have hdst2 : rdIp buf.payload (buf.data + 16)
      = ⟨buf.bytes.getD 16 0, buf.bytes.getD 17 0, buf.bytes.getD 18 0,
          buf.bytes.getD 19 0⟩ := by
    unfold rdIp
    rw [show buf.data + 16 + 1 = buf.data + 17 from rfl,
      show buf.data + 16 + 2 = buf.data + 18 from rfl,
      show buf.data + 16 + 3 = buf.data + 19 from rfl, r16, r17, r18, r19]
  rw [hres, hz, ip_in_total buf h20 hb, hck2, hdst2, r0]
  exact ⟨h20, hv, htot, hck, hdst⟩

/-- C27, as amended. `ip_in` does not examine the header-length field: a frame of at least
20 bytes with version 4, a total length within the frame, a matching header checksum and
the local destination address is handed to the demultiplexer whatever its `hdr_len`, also
when `hdr_len` is below 5 or `hdr_len × 4` exceeds the total length.  When `hdr_len × 4`
is at most the total length, exactly `hdr_len × 4` bytes are stripped, no more than the
packet holds: the buffer handed over holds the bytes of the frame from offset
`hdr_len × 4` up to the total length. -/
theorem ip_in_hdr_len_unchecked (cfg : NetCfg) (net_in : buf_t → Nat → ip_t → Int)
    (buf : buf_t) (hwf : buf.data + buf.len ≤ buf.payload.length)
    (hb : ∀ x ∈ buf.payload, x < 256)
    (h20 : 20 ≤ buf.len) (hv : buf.bytes.getD 0 0 / 16 = 4)
    (htot : be16 buf.bytes 2 ≤ buf.len)
    (hck : checksum16 (buf.bytes.take 10 ++ [0, 0] ++ (buf.bytes.drop 12).take 8)
      = buf.bytes.getD 10 0 + 256 * buf.bytes.getD 11 0)
    (hdst : (⟨buf.bytes.getD 16 0, buf.bytes.getD 17 0, buf.bytes.getD 18 0,
      buf.bytes.getD 19 0⟩ : ip_t) = cfg.net_if_ip) :
    (ip_in cfg net_in buf).delivered.isSome = true
      ∧ (buf.bytes.getD 0 0 % 16 * 4 ≤ be16 buf.bytes 2 →
        ∃ (b : buf_t) (protocol : Nat) (src_ip : ip_t),
          (ip_in cfg net_in buf).delivered = some (b, protocol, src_ip)
          ∧ b.len + buf.bytes.getD 0 0 % 16 * 4 = be16 buf.bytes 2
          ∧ b.bytes = (buf.bytes.take (be16 buf.bytes 2)).drop
              (buf.bytes.getD 0 0 % 16 * 4)) := by
  have h := ip_in_accepts cfg net_in buf hwf hb h20 hv htot hck hdst
  refine ⟨h, fun hhl => ?_⟩
  have r0 := rd8_eq_getD buf.payload buf.data buf.len 0 (by omega)
  rw [← buf_t.bytes, Nat.add_zero] at r0
  rw [ip_in_delivered cfg net_in buf hwf hb h, ip_in_total buf h20 hb, r0]
  refine ⟨_, _, _, rfl, ?_, ?_⟩
  · simp only [buf_remove_header, if_neg (not_lt.mpr hhl)]
    omega
  · simp only [buf_remove_header, if_neg (not_lt.mpr hhl)]
    exact ip_in_cut buf _ _ htot

/-- C27, as amended, on the frame with header length 4, total length 24 and a checksum to
match: it is handed over, and with 16 bytes stripped the buffer holds the last four bytes
of the header and the four data bytes. -/
theorem ip_in_hdr_len_unchecked_witness :
    exFrameShortHdr.data + exFrameShortHdr.len ≤ exFrameShortHdr.payload.length
      ∧ (∀ x ∈ exFrameShortHdr.payload, x < 256)
      ∧ exFrameShortHdr.bytes.getD 0 0 % 16 = 4
      ∧ be16 exFrameShortHdr.bytes 2 = 24
      ∧ (ip_in exCfg (fun _ _ _ => 0) exFrameShortHdr).delivered.isSome = true
      ∧ ∃ (b : buf_t) (protocol : Nat) (src_ip : ip_t),
          (ip_in exCfg (fun _ _ _ => 0) exFrameShortHdr).delivered
            = some (b, protocol, src_ip)
          ∧ b.len + 16 = 24
          ∧ b.bytes = [10, 0, 0, 1, 1, 2, 3, 4] :=
  have h1 : exFrameShortHdr.data + exFrameShortHdr.len ≤ exFrameShortHdr.payload.length := by
    decide
  have h2 : ∀ x ∈ exFrameShortHdr.payload, x < 256 := by decide
  have h := ip_in_hdr_len_unchecked exCfg (fun _ _ _ => 0) exFrameShortHdr h1 h2
    (by decide) (by decide) (by decide) (by decide) (by decide)
  ⟨h1, h2, by decide, by decide, h.1, h.2 (by decide)⟩

/-- C27 at two concrete frames.  Both pass every check of `ip_in` and are handed to the
demultiplexer: one has header length 4 (16 of its bytes are stripped), the other has header
length 15, sixty bytes for a packet whose total length is 24.  C27 has both dropped. -/
theorem ip_in_ignores_hdr_len :
    exFrameShortHdr.bytes.getD 0 0 % 16 = 4
      ∧ be16 exFrameShortHdr.bytes 2 = 24
      ∧ (ip_in exCfg (fun _ _ _ => 0) exFrameShortHdr).delivered.map
          (fun r => (r.1.bytes, r.2.1)) = some ([10, 0, 0, 1, 1, 2, 3, 4], 17)
      ∧ exFrameLongHdr.bytes.getD 0 0 % 16 = 15
      ∧ be16 exFrameLongHdr.bytes 2 = 24
      ∧ (ip_in exCfg (fun _ _ _ => 0) exFrameLongHdr).delivered.isSome = true := by
  decide


/-! ## IPv4 egress through ARP: `ip_out` on the transmit buffer -/

/-- The request frame of `arp_req` is 60 bytes long when `txbuf` has room for it. -/
theorem arp_req_len (cfg : NetCfg) (eth : EthCfg) (txbuf : buf_t) (ip : ip_t)
    (hroom : 14 ≤ cfg.origin 28) (hcap : cfg.origin 28 + 46 ≤ cfg.BUF_MAX_LEN) :
    (arp_req cfg eth txbuf ip).len = 60 := by
  simp only [arp_req, ethernet_out, buf_init, buf_add_padding, buf_add_header,
    show (28 : Nat) < 46 by decide, if_true,
    if_neg (show ¬ cfg.BUF_MAX_LEN < cfg.origin 28 + 28 + (46 - 28) by omega),
    if_neg (show ¬ cfg.origin 28 < 14 by omega)]

/-- When the address is in neither table, `arp_out` leaves the request frame in `txbuf`. -/
theorem arp_out_miss_txbuf (cfg : NetCfg) (eth : EthCfg) (env : arp_env) (buf : buf_t)
    (ip : ip_t) (now : Nat)
    (htab : map_get_timed eth.ARP_TIMEOUT_SEC now env.arp_table ip = none)
    (hq : map_get_timed eth.ARP_MIN_INTERVAL now env.arp_buf ip = none) :
    (arp_out cfg eth env buf ip now).1.txbuf = arp_req cfg eth env.txbuf ip := by
  simp only [arp_out, htab, hq]

/-- When the address is resolved or a frame for it is pending, `arp_out` leaves the state
as it is. -/
theorem arp_out_quiet (cfg : NetCfg) (eth : EthCfg) (env : arp_env) (buf : buf_t)
    (ip : ip_t) (now : Nat)
    (h : map_get_timed eth.ARP_TIMEOUT_SEC now env.arp_table ip ≠ none
      ∨ map_get_timed eth.ARP_MIN_INTERVAL now env.arp_buf ip ≠ none) :
    (arp_out cfg eth env buf ip now).1 = env := by
  unfold arp_out
  cases ht : map_get_timed eth.ARP_TIMEOUT_SEC now env.arp_table ip with
  | some mac => rfl
  | none =>
    cases hp : map_get_timed eth.ARP_MIN_INTERVAL now env.arp_buf ip with
    | some f => rfl
    | none =>
      rw [ht, hp] at h
      simp at h

/-- With the address resolved or pending, the loop on `txbuf` is the loop of `ip_out_loop`
on the contents of `txbuf`, and the state stays as it is. -/
theorem ip_out_tx_loop_quiet (cfg : NetCfg) (eth : EthCfg) (junk : buf_t) (env : arp_env)
    (ip : ip_t) (protocol id now : Nat)
    (h : map_get_timed eth.ARP_TIMEOUT_SEC now env.arp_table ip ≠ none
      ∨ map_get_timed eth.ARP_MIN_INTERVAL now env.arp_buf ip ≠ none) :
    ∀ fuel i : Nat,
      ip_out_tx_loop cfg eth junk ip protocol id now fuel i env
        = ((ip_out_loop cfg junk env.txbuf ip protocol id fuel i).1,
           (ip_out_loop cfg junk env.txbuf ip protocol id fuel i).2, env) := by
  intro fuel
  induction fuel with
  | zero => intro i; rfl
  | succ fuel ih =>
    intro i
    by_cases hc : (i + 1) * (1500 - IP_HDR_LEN) < env.txbuf.len
    · simp only [ip_out_tx_loop, ip_out_loop, if_pos hc, arp_out_quiet cfg eth env _ ip now h,
        ih (i + 1)]
    · simp only [ip_out_tx_loop, ip_out_loop, if_neg hc]

/-- With the address resolved or pending (so that `arp_out` sends no request during the
call), `ip_out` on a payload in `txbuf` that fits the frame buffer hands to `arp_out` exactly
the fragments of `ip_out` on an unchanging buffer, and the counter goes up by one. -/
theorem ip_out_tx_quiet (cfg : NetCfg) (eth : EthCfg) (junk : buf_t) (env : arp_env)
    (ip : ip_t) (protocol id now : Nat)
    (hroom : ∀ n, n ≤ 1480 → 20 ≤ cfg.origin n ∧ cfg.origin n + n ≤ cfg.BUF_MAX_LEN)
    (hjunk : junk.payload.length = cfg.BUF_MAX_LEN)
    (hbuf : env.txbuf.data + env.txbuf.len ≤ env.txbuf.payload.length)
    (hlen : env.txbuf.len < 18446744073709551616)
    (h : map_get_timed eth.ARP_TIMEOUT_SEC now env.arp_table ip ≠ none
      ∨ map_get_timed eth.ARP_MIN_INTERVAL now env.arp_buf ip ≠ none) :
    ∃ last : buf_t,
      (ip_out_tx cfg eth junk env ip protocol id now).last = some last
      ∧ (ip_out_tx cfg eth junk env ip protocol id now).frags ++ [last]
          = (ip_out cfg junk env.txbuf ip protocol id).1
      ∧ (ip_out_tx cfg eth junk env ip protocol id now).id = id + 1
      ∧ (ip_out_tx cfg eth junk env ip protocol id now).env = env := by
  obtain ⟨hr1, hr2⟩ := hroom 1480 (le_refl _)
  obtain ⟨h1, h2, h3, -⟩ :=
    ip_out_loop_payloads cfg junk env.txbuf ip protocol id hr1 hr2 hjunk hbuf env.txbuf.len 0
  have hexit := h3 (by omega)
  have hloop := ip_out_tx_loop_quiet cfg eth junk env ip protocol id now h env.txbuf.len 0
  generalize hr : ip_out_loop cfg junk env.txbuf ip protocol id env.txbuf.len 0 = r
    at h1 h2 hexit hloop
  have hn : env.txbuf.len - r.2 * 1480 ≤ 1480 := by omega
  obtain ⟨-, hn2⟩ := hroom _ hn
  have hsize : (env.txbuf.len % 18446744073709551616
      + (18446744073709551616 - r.2 * 1480 % 18446744073709551616)) % 18446744073709551616
      = env.txbuf.len - r.2 * 1480 := by
    have hle : r.2 * 1480 ≤ env.txbuf.len := by omega
    omega
  simp only [ip_out_tx, ip_out, hloop, hr, IP_HDR_LEN, hsize,
    if_neg (show ¬ cfg.BUF_MAX_LEN < env.txbuf.len - r.2 * 1480 by omega)]
  exact ⟨_, rfl, rfl, trivial, arp_out_quiet cfg eth env _ ip now h⟩

/-- With the address in neither table and a payload in `txbuf` that needs more than one
fragment, `ip_out` hands the first fragment to `arp_out`, whose request takes over `txbuf`:
the loop test then reads the length 60 of the request frame and the loop ends, and Step 3
asks for `60 - 1480` bytes, which wraps to `2^64 - 1420`.  The fragments handed over are
those of the first round alone. -/
theorem ip_out_tx_miss (cfg : NetCfg) (eth : EthCfg) (junk : buf_t) (env : arp_env)
    (ip : ip_t) (protocol id now : Nat)
    (htab : map_get_timed eth.ARP_TIMEOUT_SEC now env.arp_table ip = none)
    (hq : map_get_timed eth.ARP_MIN_INTERVAL now env.arp_buf ip = none)
    (hlong : 1480 < env.txbuf.len)
    (hroom : 14 ≤ cfg.origin 28) (hcap : cfg.origin 28 + 46 ≤ cfg.BUF_MAX_LEN)
    (hmax : cfg.BUF_MAX_LEN < 18446744073709550196) :
    (ip_out_tx cfg eth junk env ip protocol id now).frags
        = (ip_out_loop cfg junk env.txbuf ip protocol id 1 0).1
      ∧ (ip_out_loop cfg junk env.txbuf ip protocol id 1 0).2 = 1
      ∧ (ip_out_tx cfg eth junk env ip protocol id now).last = none
      ∧ (ip_out_tx cfg eth junk env ip protocol id now).size = 18446744073709550196
      ∧ (ip_out_tx cfg eth junk env ip protocol id now).env.txbuf.len = 60
      ∧ (ip_out_tx cfg eth junk env ip protocol id now).id = id := by
  obtain ⟨n, hn⟩ : ∃ n, env.txbuf.len = n + 2 := ⟨env.txbuf.len - 2, by omega⟩
  have hc0 : (0 + 1) * (1500 - IP_HDR_LEN) < env.txbuf.len := by
    simp only [IP_HDR_LEN]
    omega
  have hlen1 : ∀ f, (arp_out cfg eth env f ip now).1.txbuf.len = 60 := by
    intro f
    rw [arp_out_miss_txbuf cfg eth env f ip now htab hq, arp_req_len cfg eth _ ip hroom hcap]
  have hc1 : ∀ f, ¬ (0 + 1 + 1) * (1500 - IP_HDR_LEN)
      < (arp_out cfg eth env f ip now).1.txbuf.len := by
    intro f
    rw [hlen1 f]
    decide
  have hloop : ip_out_tx_loop cfg eth junk ip protocol id now env.txbuf.len 0 env
      = ((ip_out_loop cfg junk env.txbuf ip protocol id 1 0).1, 1,
          (arp_out cfg eth env
            (ip_fragment_out cfg
              { buf_init cfg junk (1500 - IP_HDR_LEN) with
                payload := memWrite (buf_init cfg junk (1500 - IP_HDR_LEN)).payload
                  (buf_init cfg junk (1500 - IP_HDR_LEN)).data
                  (memRead env.txbuf.payload (env.txbuf.data + 0 * (1500 - IP_HDR_LEN))
                    (1500 - IP_HDR_LEN)) }
              ip protocol id (0 * ((1500 - IP_HDR_LEN) / 8)) 1) ip now).1) := by
    rw [hn]
    simp only [ip_out_tx_loop, ip_out_loop, if_pos hc0, if_neg (hc1 _)]
  have hsize : (60 % 18446744073709551616
      + (18446744073709551616 - 1 * (1500 - IP_HDR_LEN) % 18446744073709551616))
      % 18446744073709551616 = 18446744073709550196 := by
    decide
  refine ⟨?_, ?_, ?_, ?_, ?_, ?_⟩
  · simp only [ip_out_tx, hloop, hlen1, hsize, if_pos hmax]
  · simp only [ip_out_loop, if_pos hc0]
  · simp only [ip_out_tx, hloop, hlen1, hsize, if_pos hmax]
  · simp only [ip_out_tx, hloop, hlen1, hsize, if_pos hmax]
  · simp only [ip_out_tx, hloop, hlen1, hsize, if_pos hmax]
  · simp only [ip_out_tx, hloop, hlen1, hsize, if_pos hmax]

/-- A payload in `txbuf` that fits one fragment is read before the one `arp_out` call of
the run: whatever the ARP state, `ip_out` hands to `arp_out` exactly the fragment of
`ip_out` on an unchanging buffer, and the counter goes up by one. -/
theorem ip_out_tx_short (cfg : NetCfg) (eth : EthCfg) (junk : buf_t) (env : arp_env)
    (ip : ip_t) (protocol id now : Nat)
    (hlen : env.txbuf.len ≤ 1480) (hcap : env.txbuf.len ≤ cfg.BUF_MAX_LEN) :
    ∃ last : buf_t,
      (ip_out_tx cfg eth junk env ip protocol id now).frags = []
      ∧ (ip_out_tx cfg eth junk env ip protocol id now).last = some last
      ∧ (ip_out cfg junk env.txbuf ip protocol id).1 = [last]
      ∧ (ip_out_tx cfg eth junk env ip protocol id now).id = id + 1 := by
  have hloop : ip_out_tx_loop cfg eth junk ip protocol id now env.txbuf.len 0 env
      = ([], 0, env) := by
    cases hf : env.txbuf.len with
    | zero => rfl
    | succ n =>
      simp only [ip_out_tx_loop, IP_HDR_LEN]
      rw [if_neg (by omega)]
  have hloop2 : ip_out_loop cfg junk env.txbuf ip protocol id env.txbuf.len 0 = ([], 0) := by
    cases hf : env.txbuf.len with
    | zero => rfl
    | succ n =>
      simp only [ip_out_loop, IP_HDR_LEN]
      rw [if_neg (by omega)]
  have hsize : (env.txbuf.len % 18446744073709551616
      + (18446744073709551616 - 0 * 1480 % 18446744073709551616)) % 18446744073709551616
      = env.txbuf.len := by omega
  simp only [ip_out_tx, ip_out, hloop, hloop2, IP_HDR_LEN, hsize, if_neg (not_lt.mpr hcap),
    List.nil_append, Nat.zero_mul, Nat.add_zero, Nat.sub_zero]
  exact ⟨_, trivial, rfl, rfl, trivial⟩

/-- The request frame of `arp_req` holds at most 60 bytes. -/
theorem arp_req_len_le (cfg : NetCfg) (eth : EthCfg) (txbuf : buf_t) (ip : ip_t) :
    (arp_req cfg eth txbuf ip).len ≤ 60 := by
  simp only [arp_req, ethernet_out, buf_init, buf_add_padding, buf_add_header]
  split_ifs <;> simp only <;> omega

/-- After `arp_out`, `txbuf` is as long as before or holds a request frame. -/
theorem arp_out_txbuf_len (cfg : NetCfg) (eth : EthCfg) (env : arp_env) (buf : buf_t)
    (ip : ip_t) (now : Nat) :
    (arp_out cfg eth env buf ip now).1.txbuf.len ≤ max env.txbuf.len 60 := by
  unfold arp_out
  cases map_get_timed eth.ARP_TIMEOUT_SEC now env.arp_table ip with
  | some mac => exact le_max_left _ _
  | none =>
    cases map_get_timed eth.ARP_MIN_INTERVAL now env.arp_buf ip with
    | some f => exact le_max_left _ _
    | none => exact le_trans (arp_req_len_le cfg eth env.txbuf ip) (le_max_right _ _)

theorem ip_out_tx_loop_exit_from (cfg : NetCfg) (eth : EthCfg) (junk : buf_t) (ip : ip_t)
    (protocol id now : Nat) :
    ∀ (fuel i : Nat) (env : arp_env), env.txbuf.len ≤ (i + fuel + 1) * 1480 →
      ¬ (((ip_out_tx_loop cfg eth junk ip protocol id now fuel i env).2.1 + 1) * 1480
        < (ip_out_tx_loop cfg eth junk ip protocol id now fuel i env).2.2.txbuf.len) := by
  intro fuel
  induction fuel with
  | zero =>
    intro i env h
    simp only [ip_out_tx_loop]
    omega
  | succ fuel ih =>
    intro i env h
    by_cases hc : (i + 1) * (1500 - IP_HDR_LEN) < env.txbuf.len
    · simp only [ip_out_tx_loop, if_pos hc]
      apply ih
      have hl := arp_out_txbuf_len cfg eth env
        (ip_fragment_out cfg
          { buf_init cfg junk (1500 - IP_HDR_LEN) with
            payload := memWrite (buf_init cfg junk (1500 - IP_HDR_LEN)).payload
              (buf_init cfg junk (1500 - IP_HDR_LEN)).data
              (memRead env.txbuf.payload (env.txbuf.data + i * (1500 - IP_HDR_LEN))
                (1500 - IP_HDR_LEN)) }
          ip protocol id (i * ((1500 - IP_HDR_LEN) / 8)) 1) ip now
      have hm : max env.txbuf.len 60 ≤ (i + 1 + fuel + 1) * 1480 := by
        apply max_le <;> omega
      exact le_trans hl hm
    · simp only [ip_out_tx_loop, if_neg hc]
      simpa [IP_HDR_LEN] using hc

/-- The loop of `ip_out` on `txbuf` ends by its test within `txbuf.len` rounds, whatever
`arp_out` does to `txbuf` on the way. -/
theorem ip_out_tx_loop_exit (cfg : NetCfg) (eth : EthCfg) (junk : buf_t) (env : arp_env)
    (ip : ip_t) (protocol id now : Nat) :
    ¬ (((ip_out_tx_loop cfg eth junk ip protocol id now env.txbuf.len 0 env).2.1 + 1) * 1480
      < (ip_out_tx_loop cfg eth junk ip protocol id now env.txbuf.len 0 env).2.2.txbuf.len) :=
  ip_out_tx_loop_exit_from cfg eth junk ip protocol id now env.txbuf.len 0 env (by omega)

/-! ## `ip_out` for a 3200-byte payload in `txbuf` and an unresolved destination -/

theorem exTx_fits : exTx.data + exTx.len ≤ exTx.payload.length := by
  rw [show exTx.payload
    = List.replicate 128 0 ++ List.replicate 3200 7 ++ List.replicate 768 0 from rfl,
    List.length_append, List.length_append, List.length_replicate, List.length_replicate,
    List.length_replicate]
  decide

/-- The outcome of `ip_out(&txbuf, 10.0.0.2, UDP)` on the 3200-byte payload with empty ARP
tables, in terms of the first round of the fragmenting loop. -/
theorem exTx_miss :
    (ip_out_tx exCfgBig exEth exScratchBig exArpEnvTx exPeer NET_PROTOCOL_UDP 0 100).frags
        = (ip_out_loop exCfgBig exScratchBig exTx exPeer NET_PROTOCOL_UDP 0 1 0).1
      ∧ (ip_out_loop exCfgBig exScratchBig exTx exPeer NET_PROTOCOL_UDP 0 1 0).2 = 1
      ∧ (ip_out_tx exCfgBig exEth exScratchBig exArpEnvTx exPeer NET_PROTOCOL_UDP 0 100).last
          = none
      ∧ (ip_out_tx exCfgBig exEth exScratchBig exArpEnvTx exPeer NET_PROTOCOL_UDP 0 100).size
          = 18446744073709550196
      ∧ (ip_out_tx exCfgBig exEth exScratchBig exArpEnvTx exPeer NET_PROTOCOL_UDP 0
          100).env.txbuf.len = 60
      ∧ (ip_out_tx exCfgBig exEth exScratchBig exArpEnvTx exPeer NET_PROTOCOL_UDP 0 100).id
          = 0 :=
  ip_out_tx_miss exCfgBig exEth exScratchBig exArpEnvTx exPeer NET_PROTOCOL_UDP 0 100
    rfl rfl (by decide) (by decide) (by decide) (by decide)

/-- C1 at a concrete state. `txbuf` holds a payload of 3200 bytes and the destination
`10.0.0.2` is in neither ARP table.  `ip_out(&txbuf, …)` hands one fragment to `arp_out`,
whose ARP request takes over `txbuf`; no further fragment is handed over (Step 3 is
undefined), so the payloads of the fragments emitted are the first 1480 bytes of the 3200. -/
theorem ip_out_tx_cuts_payload :
    map_get_timed exEth.ARP_TIMEOUT_SEC 100 exArpEnvTx.arp_table exPeer = none
      ∧ map_get_timed exEth.ARP_MIN_INTERVAL 100 exArpEnvTx.arp_buf exPeer = none
      ∧ exArpEnvTx.txbuf.bytes.length = 3200
      ∧ (ip_out_tx exCfgBig exEth exScratchBig exArpEnvTx exPeer NET_PROTOCOL_UDP 0 100).last
          = none
      ∧ ((ip_out_tx exCfgBig exEth exScratchBig exArpEnvTx exPeer NET_PROTOCOL_UDP 0
            100).frags.map (fun f => f.bytes.drop 20)).flatten
          = exArpEnvTx.txbuf.bytes.take 1480 := by
  obtain ⟨hfr, hidx, hlast, -, -, -⟩ := exTx_miss
  have h2 : exScratchBig.payload.length = exCfgBig.BUF_MAX_LEN := List.length_replicate 4096 0
  obtain ⟨hr1, hr2⟩ := exCfgBig_room 1480 (le_refl _)
  obtain ⟨-, -, -, hpay⟩ := ip_out_loop_payloads exCfgBig exScratchBig exTx exPeer
    NET_PROTOCOL_UDP 0 hr1 hr2 h2 exTx_fits 1 0
  rw [hidx] at hpay
  refine ⟨rfl, rfl, memRead_length _ _ _ exTx_fits, hlast, ?_⟩
  rw [hfr, hpay]
  show memRead exTx.payload (exTx.data + 0 * 1480) ((1 - 0) * 1480)
    = (memRead exTx.payload exTx.data exTx.len).take 1480
  rw [memRead_take]
  rfl

/-- C19 at a concrete state. On the same call the only fragment emitted, fragment 0, carries
offset 0 with the More-Fragments bit set, and nothing follows it. -/
theorem ip_out_tx_single_fragment_mf :
    map_get_timed exEth.ARP_TIMEOUT_SEC 100 exArpEnvTx.arp_table exPeer = none
      ∧ map_get_timed exEth.ARP_MIN_INTERVAL 100 exArpEnvTx.arp_buf exPeer = none
      ∧ exArpEnvTx.txbuf.len = 3200
      ∧ (ip_out_tx exCfgBig exEth exScratchBig exArpEnvTx exPeer NET_PROTOCOL_UDP 0
            100).frags.map (fun f => (be16 f.bytes 6 % 8192, be16 f.bytes 6 / 8192))
          = [(0, 1)]
      ∧ (ip_out_tx exCfgBig exEth exScratchBig exArpEnvTx exPeer NET_PROTOCOL_UDP 0 100).last
          = none := by
  obtain ⟨hfr, hidx, hlast, -, -, -⟩ := exTx_miss
  have h2 : exScratchBig.payload.length = exCfgBig.BUF_MAX_LEN := List.length_replicate 4096 0
  obtain ⟨hr1, hr2⟩ := exCfgBig_room 1480 (le_refl _)
  obtain ⟨-, hf⟩ := ip_out_loop_fields exCfgBig exScratchBig exTx exPeer NET_PROTOCOL_UDP 0
    hr1 hr2 h2 1 0
  rw [hidx] at hf
  have h := congrArg (List.map (fun t : Nat × Nat × Nat => (t.2.2 % 8192, t.2.2 / 8192))) hf
  rw [List.map_map] at h
  refine ⟨rfl, rfl, rfl, ?_, hlast⟩
  rw [hfr]
  exact h.trans (by decide)

/-- C20 at a concrete state. On the same call one fragment of 1500 bytes is emitted where
`max 1 ⌈3200 / 1480⌉ = 3` are due: after it `txbuf` holds the 60-byte request frame, the
loop test `2 * 1480 < 60` fails, and Step 3 asks `buf_init` for `60 - 1480` bytes, which is
`2^64 - 1420` in `size_t`. -/
theorem ip_out_tx_one_fragment :
    map_get_timed exEth.ARP_TIMEOUT_SEC 100 exArpEnvTx.arp_table exPeer = none
      ∧ map_get_timed exEth.ARP_MIN_INTERVAL 100 exArpEnvTx.arp_buf exPeer = none
      ∧ exArpEnvTx.txbuf.len = 3200
      ∧ max 1 ((3200 + 1479) / 1480) = 3
      ∧ (ip_out_tx exCfgBig exEth exScratchBig exArpEnvTx exPeer NET_PROTOCOL_UDP 0
            100).frags.map (fun f => be16 f.bytes 2) = [1500]
      ∧ (ip_out_tx exCfgBig exEth exScratchBig exArpEnvTx exPeer NET_PROTOCOL_UDP 0
            100).env.txbuf.len = 60
      ∧ (ip_out_tx exCfgBig exEth exScratchBig exArpEnvTx exPeer NET_PROTOCOL_UDP 0 100).size
          = 18446744073709550196
      ∧ (ip_out_tx exCfgBig exEth exScratchBig exArpEnvTx exPeer NET_PROTOCOL_UDP 0 100).last
          = none := by
  obtain ⟨hfr, hidx, hlast, hsize, hlen, -⟩ := exTx_miss
  have h2 : exScratchBig.payload.length = exCfgBig.BUF_MAX_LEN := List.length_replicate 4096 0
  obtain ⟨hr1, hr2⟩ := exCfgBig_room 1480 (le_refl _)
  obtain ⟨-, hf⟩ := ip_out_loop_fields exCfgBig exScratchBig exTx exPeer NET_PROTOCOL_UDP 0
    hr1 hr2 h2 1 0
  rw [hidx] at hf
  have h := congrArg (List.map (fun t : Nat × Nat × Nat => t.2.1)) hf
  rw [List.map_map] at h
  refine ⟨rfl, rfl, rfl, by decide, ?_, hlen, hsize, hlast⟩
  rw [hfr]
  exact h.trans (by decide)

/-- The same payload with `10.0.0.2` resolved: all three fragments are handed to `arp_out`,
with total lengths 1500, 1500 and 260. -/
theorem exTx_known :
    ∃ last : buf_t,
      (ip_out_tx exCfgBig exEth exScratchBig exArpEnvTxKnown exPeer NET_PROTOCOL_UDP 0
          150).last = some last
      ∧ ((ip_out_tx exCfgBig exEth exScratchBig exArpEnvTxKnown exPeer NET_PROTOCOL_UDP 0
          150).frags ++ [last]).map (fun f => be16 f.bytes 2) = [1500, 1500, 260] := by
  have h2 : exScratchBig.payload.length = exCfgBig.BUF_MAX_LEN := List.length_replicate 4096 0
  obtain ⟨last, h1, h3, -, -⟩ := ip_out_tx_quiet exCfgBig exEth exScratchBig exArpEnvTxKnown
    exPeer NET_PROTOCOL_UDP 0 150 exCfgBig_room h2 exTx_fits (by decide)
    (Or.inl (by decide))
  refine ⟨last, h1, ?_⟩
  rw [h3]
  have hf := ip_out_fields exCfgBig exScratchBig exTx exPeer NET_PROTOCOL_UDP 0
    exCfgBig_room h2 exTx_fits
  have h := congrArg (List.map (fun t : Nat × Nat × Nat => t.2.1)) hf
  rw [List.map_map] at h
  exact h.trans (by decide)

end NetStack
